import Mathlib

/-!
# PDFWriter: page-content translation engine

A shallow embedding of the parts of `PDFWriter.cpp` and `PDFText.cpp` that the
properties below talk about, followed by the properties themselves.

Conventions of the embedding

* Bytes (`uint8`), code points (`uint16`) and handles (`int`) are natural
  numbers or integers; a narrowing store is written with an explicit `%`.
* A raw buffer (`uint8*`) is a function from byte offsets to bytes.
* The chain `fState, fState->prev, ...` is a list whose head is the current
  state; the empty list is the null pointer. Code that reads through a null
  `fState` returns `none`.
* Calls into PDFlib are appended, in order, to the log `fPdf`. Where PDFlib
  hands back a value (a pattern, graphics-state or image handle) the value is
  an extra argument of the embedded function: it is what the library answers
  if the call is made.
-/

namespace PDFWriter

/-! ## Data model -/

/-- Colour with the four byte channels of `rgb_color`. -/
structure rgb_color where
  red : Nat
  green : Nat
  blue : Nat
  alpha : Nat
deriving DecidableEq, Repr, Inhabited

/-- Stipple `pattern`: the eight bytes of `pattern.data`. -/
structure pattern where
  data : List Nat
deriving DecidableEq, Repr, Inhabited

/-- A `BPoint`. Coordinates, which the source holds in `float`, are rational
numbers here and the arithmetic on them is exact. -/
structure BPoint where
  x : ℚ
  y : ℚ
deriving DecidableEq, Repr, Inhabited

/-- Modelled from the spec: the coordinate transform `PDFSystem` of a state,
whose class is not among the sources: the page height (for the y-flip), the
origin offset and the scale factor. -/
structure PDFSystem where
  fHeight : ℚ
  fX : ℚ
  fY : ℚ
  fScale : ℚ
deriving DecidableEq, Repr

instance : Inhabited PDFSystem := ⟨{ fHeight := 0, fX := 0, fY := 0, fScale := 1 }⟩

/-- Modelled from the spec: `PDFSystem::Origin`, the origin offset. -/
def PDFSystem.Origin (s : PDFSystem) : BPoint := { x := s.fX, y := s.fY }

/-- Modelled from the spec: `PDFSystem::SetOrigin`, which replaces the origin
offset and nothing else. -/
def PDFSystem.SetOrigin (s : PDFSystem) (x y : ℚ) : PDFSystem := { s with fX := x, fY := y }

/-- Modelled from the spec: `PDFSystem::Scale`, the scale factor. -/
def PDFSystem.Scale (s : PDFSystem) : ℚ := s.fScale

/-- Modelled from the spec: `PDFSystem::SetScale`, which replaces the scale
factor and nothing else. -/
def PDFSystem.SetScale (s : PDFSystem) (scale : ℚ) : PDFSystem := { s with fScale := scale }

/-- Modelled from the spec: `PDFSystem::scale`, a length multiplied by the scale
factor of this system. -/
def PDFSystem.scale (s : PDFSystem) (f : ℚ) : ℚ := s.fScale * f

/-- Attributes of one `State` of the graphics-state stack (the `prev` link is
the tail of the chain the state sits in). -/
structure State where
  pattern0 : pattern
  foregroundColor : rgb_color
  backgroundColor : rgb_color
  currentColor : rgb_color
  drawingMode : Nat
  font : Int
  penX : ℚ
  penY : ℚ
  pdfSystem : PDFSystem
deriving DecidableEq, Repr, Inhabited

/-- Entry of `fTransparencyCache`: an alpha value and its opacity graphics-state
handle. -/
structure Transparency where
  fAlpha : Nat
  fHandle : Int
deriving DecidableEq, Repr

/-- Entry of `fPatterns`: the three key fields and the pattern handle, in the
argument order of the constructor call in `CreatePattern`. -/
structure Pattern where
  pat : pattern
  lowColor : rgb_color
  highColor : rgb_color
  patternId : Int
deriving DecidableEq, Repr

/-- PDFlib calls recorded in the output log. -/
inductive PdfOp where
  | save
  | restore
  | create_gstate (alpha : Nat)
  | set_gstate (handle : Int)
  | setcolor (fstype : String) (colorspace : String) (c1 c2 c3 : Int)
  | begin_pattern
  | end_pattern
  | moveto (x y : Int)
  | lineto (x y : Int)
  | closepath
  | fill
  | encoding_set_char (encoding : String) (slot : Nat) (unicode : Nat)
  | begin_page (width height : ℚ)
  | end_page
  | initgraphics
  | findfont (fontname encoding : String) (embed : Bool)
  | set_parameter (key value : String)
  | set_value (key : String) (value : Int)
  | setfont (font : Int) (size : ℚ)
  | translate (x y : ℚ)
  | rotate (phi : ℚ)
  | set_text_pos (x y : ℚ)
  | show2 (text : List Nat) (len : Int)
deriving DecidableEq, Repr

/-- Entry of `fFontCache`: font name, PDFlib font handle and encoding. -/
structure Font where
  name : String
  font : Int
  encoding : Nat
deriving DecidableEq, Repr

/-- The two values of `fMode`. -/
inductive Mode where
  | kDrawingMode
  | kClippingMode
deriving DecidableEq, Repr

/-- The fields of the `PDFWriter` object used below. `makesPDF` and
`makesPattern` are the answers of `MakesPDF()` and `MakesPattern()` for the
running pass and `supportsOpacity` is the answer of `SupportsOpacity()`. The
variables `static Font* cache` of `FindFont` and `static bool found` of
`DrawChar` are the fields `findFontCache` and `drawCharFound`, and
`reportedUnicodes` lists the code points `DrawChar` has reported with `kError`
as having no encoding. `fCreateWebLinks`, `fCreateBookmarks` and `fCreateXRefs`
are the flags of that name. -/
structure Writer where
  fState : List State
  fStateDepth : Int
  makesPDF : Bool
  makesPattern : Bool
  fTransparencyCache : List Transparency
  fPatterns : List Pattern
  fPdf : List PdfOp
  fMode : Mode := Mode.kDrawingMode
  supportsOpacity : Bool := true
  fTransparencyStack : List (Option Transparency) := []
  fFontCache : List Font := []
  findFontCache : Option Font := none
  drawCharFound : Bool := false
  reportedUnicodes : List Nat := []
  fCreateWebLinks : Bool := false
  fCreateBookmarks : Bool := false
  fCreateXRefs : Bool := false
deriving Repr

/-! ## Graphics state stack (`PDFWriter.cpp` 569-590, 2176-2195) -/

/-- Modelled from the spec: the constructor `State(State* prev)` declared in
`PDFWriter.h`, which is not among the sources. A nested save creates a new state
that refers to its predecessor; the new state starts from the predecessor's
attributes (from the default attributes when there is no predecessor). -/
def State.copyOf (prev : List State) : State :=
  prev.headD default

/-- `PushInternalState`: `fState = new State(fState); fStateDepth ++`. -/
def PushInternalState (w : Writer) : Writer :=
  { w with fState := State.copyOf w.fState :: w.fState,
           fStateDepth := w.fStateDepth + 1 }

/-- `PopInternalState`: with a non-zero depth the top state is unlinked and
deleted and the result is `true`; with depth 0 nothing changes and the result
is `false`. Reading `fState->prev` of a null `fState` gives `none`. -/
def PopInternalState (w : Writer) : Option (Bool × Writer) :=
  if w.fStateDepth ≠ 0 then
    match w.fState with
    | [] => none
    | _ :: prev => some (true, { w with fState := prev, fStateDepth := w.fStateDepth - 1 })
  else
    some (false, w)

/-- `PushState`: push, then `PDF_save` unless the pass makes no PDF. -/
def PushState (w : Writer) : Writer :=
  let w1 := PushInternalState w
  if !w1.makesPDF then w1 else { w1 with fPdf := w1.fPdf ++ [PdfOp.save] }

/-- `PopState`: pop; after a successful pop `PDF_restore` unless the pass makes
no PDF. -/
def PopState (w : Writer) : Option Writer :=
  match PopInternalState w with
  | none => none
  | some (true, w1) =>
    if !w1.makesPDF then some w1 else some { w1 with fPdf := w1.fPdf ++ [PdfOp.restore] }
  | some (false, w1) => some w1

/-- Pop `n` times, collecting the results of the pops in call order. -/
def popMany : Nat → Writer → Option (List Bool × Writer)
  | 0, w => some ([], w)
  | n + 1, w =>
    match PopInternalState w with
    | none => none
    | some (b, w1) =>
      match popMany n w1 with
      | none => none
      | some (bs, w2) => some (b :: bs, w2)

/-- A call of the public stack interface. -/
inductive StackCall where
  | push
  | pop
deriving DecidableEq, Repr

/-- Run a sequence of `PushState` / `PopState` calls. -/
def runStack : List StackCall → Writer → Option Writer
  | [], w => some w
  | StackCall.push :: cs, w => runStack cs (PushState w)
  | StackCall.pop :: cs, w =>
    match PopState w with
    | none => none
    | some w1 => runStack cs w1

/-- Number of `PDF_save` calls in a log. -/
def saves (l : List PdfOp) : Int := (l.count PdfOp.save : Nat)

/-- Number of `PDF_restore` calls in a log. -/
def restores (l : List PdfOp) : Int := (l.count PdfOp.restore : Nat)

/-! ## Transparency cache (`PDFWriter.cpp` 593-626) -/

/-- Modelled from the spec: `Transparency::Matches` of `PDFWriter.h` (not among
the sources). A cache entry stands for one alpha value, so it matches exactly
the requests for that value. -/
def Transparency.Matches (t : Transparency) (alpha : Nat) : Bool :=
  t.fAlpha == alpha

/-- Modelled from the spec: `Transparency::Handle` of `PDFWriter.h`, the
graphics-state handle stored in the entry. -/
def Transparency.Handle (t : Transparency) : Int :=
  t.fHandle

/-- The scan of `FindTransparency`: the first entry that matches `alpha`. -/
def FindTransparency.scan (alpha : Nat) : List Transparency → Option Transparency
  | [] => none
  | t :: rest => if t.Matches alpha then some t else FindTransparency.scan alpha rest

/-- `FindTransparency`: return the cached entry for `alpha`; otherwise call
`PDF_create_gstate`, whose answer is `handle` (a PDFlib exception leaves the
initial `-1`), cache the new entry when `handle >= 0`, and return it, or null
when the handle is negative. -/
def FindTransparency (w : Writer) (alpha : Nat) (handle : Int) :
    Option Transparency × Writer :=
  match FindTransparency.scan alpha w.fTransparencyCache with
  | some t => (some t, w)
  | none =>
    let w1 := { w with fPdf := w.fPdf ++ [PdfOp.create_gstate alpha] }
    if handle ≥ 0 then
      let t : Transparency := { fAlpha := alpha, fHandle := handle }
      (some t, { w1 with fTransparencyCache := w1.fTransparencyCache ++ [t] })
    else
      (none, w1)

/-- Run `FindTransparency` for a list of requests `(alpha, handle)`, where
`handle` is the PDFlib answer offered to that request. -/
def findTransparencies : List (Nat × Int) → Writer → Writer
  | [], w => w
  | (a, h) :: rest, w => findTransparencies rest (FindTransparency w a h).2

/-! ## Pattern cache (`PDFWriter.cpp` 699-858) -/

/-- Modelled from the spec: `Pattern::Matches` of `PDFWriter.h` (not among the
sources). Equality is exact match on all three fields: stipple, low colour and
high colour, taken in the order of the call in `FindPattern`. -/
def Pattern.Matches (p : Pattern) (pat : pattern) (low high : rgb_color) : Bool :=
  p.pat == pat && p.lowColor == low && p.highColor == high

/-- The scan of `FindPattern` for the key fields of state `s`. -/
def FindPattern.scan (s : State) : List Pattern → Int
  | [] => -1
  | p :: rest =>
    if p.Matches s.pattern0 s.backgroundColor s.foregroundColor then p.patternId
    else FindPattern.scan s rest

/-- `FindPattern`: handle of the first cached pattern matching the current
state, `-1` when there is none. -/
def FindPattern (w : Writer) : Option Int :=
  match w.fState with
  | [] => none
  | s :: _ => some (FindPattern.scan s w.fPatterns)

/-- One pixel of the inner loop of `CreatePattern`: bit 0 of `d` decides whether
the pixel belongs to the foreground pass (`pass = 0`) or the background pass;
a pixel of the running pass is drawn as a filled unit square. -/
def CreatePattern.pixel (pass : Nat) (x y : Int) (d : Nat) : List PdfOp :=
  if (if d &&& 1 = 1 then pass ≠ 0 else pass ≠ 1) then []
  else [PdfOp.moveto x y, PdfOp.lineto x (y + 1), PdfOp.lineto (x + 1) (y + 1),
        PdfOp.lineto (x + 1) y, PdfOp.closepath, PdfOp.fill]

/-- Inner loop of `CreatePattern` over `x = x0 .. 7`, shifting `d` right by one
per step. -/
def CreatePattern.row (pass : Nat) (y : Int) : Nat → Int → Nat → List PdfOp
  | 0, _, _ => []
  | n + 1, x, d => CreatePattern.pixel pass x y d ++ CreatePattern.row pass y n (x + 1) (d >>> 1)

/-- Loop of `CreatePattern` over the rows `y = y0 .. 7` of the stipple. -/
def CreatePattern.rows (pass : Nat) : List Nat → Int → List PdfOp
  | [], _ => []
  | d :: rest, y => CreatePattern.row pass y 8 0 d ++ CreatePattern.rows pass rest (y + 1)

/-- One pass of `CreatePattern` (0 foreground, 1 background): select the fill
colour, then draw the pixels of that pass unless the colour is transparent
(alpha below 128). -/
def CreatePattern.pass (s : State) (pass : Nat) : List PdfOp :=
  let c := if pass = 0 then s.foregroundColor else s.backgroundColor
  PdfOp.setcolor "fill" "rgb" c.red c.green c.blue ::
    (if c.alpha < 128 then [] else CreatePattern.rows pass (s.pattern0.data.take 8) 0)

/-- `CreatePattern`: `PDF_begin_pattern` answers `handle`; `-1` is reported and
nothing is cached. Otherwise the two passes are drawn, the pattern is ended and
an entry with the state's stipple, background and foreground colour is appended
to `fPatterns`. The colour components logged are the byte values (the source
divides them by 255.0). -/
def CreatePattern (w : Writer) (handle : Int) : Option Writer :=
  let w1 := { w with fPdf := w.fPdf ++ [PdfOp.begin_pattern] }
  if handle = -1 then some w1
  else
    match w.fState with
    | [] => none
    | s :: _ =>
      some { w1 with
        fPdf := w1.fPdf ++ CreatePattern.pass s 0 ++ CreatePattern.pass s 1 ++ [PdfOp.end_pattern],
        fPatterns := w1.fPatterns ++
          [{ pat := s.pattern0, lowColor := s.backgroundColor,
             highColor := s.foregroundColor, patternId := handle }] }

/-- `SetPattern`: in the pattern-collecting pass create the pattern when it is
not cached yet; otherwise select the cached pattern as the colour, or report
that it is missing. -/
def SetPattern (w : Writer) (handle : Int) : Option Writer :=
  if w.makesPattern then
    match FindPattern w with
    | none => none
    | some found => if found = -1 then CreatePattern w handle else some w
  else
    match FindPattern w with
    | none => none
    | some found =>
      if found ≠ -1 then
        some { w with fPdf := w.fPdf ++ [PdfOp.setcolor "both" "pattern" found 0 0] }
      else some w

/-! ## Encoding lookup (`PDFText.cpp` 28-160) -/

/-- Value of a size or count after it is stored in an `int16`. -/
def toInt16 (n : Int) : Int := (n + 32768) % 65536 - 32768

/-- One `unicode_to_encoding` record: the inclusive code-point range and the
code array. The tables themselves (`enc_range.h`, `unicode0.h` .. `unicode4.h`)
are not among the sources, so the array `encodings` is an argument below. -/
structure unicode_to_encoding where
  from_ : Nat
  to_ : Nat
  unicodes : List Nat
deriving DecidableEq, Repr

/-- The `int16 length` field, initialised with `ELEMS(unicodeN, uint16)`. -/
def unicode_to_encoding.length (e : unicode_to_encoding) : Int :=
  toInt16 e.unicodes.length

/-- The `while (top >= bottom)` loop of `find_encoding`: binary search for
`unicode` in `codes`; `some m` is the exit through `return true` with index
`m`, `none` the exit of the loop. The midpoint uses the truncating division
of C. -/
def find_encoding.search (codes : List Nat) (unicode : Nat) (bottom top : Int) : Option Int :=
  if top ≥ bottom then
    let m := (top + bottom).tdiv 2
    if unicode < codes.getD m.toNat 0 then
      find_encoding.search codes unicode bottom (m - 1)
    else if unicode > codes.getD m.toNat 0 then
      find_encoding.search codes unicode (m + 1) top
    else some m
  else none
termination_by (top + 1 - bottom).toNat
decreasing_by
  all_goals simp_wf
  all_goals
    have key : (top + bottom) - 1 ≤ 2 * (top + bottom).tdiv 2 ∧
        2 * (top + bottom).tdiv 2 ≤ (top + bottom) + 1 := by
      rcases le_or_lt 0 (top + bottom) with h | h
      · rw [Int.tdiv_eq_ediv h (by decide)]; omega
      · have e : (top + bottom).tdiv 2 = -((-(top + bottom)).tdiv 2) := by
          rw [Int.neg_tdiv]; simp
        rw [e, Int.tdiv_eq_ediv (by omega) (by decide)]; omega
    omega

/-- The `for` loop of `find_encoding` from table number `i` on, `rest` being the
tables `i, i + 1, ...`. The result is the returned flag followed by the contents
of the reference arguments `encoding` (a `uint8`) and `index` (a `uint16`),
which are written only on success. -/
def find_encoding.loop (unicode : Nat) (encoding index : Nat) :
    Nat → List unicode_to_encoding → Bool × Nat × Nat
  | _, [] => (false, encoding, index)
  | i, e :: rest =>
    if e.from_ ≤ unicode ∧ unicode ≤ e.to_ then
      match find_encoding.search e.unicodes unicode 0 (e.length - 1) with
      | some m => (true, i % 256, (m % 65536).toNat)
      | none => (false, encoding, index)
    else find_encoding.loop unicode encoding index (i + 1) rest

/-- `find_encoding(unicode, encoding, index)` over the table array
`encodings`; `encoding` and `index` are the contents of the two reference
arguments before the call. -/
def find_encoding (encodings : List unicode_to_encoding) (unicode : Nat)
    (encoding index : Nat) : Bool × Nat × Nat :=
  find_encoding.loop unicode encoding index 0 encodings

/-- One `unicode_to_cid` record. -/
structure unicode_to_cid where
  unicode : Nat
  cid : Nat
deriving DecidableEq, Repr

/-- One `cid_table`: its records; the `uint16 length` field is their number.
The tables (`japanese.h`, `cns1.h`, `gb1.h`, `korean.h`) are not among the
sources, so the array `cid_tables` is an argument below. -/
abbrev cid_table := List unicode_to_cid

/-- The `uint16 length` field, initialised with `ELEMS(table, unicode_to_cid)`. -/
def cid_table.length16 (t : cid_table) : Int := ((t.length % 65536 : Nat) : Int)

/-! The enumeration `font_encoding` is declared in `PDFWriter.h`, which is not
among the sources. The values of the named static encodings are the positions
of their names in `encoding_names` (`PDFText.cpp` 76-95). -/

/-- The enumerator `macroman_encoding`. -/
def macroman_encoding : Nat := 0
/-- The enumerator `tt_encoding0`, first of the five TrueType encodings. -/
def tt_encoding0 : Nat := 1
/-- The enumerator `t1_encoding0`, first of the five Type 1 encodings. -/
def t1_encoding0 : Nat := 6
/-- The enumerator `japanese_encoding`. -/
def japanese_encoding : Nat := 11
/-- The enumerator `chinese_cns1_encoding`. -/
def chinese_cns1_encoding : Nat := 12
/-- The enumerator `chinese_gb1_encoding`. -/
def chinese_gb1_encoding : Nat := 13
/-- The enumerator `korean_encoding`. -/
def korean_encoding : Nat := 14
/-- The enumerator `first_cjk_encoding`. -/
def first_cjk_encoding : Nat := japanese_encoding
/-- Modelled from the spec: the enumerator `invalid_encoding` of `PDFWriter.h`,
the value after the four CJK encodings that ends a search order. -/
def invalid_encoding : Nat := 15
/-- Modelled from the spec: the enumerator `user_defined_encoding_start` of
`PDFWriter.h`; every static encoding, which `FindFont` names through
`encoding_names`, lies below it. -/
def user_defined_encoding_start : Nat := 16

/-- The `while (top >= bottom)` loop of `find_in_cid_tables`: binary search for
`unicode` among the `unicode` fields of `table`; `some cid` is the exit through
`return true`, where `cid` is what the loop stores in its local `index`. -/
def find_in_cid_tables.search (table : cid_table) (unicode : Nat) (bottom top : Int) :
    Option Nat :=
  if top ≥ bottom then
    let m := (top + bottom).tdiv 2
    let r := table.getD m.toNat { unicode := 0, cid := 0 }
    if unicode < r.unicode then
      find_in_cid_tables.search table unicode bottom (m - 1)
    else if unicode > r.unicode then
      find_in_cid_tables.search table unicode (m + 1) top
    else some r.cid
  else none
termination_by (top + 1 - bottom).toNat
decreasing_by
  all_goals simp_wf
  all_goals
    have key : (top + bottom) - 1 ≤ 2 * (top + bottom).tdiv 2 ∧
        2 * (top + bottom).tdiv 2 ≤ (top + bottom) + 1 := by
      rcases le_or_lt 0 (top + bottom) with h | h
      · rw [Int.tdiv_eq_ediv h (by decide)]; omega
      · have e : (top + bottom).tdiv 2 = -((-(top + bottom)).tdiv 2) := by
          rw [Int.neg_tdiv]; simp
        rw [e, Int.tdiv_eq_ediv (by omega) (by decide)]; omega
    omega

/-- The `for` loop of `find_in_cid_tables` with `n` iterations left, `order`
being the entries `order[i], order[i + 1], ...` still to read. The result is
the returned flag and the contents of the reference arguments `encoding` and
`index` at the return. The parameter `index` is never assigned: the `int index`
declared in the loop body hides it. -/
def find_in_cid_tables.loop (cid_tables : List cid_table) (unicode : Nat) (index : Nat) :
    Nat → Nat → List Nat → Bool × Nat × Nat
  | 0, encoding, _ => (false, encoding, index)
  | _ + 1, encoding, [] => (false, encoding, index)
  | n + 1, _, enc :: order =>
    if enc = invalid_encoding then (false, enc, index)
    else
      let idx : Int := (enc : Int) - (first_cjk_encoding : Int)
      let table : cid_table := if 0 ≤ idx then cid_tables.getD idx.toNat [] else []
      match find_in_cid_tables.search table unicode 0 (table.length16 - 1) with
      | some _ => (true, enc, index)
      | none => find_in_cid_tables.loop cid_tables unicode index n enc order

/-- `find_in_cid_tables(unicode, encoding, index, order)`: one iteration per
entry of `cid_tables`; `encoding` and `index` are the contents of the two
reference arguments before the call. -/
def find_in_cid_tables (cid_tables : List cid_table) (unicode : Nat)
    (encoding index : Nat) (order : List Nat) : Bool × Nat × Nat :=
  find_in_cid_tables.loop cid_tables unicode index cid_tables.length encoding order

/-! ## Choice of the encoding in `DrawChar` (`PDFText.cpp` 353-417) -/

/-- What `DrawChar` has settled when it reaches the drawing part: the encoding,
the bytes `dest[0]`, `dest[1]`, their count `destLen`, and the embed flag. -/
structure Resolved where
  encoding : Nat
  dest0 : Nat
  dest1 : Nat
  destLen : Int
  embed : Bool
deriving DecidableEq, Repr

/-- Outcome of the first part of `DrawChar`: the choice (`none` when the
function returns without drawing), the static flag `found` afterwards, the
code points reported with `kError`, and the PDFlib calls made. -/
structure Resolution where
  chosen : Option Resolved
  found : Bool
  errors : List Nat
  pdf : List PdfOp
deriving DecidableEq, Repr

/-- What `DrawChar` reads from its surroundings while it chooses the encoding.
* `convOK`, `convByte`, `convLen`: `convert_from_utf8` to MacRoman returned
  `B_OK`, and the contents of `dest[0]` and `destLen` after the call;
* `embeddable`: the answer of `EmbedFont(fontName)`;
* `trueType`: `fState->beFont.FileFormat() == B_TRUETYPE_WINDOWS`;
* `userNew`, `userEnc`, `userIndex`: the answer of `fUserDefinedEncodings.Get`
  and the contents of its reference arguments after the call (the class is not
  among the sources);
* `order`: `fFontSearchOrder`; `found`: the static flag of the last branch. -/
structure CharEnv where
  convOK : Bool
  convByte : Nat
  convLen : Int
  embeddable : Bool
  trueType : Bool
  userNew : Bool
  userEnc : Nat
  userIndex : Nat
  order : List Nat
  found : Bool
deriving DecidableEq, Repr

/-- `MakeUserDefinedEncoding`: when `Get` answers true the slot is declared to
PDFlib under the name `user<enc>`. -/
def MakeUserDefinedEncoding (env : CharEnv) (unicode : Nat) : List PdfOp :=
  if env.userNew then
    [PdfOp.encoding_set_char ("user" ++ toString env.userEnc) env.userIndex unicode]
  else []

/-- The part of `DrawChar` before `if (!MakesPDF()) return;`: the choice of
encoding and output bytes for the code point `unicode`. The locals `enc` and
`fenc` are read only after a callee has assigned them, so the calls start them
at 0; `dest[1]` keeps its initial 0 unless the CJK branch stores into it, as the
conversion is given room for one byte. -/
def DrawChar.resolve (encodings : List unicode_to_encoding) (cid_tables : List cid_table)
    (env : CharEnv) (unicode : Nat) : Resolution :=
  if !env.convOK || env.convByte = 0 then
    let embed := env.embeddable
    let r := find_encoding encodings unicode 0 0
    if r.1 then
      let enc := r.2.1
      let index := r.2.2
      let encoding := if env.trueType then enc + tt_encoding0 else enc + t1_encoding0
      { chosen := some { encoding := encoding, dest0 := index % 256, dest1 := 0,
                         destLen := env.convLen, embed := embed },
        found := env.found, errors := [], pdf := [] }
    else if embed then
      { chosen := some { encoding := user_defined_encoding_start + env.userEnc,
                         dest0 := env.userIndex % 256, dest1 := 0,
                         destLen := env.convLen, embed := embed },
        found := env.found, errors := [], pdf := MakeUserDefinedEncoding env unicode }
    else
      let c := find_in_cid_tables cid_tables unicode 0 r.2.2 env.order
      if c.1 then
        { chosen := some { encoding := c.2.1, dest0 := unicode / 256 % 256,
                           dest1 := unicode % 256, destLen := 2, embed := false },
          found := env.found, errors := [], pdf := [] }
      else
        { chosen := none, found := true,
          errors := if !env.found then [unicode] else [], pdf := [] }
  else
    { chosen := some { encoding := macroman_encoding, dest0 := env.convByte, dest1 := 0,
                       destLen := env.convLen, embed := true },
      found := env.found, errors := [], pdf := [] }

/-! ## Pixel formats (`PDFWriter.cpp` 911-1054) -/

/-- The pixel format tags the code distinguishes, with `unknown` for every
other value of `pixelFormat`. -/
inductive color_space where
  | B_RGB32 | B_RGB32_BIG | B_RGBA32 | B_RGBA32_BIG
  | B_RGB24 | B_RGB24_BIG
  | B_RGB16 | B_RGB16_BIG
  | B_RGB15 | B_RGB15_BIG | B_RGBA15 | B_RGBA15_BIG
  | B_GRAY8 | B_CMAP8 | B_GRAY1
  | unknown
deriving DecidableEq, Repr

open color_space

/-- `BytesPerPixel`. -/
def BytesPerPixel : color_space → Int
  | B_RGB32 | B_RGB32_BIG | B_RGBA32 | B_RGBA32_BIG => 4
  | B_RGB24_BIG | B_RGB24 => 3
  | B_RGB16 | B_RGB16_BIG | B_RGB15 | B_RGB15_BIG | B_RGBA15 | B_RGBA15_BIG => 2
  | B_GRAY8 | B_CMAP8 => 1
  | B_GRAY1 => 0
  | unknown => -1

/-- `HasAlphaChannel`. -/
def HasAlphaChannel : color_space → Bool
  | B_RGB32 | B_RGB32_BIG | B_RGBA32 | B_RGBA32_BIG
  | B_RGB15 | B_RGB15_BIG | B_RGBA15 | B_RGBA15_BIG | B_CMAP8 => true
  | _ => false

/-- `NeedsBPC1Mask`. -/
def NeedsBPC1Mask : color_space → Bool
  | B_RGB15 | B_RGB15_BIG | B_RGBA15 | B_RGBA15_BIG | B_CMAP8 => true
  | _ => false

/-- A raw byte buffer seen from its base pointer: the byte at each offset. -/
abbrev Buffer := Int → Nat

/-- The value of `*(uint32*)in` on the little-endian host: `buf` read at offset
`p`. -/
def read32 (buf : Buffer) (p : Int) : Nat :=
  buf p + 256 * buf (p + 1) + 65536 * buf (p + 2) + 16777216 * buf (p + 3)

/-- The value of `*(uint16*)in` on the little-endian host. -/
def read16 (buf : Buffer) (p : Int) : Nat :=
  buf p + 256 * buf (p + 1)

/-- Platform constant `B_TRANSPARENT_MAGIC_RGBA32` (GraphicsDefs.h). -/
def B_TRANSPARENT_MAGIC_RGBA32 : Nat := 0x00777477
/-- Platform constant `B_TRANSPARENT_MAGIC_RGBA32_BIG` (GraphicsDefs.h). -/
def B_TRANSPARENT_MAGIC_RGBA32_BIG : Nat := 0x77747700
/-- Platform constant `B_TRANSPARENT_MAGIC_RGBA15` (GraphicsDefs.h). -/
def B_TRANSPARENT_MAGIC_RGBA15 : Nat := 0x39ce
/-- Platform constant `B_TRANSPARENT_MAGIC_RGBA15_BIG` (GraphicsDefs.h). -/
def B_TRANSPARENT_MAGIC_RGBA15_BIG : Nat := 0xce39
/-- Platform constant `B_TRANSPARENT_MAGIC_CMAP8` (GraphicsDefs.h). -/
def B_TRANSPARENT_MAGIC_CMAP8 : Nat := 0xff

/-- `IsTransparentRGB32`. -/
def IsTransparentRGB32 (buf : Buffer) (p : Int) : Bool :=
  read32 buf p == B_TRANSPARENT_MAGIC_RGBA32

/-- `IsTransparentRGB32_BIG`. -/
def IsTransparentRGB32_BIG (buf : Buffer) (p : Int) : Bool :=
  read32 buf p == B_TRANSPARENT_MAGIC_RGBA32_BIG

/-- `IsTransparentRGBA32`. -/
def IsTransparentRGBA32 (buf : Buffer) (p : Int) : Bool :=
  decide (buf (p + 3) < 128) || IsTransparentRGB32 buf p

/-- `IsTransparentRGBA32_BIG`. -/
def IsTransparentRGBA32_BIG (buf : Buffer) (p : Int) : Bool :=
  decide (buf p < 127) || IsTransparentRGB32_BIG buf p

/-- `IsTransparentRGB15`. -/
def IsTransparentRGB15 (buf : Buffer) (p : Int) : Bool :=
  read16 buf p == B_TRANSPARENT_MAGIC_RGBA15

/-- `IsTransparentRGB15_BIG`. -/
def IsTransparentRGB15_BIG (buf : Buffer) (p : Int) : Bool :=
  read16 buf p == B_TRANSPARENT_MAGIC_RGBA15_BIG

/-- `IsTransparentRGBA15`. -/
def IsTransparentRGBA15 (buf : Buffer) (p : Int) : Bool :=
  (buf (p + 1) &&& 1 == 0) || IsTransparentRGB15 buf p

/-- `IsTransparentRGBA15_BIG`. -/
def IsTransparentRGBA15_BIG (buf : Buffer) (p : Int) : Bool :=
  (buf p &&& 1 == 0) || IsTransparentRGB15_BIG buf p

/-- `IsTransparentCMAP8`. -/
def IsTransparentCMAP8 (buf : Buffer) (p : Int) : Bool :=
  buf p == B_TRANSPARENT_MAGIC_CMAP8

/-- The `switch` in the pixel loop of `CreateMask`: the transparency predicate of
the format applied to the pixel at offset `p`; `false` for the formats without
one. -/
def CreateMask.isTransparent (pixelFormat : color_space) (buf : Buffer) (p : Int) : Bool :=
  match pixelFormat with
  | B_RGB32 => IsTransparentRGB32 buf p
  | B_RGB32_BIG => IsTransparentRGB32_BIG buf p
  | B_RGBA32 => IsTransparentRGBA32 buf p
  | B_RGBA32_BIG => IsTransparentRGBA32_BIG buf p
  | B_RGB15 => IsTransparentRGB15 buf p
  | B_RGB15_BIG => IsTransparentRGB15_BIG buf p
  | B_RGBA15 => IsTransparentRGBA15 buf p
  | B_RGBA15_BIG => IsTransparentRGBA15_BIG buf p
  | B_CMAP8 => IsTransparentCMAP8 buf p
  | _ => false

/-! ## Mask creation (`PDFWriter.cpp` 1057-1140) -/

/-- A `BRect` with integer coordinates, the rectangles the image code is given.
For such a rectangle `(int) src.left` is `left` and `IntegerWidth()`, the
rounded-up difference `right - left`, is that difference. -/
structure BRect where
  left : Int
  top : Int
  right : Int
  bottom : Int
deriving DecidableEq, Repr

/-- `BRect::IntegerWidth` on integer coordinates. -/
def BRect.IntegerWidth (r : BRect) : Int := r.right - r.left

/-- `BRect::IntegerHeight` on integer coordinates. -/
def BRect.IntegerHeight (r : BRect) : Int := r.bottom - r.top

/-- The pixel loop of `CreateMask` with `n` pixels left in the row: `inp` and
`out` are the offsets of `in` in the source and of `out` in the mask, and the
pair carried along is the mask and the flag `alpha`. -/
def CreateMask.pixels (pixelFormat : color_space) (bpp : Int) (data : Buffer) :
    Nat → Int → Nat → Nat → List Nat × Bool → List Nat × Bool
  | 0, _, _, _, st => st
  | n + 1, inp, out, shift, st =>
    let a := CreateMask.isTransparent pixelFormat data inp
    let st1 : List Nat × Bool :=
      if a then (st.1.set out ((st.1.getD out 0 ||| (1 <<< shift)) % 256), true) else st
    let out1 := if shift = 0 then out + 1 else out
    CreateMask.pixels pixelFormat bpp data n (inp + bpp) out1 ((shift + 7) &&& 7) st1

/-- The row loop of `CreateMask` with `n` rows left: `inRow` and `maskRow` are
the offsets of the row starts in the source and in the mask. -/
def CreateMask.rows (pixelFormat : color_space) (bpp bytesPerRow : Int) (data : Buffer)
    (width maskWidth : Nat) : Nat → Int → Nat → List Nat × Bool → List Nat × Bool
  | 0, _, _, st => st
  | n + 1, inRow, maskRow, st =>
    CreateMask.rows pixelFormat bpp bytesPerRow data width maskWidth n
      (inRow + bytesPerRow) (maskRow + maskWidth)
      (CreateMask.pixels pixelFormat bpp data width inRow maskRow 7 st)

/-- `CreateMask`: null for a format without a pixel size; otherwise a zeroed
mask of `maskWidth * height` bytes receives one bit per transparent pixel, and
the result is the mask, or null when no bit was set. -/
def CreateMask (src : BRect) (bytesPerRow : Int) (pixelFormat : color_space)
    (data : Buffer) : Option (List Nat) :=
  let bpp := BytesPerPixel pixelFormat
  if bpp < 0 then none
  else
    let width := src.IntegerWidth + 1
    let height := src.IntegerHeight + 1
    let inRow := bytesPerRow * src.top + bpp * src.left
    let maskWidth := (width + 7).tdiv 8
    let mask := List.replicate (maskWidth * height).toNat 0
    let st := CreateMask.rows pixelFormat bpp bytesPerRow data width.toNat maskWidth.toNat
      height.toNat inRow 0 (mask, false)
    if !st.2 then none else some st.1

/-- `CreateSoftMask`: the body compiled in returns null. -/
def CreateSoftMask (_src : BRect) (_bytesPerRow : Int) (_pixelFormat : color_space)
    (_data : Buffer) : Option (List Nat) :=
  none

/-! ## Conversion to RGBA (`PDFWriter.cpp` 1244-1476) -/

/-- The four bytes `out[0] .. out[3]` a converter writes. -/
structure Quad where
  b0 : Nat
  b1 : Nat
  b2 : Nat
  b3 : Nat
deriving DecidableEq, Repr

/-- `ConvertFromRGB32`: the four bytes are copied. -/
def ConvertFromRGB32 (buf : Buffer) (p : Int) : Quad :=
  ⟨buf p, buf (p + 1), buf (p + 2), buf (p + 3)⟩

/-- `ConvertFromRGBA32`: the four bytes are copied. -/
def ConvertFromRGBA32 (buf : Buffer) (p : Int) : Quad :=
  ⟨buf p, buf (p + 1), buf (p + 2), buf (p + 3)⟩

/-- `ConvertFromRGB24`. -/
def ConvertFromRGB24 (buf : Buffer) (p : Int) : Quad :=
  ⟨buf p, buf (p + 1), buf (p + 2), 255⟩

/-- `ConvertFromRGB16`. -/
def ConvertFromRGB16 (buf : Buffer) (p : Int) : Quad :=
  ⟨buf p &&& 0xf8,
   (((buf p &&& 7) <<< 2) ||| (buf (p + 1) &&& 0xe0)) % 256,
   (buf (p + 1) <<< 3) % 256,
   255⟩

/-- `ConvertFromRGB15`; `in[1] & ~1` clears bit 0 of the byte. -/
def ConvertFromRGB15 (buf : Buffer) (p : Int) : Quad :=
  ⟨buf p &&& 0xf8,
   (((buf p &&& 7) <<< 3) ||| (buf (p + 1) &&& 0xc0)) % 256,
   ((buf (p + 1) &&& 0xfe) <<< 2) % 256,
   255⟩

/-- `ConvertFromRGBA15`. -/
def ConvertFromRGBA15 (buf : Buffer) (p : Int) : Quad :=
  ⟨buf p &&& 0xf8,
   (((buf p &&& 7) <<< 3) ||| (buf (p + 1) &&& 0xc0)) % 256,
   ((buf (p + 1) &&& 0xfe) <<< 2) % 256,
   (buf (p + 1) <<< 7) % 256⟩

/-- `ConvertFromCMAP8`; `palette` is `fScreen->ColorForIndex`. -/
def ConvertFromCMAP8 (palette : Nat → rgb_color) (buf : Buffer) (p : Int) : Quad :=
  let c := palette (buf p)
  ⟨c.blue, c.green, c.red, c.alpha⟩

/-- `ConvertFromGRAY8`. -/
def ConvertFromGRAY8 (buf : Buffer) (p : Int) : Quad :=
  ⟨buf p, buf p, buf p, 255⟩

/-- `ConvertFromGRAY1`. -/
def ConvertFromGRAY1 (buf : Buffer) (p : Int) (bit : Nat) : Quad :=
  let gray := if buf p &&& (1 <<< bit) ≠ 0 then 255 else 0
  ⟨gray, gray, gray, 255⟩

/-- `ConvertFromRGB32_BIG`. -/
def ConvertFromRGB32_BIG (buf : Buffer) (p : Int) : Quad :=
  ⟨buf (p + 3), buf (p + 2), buf (p + 1), 255⟩

/-- `ConvertFromRGBA32_BIG`. -/
def ConvertFromRGBA32_BIG (buf : Buffer) (p : Int) : Quad :=
  ⟨buf (p + 3), buf (p + 2), buf (p + 1), buf p⟩

/-- `ConvertFromRGB24_BIG`. -/
def ConvertFromRGB24_BIG (buf : Buffer) (p : Int) : Quad :=
  ⟨buf (p + 2), buf (p + 1), buf p, 255⟩

/-- `ConvertFromRGB16_BIG`. -/
def ConvertFromRGB16_BIG (buf : Buffer) (p : Int) : Quad :=
  ⟨buf (p + 2) &&& 0xf8,
   (((buf (p + 1) &&& 7) <<< 2) ||| (buf p &&& 0xe0)) % 256,
   (buf p <<< 3) % 256,
   255⟩

/-- `ConvertFromRGB15_BIG`. -/
def ConvertFromRGB15_BIG (buf : Buffer) (p : Int) : Quad :=
  ⟨buf (p + 1) &&& 0xf8,
   (((buf (p + 1) &&& 7) <<< 3) ||| (buf p &&& 0xc0)) % 256,
   ((buf p &&& 0xfe) <<< 2) % 256,
   255⟩

/-- `ConvertFromRGBA15_BIG`. -/
def ConvertFromRGBA15_BIG (buf : Buffer) (p : Int) : Quad :=
  ⟨buf (p + 1) &&& 0xf8,
   (((buf (p + 1) &&& 7) <<< 3) ||| (buf p &&& 0xc0)) % 256,
   ((buf p &&& 0xfe) <<< 2) % 256,
   (buf p <<< 7) % 256⟩

/-- The `switch` in the pixel loop of `ConvertBitmap`: the bytes written for the
pixel at source offset `p` in column `x`; `none` in the default case, which
writes nothing. -/
def ConvertBitmap.convert (pixelFormat : color_space) (palette : Nat → rgb_color)
    (buf : Buffer) (p : Int) (x : Nat) : Option Quad :=
  match pixelFormat with
  | B_RGB32 => some (ConvertFromRGB32 buf p)
  | B_RGBA32 => some (ConvertFromRGBA32 buf p)
  | B_RGB24 => some (ConvertFromRGB24 buf p)
  | B_RGB16 => some (ConvertFromRGB16 buf p)
  | B_RGB15 => some (ConvertFromRGB15 buf p)
  | B_RGBA15 => some (ConvertFromRGBA15 buf p)
  | B_CMAP8 => some (ConvertFromCMAP8 palette buf p)
  | B_GRAY8 => some (ConvertFromGRAY8 buf p)
  | B_GRAY1 => some (ConvertFromGRAY1 buf p (x &&& 7))
  | B_RGB32_BIG => some (ConvertFromRGB32_BIG buf p)
  | B_RGBA32_BIG => some (ConvertFromRGBA32_BIG buf p)
  | B_RGB24_BIG => some (ConvertFromRGB24_BIG buf p)
  | B_RGB16_BIG => some (ConvertFromRGB16_BIG buf p)
  | B_RGB15_BIG => some (ConvertFromRGB15_BIG buf p)
  | B_RGBA15_BIG => some (ConvertFromRGBA15_BIG buf p)
  | unknown => none

/-- Store the four bytes of `q` at offsets `out .. out + 3` of `bits`. -/
def Quad.store (q : Quad) (bits : List Nat) (out : Nat) : List Nat :=
  (((bits.set out q.b0).set (out + 1) q.b1).set (out + 2) q.b2).set (out + 3) q.b3

/-- The pixel loop of `ConvertBitmap` with `n` pixels left in the row, at column
`x`; `inp` and `out` are the offsets of `in` in the source and of `out` in the
bitmap bits. For `B_GRAY1` the source pointer advances after the pixel whose
`bit` is 7. -/
def ConvertBitmap.pixels (pixelFormat : color_space) (bpp : Int) (palette : Nat → rgb_color)
    (data : Buffer) : Nat → Nat → Int → Nat → List Nat → List Nat
  | 0, _, _, _, bits => bits
  | n + 1, x, inp, out, bits =>
    let bits1 := match ConvertBitmap.convert pixelFormat palette data inp x with
      | some q => q.store bits out
      | none => bits
    let inp1 := if pixelFormat = B_GRAY1 ∧ x &&& 7 = 7 then inp + 1 else inp
    ConvertBitmap.pixels pixelFormat bpp palette data n (x + 1) (inp1 + bpp) (out + 4) bits1

/-- The row loop of `ConvertBitmap` with `n` rows left; `rowBytes` is
`bm->BytesPerRow()`. -/
def ConvertBitmap.rows (pixelFormat : color_space) (bpp bytesPerRow : Int)
    (palette : Nat → rgb_color) (data : Buffer) (columns rowBytes : Nat) :
    Nat → Int → Nat → List Nat → List Nat
  | 0, _, _, bits => bits
  | n + 1, inLeft, outLeft, bits =>
    ConvertBitmap.rows pixelFormat bpp bytesPerRow palette data columns rowBytes n
      (inLeft + bytesPerRow) (outLeft + rowBytes)
      (ConvertBitmap.pixels pixelFormat bpp palette data columns 0 inLeft outLeft bits)

/-- A `BBitmap` of colour space `B_RGB32` with bounds `(0, 0, right, bottom)`:
`right + 1` by `bottom + 1` pixels of four bytes, rows stored one after the
other without padding (`BytesPerRow()` is `4 * (right + 1)`). -/
structure BBitmap where
  right : Int
  bottom : Int
  bits : List Nat
deriving DecidableEq, Repr

/-- `BBitmap::BytesPerRow` for a `B_RGB32` bitmap. -/
def BBitmap.BytesPerRow (bm : BBitmap) : Int := 4 * (bm.right + 1)

/-- `ConvertBitmap`: null for a format without a pixel size or when the new
bitmap is not valid (`valid` is the answer of `bm->IsValid()`); otherwise every
pixel of the source rectangle is converted into the new bitmap, row by row from
the top row of the rectangle. -/
def ConvertBitmap (valid : Bool) (palette : Nat → rgb_color) (src : BRect) (bytesPerRow : Int)
    (pixelFormat : color_space) (data : Buffer) : Option BBitmap :=
  let bpp := BytesPerPixel pixelFormat
  if bpp < 0 then none
  else
    let width := src.IntegerWidth
    let height := src.IntegerHeight
    let bm : BBitmap :=
      { right := width, bottom := height,
        bits := List.replicate (4 * (width + 1) * (height + 1)).toNat 0 }
    if !valid then none
    else
      let inLeft := bytesPerRow * src.top + bpp * src.left
      some { bm with
        bits := ConvertBitmap.rows pixelFormat bpp bytesPerRow palette data
          (width + 1).toNat bm.BytesPerRow.toNat (height + 1).toNat inLeft 0 bm.bits }

/-! ## Image and mask registration (`PDFWriter.cpp` 1547-1623) -/

/-- Calls into the image cache `fImageCache`. -/
inductive CacheCall where
  | GetMask (mask : List Nat) (length width height bpc : Int)
  | GetImage (bm : BBitmap) (maskId : Int)
deriving DecidableEq, Repr

/-- What `GetImages` leaves behind: the returned flag, the contents of `*maskId`
and `*image`, and the calls made to the image cache. -/
structure Images where
  ok : Bool
  maskId : Int
  image : Int
  calls : List CacheCall
deriving DecidableEq, Repr

/-- `GetImages`, compiled with `USE_IMAGE_CACHE`. `supportsSoftMask` is the
answer of `SupportsSoftMask()`, `maskAns` and `imageAns` are what
`fImageCache.GetMask` and `fImageCache.GetImage` answer when called, and
`image0` is the content of `*image` before the call. -/
def GetImages (supportsSoftMask valid : Bool) (palette : Nat → rgb_color)
    (maskAns imageAns image0 : Int) (src : BRect) (bytesPerRow : Int)
    (pixelFormat : color_space) (data : Buffer) : Images :=
  let width := src.IntegerWidth + 1
  let height := src.IntegerHeight + 1
  let m : Option (List Nat) × Int × Int :=
    if HasAlphaChannel pixelFormat then
      if NeedsBPC1Mask pixelFormat || !supportsSoftMask then
        (CreateMask src bytesPerRow pixelFormat data, (width + 7).tdiv 8 * height, 1)
      else
        (CreateSoftMask src bytesPerRow pixelFormat data, width * height, 8)
    else (none, 0, 0)
  let r : Int × List CacheCall :=
    match m.1 with
    | some mask => (maskAns, [CacheCall.GetMask mask m.2.1 width height m.2.2])
    | none => (-1, [])
  match ConvertBitmap valid palette src bytesPerRow pixelFormat data with
  | none => { ok := false, maskId := r.1, image := image0, calls := r.2 }
  | some bm =>
    { ok := decide (imageAns ≥ 0), maskId := r.1, image := imageAns,
      calls := r.2 ++ [CacheCall.GetImage bm r.1] }

/-! ## Notions used in the statements about images -/

/-- Number of pixel columns of the source rectangle, `IntegerWidth() + 1`. -/
def BRect.columns (r : BRect) : Nat := (r.IntegerWidth + 1).toNat

/-- Number of pixel rows of the source rectangle, `IntegerHeight() + 1`. -/
def BRect.lines (r : BRect) : Nat := (r.IntegerHeight + 1).toNat

/-- Offset in the source buffer of the pixel in column `left + x` and row
`top + y`, for rows of `bytesPerRow` bytes and pixels of `bpp` bytes. -/
def pixelOffset (src : BRect) (bytesPerRow bpp : Int) (x y : Nat) : Int :=
  bytesPerRow * (src.top + y) + bpp * (src.left + x)

/-- Bit `b` of byte `i` of a mask. -/
def maskBit (mask : List Nat) (i b : Nat) : Bool := (mask.getD i 0).testBit b

/-- Byte `k` (0 to 3) of the four bytes a converter writes. -/
def Quad.byte (q : Quad) (k : Nat) : Nat :=
  match k with
  | 0 => q.b0
  | 1 => q.b1
  | 2 => q.b2
  | _ => q.b3

/-! ## Sample inputs -/

/-- The writer at the start of a job in the render pass: no state, depth 0. -/
def idleWriter : Writer :=
  { fState := [], fStateDepth := 0, makesPDF := true, makesPattern := false,
    fTransparencyCache := [], fPatterns := [], fPdf := [] }

/-- A writer in the render pass with a root state and depth 0, as inside
`BeginPage` before its `PushState`. -/
def rootWriter : Writer :=
  { idleWriter with fState := [default] }

/-- A writer in the pattern-collecting pass with one state and empty caches. -/
def collectWriter : Writer :=
  { fState := [default], fStateDepth := 0, makesPDF := false, makesPattern := true,
    fTransparencyCache := [], fPatterns := [], fPdf := [] }

/-- Two small encoding tables: a Latin range and an extended range. -/
def sampleEncodings : List unicode_to_encoding :=
  [{ from_ := 0x20, to_ := 0x7e, unicodes := [0x20, 0x41, 0x61, 0x7e] },
   { from_ := 0x100, to_ := 0x17f, unicodes := [0x100, 0x141, 0x17f] }]

/-- A source row of three `B_CMAP8` pixels whose middle pixel is the transparent
index. -/
def sampleIndexed : Buffer := fun p => if p = 1 then 0xff else 0

/-- The rectangle covering the three pixels of `sampleIndexed`. -/
def sampleRect : BRect := { left := 0, top := 0, right := 2, bottom := 0 }

/-- A source row of two `B_RGB24` pixels. -/
def sampleRGB24 : Buffer := fun p =>
  if p = 0 then 10 else if p = 1 then 20 else if p = 2 then 30
  else if p = 3 then 40 else if p = 4 then 50 else if p = 5 then 60 else 0

/-- The rectangle covering the two pixels of `sampleRGB24`. -/
def sampleRect2 : BRect := { left := 0, top := 0, right := 1, bottom := 0 }

/-- A palette that maps every index to the same colour. -/
def samplePalette : Nat → rgb_color := fun _ => default

/-- Surroundings of `DrawChar` for a character that MacRoman holds as byte 65
in a TrueType font that may be embedded. -/
def sampleCharEnv : CharEnv :=
  { convOK := true, convByte := 65, convLen := 1, embeddable := true, trueType := true,
    userNew := false, userEnc := 0, userIndex := 0, order := [], found := false }

/-- The buffer `buf` with the `n` bytes of the pixel at offset `p` in reverse
order. -/
def reversePixel (buf : Buffer) (p : Int) (n : Int) : Buffer := fun q =>
  if p ≤ q ∧ q < p + n then buf (p + (n - 1 - (q - p))) else buf q

/-- A `B_RGB15` pixel holding pure red: the 16-bit value
`0b0_11111_00000_00000`, stored as the bytes `0x00`, `0x7c`. -/
def sampleRed15 : Buffer := fun p => if p = 1 then 0x7c else 0

/-- A big-endian 16-bit pixel `0x00`, `0xf8` followed by a zero byte. -/
def sampleBig16 : Buffer := fun p => if p = 1 then 0xf8 else 0

/-- The same pixel `0x00`, `0xf8` followed by the byte `0xff`. -/
def sampleBig16Next : Buffer := fun p => if p = 1 then 0xf8 else if p = 2 then 0xff else 0

/-- One `B_GRAY1` source byte with bit 1 set: the pixel in column 1 is white,
the pixel in column 0 is black. -/
def sampleGray1 : Buffer := fun p => if p = 0 then 2 else 0

/-- The rectangle holding only the pixel in column 1 of row 0. -/
def sampleRectColumn1 : BRect := { left := 1, top := 0, right := 1, bottom := 0 }

/-! ## Page begin and end, origin and scale (`PDFWriter.cpp` 499-544, 2230-2242, 2352-2357) -/

/-- Modelled from the spec: the constructor `State(float height, float x,
float y)` of `PDFWriter.h` (not among the sources): a fresh root state without
predecessor, with default attributes and a coordinate system of the given page
height and origin. -/
def State.initial (height x y : ℚ) : State :=
  { (default : State) with pdfSystem := { fHeight := height, fX := x, fY := y, fScale := 1 } }

/-- `BRect::Width`. -/
def BRect.Width (r : BRect) : ℚ := r.right - r.left

/-- `BRect::Height`. -/
def BRect.Height (r : BRect) : ℚ := r.bottom - r.top

/-- `BeginPage`: a fresh root state replaces `fState`, the page is begun in the
output when the pass makes PDF, the pen is reset, and one state is pushed so
that `fState->prev` is not null. `a4_width` and `a4_height` are the constants of
that name, whose definitions are not among the sources. -/
def BeginPage (a4_width a4_height : ℚ) (w : Writer) (paperRect printRect : BRect) : Writer :=
  let width := if paperRect.Width < 10 then a4_width else paperRect.Width
  let height := if paperRect.Height < 10 then a4_height else paperRect.Height
  let w1 := { w with fMode := Mode.kDrawingMode,
                     fState := [State.initial height printRect.left printRect.top] }
  let w2 := if w1.makesPDF then { w1 with fPdf := w1.fPdf ++ [PdfOp.begin_page width height] }
    else w1
  let w3 := if w2.makesPDF then { w2 with fPdf := w2.fPdf ++ [PdfOp.initgraphics] } else w2
  let w4 := match w3.fState with
    | [] => w3
    | s :: prev => { w3 with fState := { s with penX := 0, penY := 0 } :: prev }
  PushState w4

/-- The loop condition `fState->prev != NULL` of `EndPage`, negated: `some true`
when the current state has no predecessor, `none` for a null `fState`. -/
def EndPage.prevIsNull (w : Writer) : Option Bool :=
  match w.fState with
  | [] => none
  | [_] => some true
  | _ :: _ :: _ => some false

/-- The loop `while (fState->prev != NULL) PopState();` of `EndPage`, run for at
most the given number of iterations. The result is the number of `PopState`
calls made and the writer at the exit of the loop; `none` stands for a read
through a null `fState` or for a loop still running when the iterations are
used up. -/
def EndPage.popLoop : Nat → Writer → Option (Nat × Writer)
  | 0, w =>
    match EndPage.prevIsNull w with
    | some true => some (0, w)
    | _ => none
  | fuel + 1, w =>
    match EndPage.prevIsNull w with
    | none => none
    | some true => some (0, w)
    | some false =>
      match PopState w with
      | none => none
      | some w1 =>
        match EndPage.popLoop fuel w1 with
        | none => none
        | some (n, w2) => some (n + 1, w2)

/-- `EndPage`: pop down to the root state, end the page in the output when the
pass makes PDF, delete the root state and set `fState` to null. The flush of
the text line and the creation of bookmarks before the loop are left out. The
result carries the number of `PopState` calls of the loop. -/
def EndPage (fuel : Nat) (w : Writer) : Option (Nat × Writer) :=
  match EndPage.popLoop fuel w with
  | none => none
  | some (n, w1) =>
    let w2 := if w1.makesPDF then { w1 with fPdf := w1.fPdf ++ [PdfOp.end_page] } else w1
    some (n, { w2 with fState := [] })

/-- `SetOrigin`: the origin of the current state becomes the origin of the
previous state plus `pt` scaled by `pdfSystem()->scale`, where `pdfSystem()` is
the coordinate system of the current state `fState` (the source asks in a
comment whether the scale of `fState->prev` should be taken instead). Without a
current or a previous state the read through null gives `none`. -/
def SetOrigin (w : Writer) (pt : BPoint) : Option Writer :=
  match w.fState with
  | s :: p :: rest =>
    let o := p.pdfSystem.Origin
    some { w with fState :=
      { s with pdfSystem := s.pdfSystem.SetOrigin (o.x + s.pdfSystem.scale pt.x)
                              (o.y + s.pdfSystem.scale pt.y) } :: p :: rest }
  | _ => none

/-- `SetScale`: the scale of the current state becomes `scale` times the scale
of the previous state. -/
def SetScale (w : Writer) (scale : ℚ) : Option Writer :=
  match w.fState with
  | s :: p :: rest =>
    some { w with fState :=
      { s with pdfSystem := s.pdfSystem.SetScale (scale * p.pdfSystem.Scale) } :: p :: rest }
  | _ => none

/-- A call of one of the four functions that change the state stack. -/
inductive StateCall where
  | pushInternal
  | popInternal
  | push
  | pop
deriving DecidableEq, Repr

/-- Run one state-stack call. -/
def runStateCall (c : StateCall) (w : Writer) : Option Writer :=
  match c with
  | StateCall.pushInternal => some (PushInternalState w)
  | StateCall.popInternal =>
    match PopInternalState w with
    | none => none
    | some r => some r.2
  | StateCall.push => some (PushState w)
  | StateCall.pop => PopState w

/-- Run a sequence of state-stack calls. -/
def runStateCalls : List StateCall → Writer → Option Writer
  | [], w => some w
  | c :: cs, w =>
    match runStateCall c w with
    | none => none
    | some w1 => runStateCalls cs w1

/-! ## Transparency brackets (`PDFWriter.cpp` 629-672) -/

/-- Platform constant `B_OP_ALPHA` of the enumeration `drawing_mode`
(GraphicsDefs.h). -/
def B_OP_ALPHA : Nat := 10

/-- Modelled from the spec: `IsDrawing()` of `PDFWriter.h`, the engine is in
drawing mode and not in the mode that collects a clip region. -/
def IsDrawing (w : Writer) : Bool := w.fMode == Mode.kDrawingMode

/-- Modelled from the spec: `IsClipping()` of `PDFWriter.h`. -/
def IsClipping (w : Writer) : Bool := w.fMode == Mode.kClippingMode

/-- `BeginTransparency`; `handle` is what `PDF_create_gstate` answers if
`FindTransparency` calls it. -/
def BeginTransparency (w : Writer) (handle : Int) : Option Writer :=
  if !w.supportsOpacity || !w.makesPDF || !IsDrawing w then some w
  else
    match w.fState with
    | [] => none
    | s :: _ =>
      let alpha := s.currentColor.alpha
      if s.drawingMode = B_OP_ALPHA ∧ alpha < 255 then
        let r := FindTransparency { w with fPdf := w.fPdf ++ [PdfOp.save] } alpha handle
        match r.1 with
        | some t =>
          some { r.2 with fPdf := r.2.fPdf ++ [PdfOp.set_gstate t.Handle],
                          fTransparencyStack := r.2.fTransparencyStack ++ [some t] }
        | none => some { r.2 with fTransparencyStack := r.2.fTransparencyStack ++ [none] }
      else some { w with fTransparencyStack := w.fTransparencyStack ++ [none] }

/-- `EndTransparency`: the last item of the transparency stack is removed and a
`PDF_restore` follows when the item is not null. On an empty stack
`RemoveItem(-1)` removes nothing and gives null. -/
def EndTransparency (w : Writer) : Writer :=
  if !w.supportsOpacity || !w.makesPDF || !IsDrawing w then w
  else
    match w.fTransparencyStack.getLast? with
    | none => w
    | some t =>
      let w1 := { w with fTransparencyStack := w.fTransparencyStack.dropLast }
      match t with
      | some _ => { w1 with fPdf := w1.fPdf ++ [PdfOp.restore] }
      | none => w1

/-- A page state of two states in the render pass: the current state has scale
2, its predecessor scale 1 and origin `(10, 20)`. -/
def scaledWriter : Writer :=
  { fState := [{ (default : State) with
                   pdfSystem := { fHeight := 800, fX := 10, fY := 20, fScale := 2 } },
               { (default : State) with
                   pdfSystem := { fHeight := 800, fX := 10, fY := 20, fScale := 1 } }],
    fStateDepth := 1, makesPDF := true, makesPattern := false,
    fTransparencyCache := [], fPatterns := [], fPdf := [] }

/-- A page state of two states in the render pass as `PushState` leaves it: the
current state is a copy of its predecessor, which has scale 1 and origin
`(10, 20)`. -/
def pushedWriter : Writer :=
  { fState := [{ (default : State) with
                   pdfSystem := { fHeight := 800, fX := 10, fY := 20, fScale := 1 } },
               { (default : State) with
                   pdfSystem := { fHeight := 800, fX := 10, fY := 20, fScale := 1 } }],
    fStateDepth := 1, makesPDF := true, makesPattern := false,
    fTransparencyCache := [], fPatterns := [], fPdf := [] }

/-- A page state in the render pass whose current colour has alpha 128 and
whose drawing mode is `B_OP_ALPHA`. -/
def alphaWriter : Writer :=
  { fState := [{ (default : State) with
                   currentColor := { red := 0, green := 0, blue := 0, alpha := 128 },
                   drawingMode := B_OP_ALPHA },
               default],
    fStateDepth := 1, makesPDF := true, makesPattern := false,
    fTransparencyCache := [], fPatterns := [], fPdf := [] }

/-! ## Font handles (`PDFText.cpp` 76-95, 203-265) -/

/-- The array `encoding_names`. -/
def encoding_names : List String :=
  ["macroman",
   "ttenc0", "ttenc1", "ttenc2", "ttenc3", "ttenc4",
   "t1enc0", "t1enc1", "t1enc2", "t1enc3", "t1enc4",
   "UniJIS-UCS2-H", "UniCNS-UCS2-H", "UniGB-UCS2-H", "UniKS-UCS2-H"]

/-- `GetFontName(font, fontname, embed, encoding)`: `name` is the string
`family-style` the three-argument overload produces; for a CJK encoding it is
replaced by the name of the substitute font. -/
def GetFontName (name : String) (encoding : Nat) : String :=
  if encoding = japanese_encoding then "HeiseiMin-W3"
  else if encoding = chinese_cns1_encoding then "MHei-Medium"
  else if encoding = chinese_gb1_encoding then "STSong-Light"
  else if encoding = korean_encoding then "HYGoThic-Medium"
  else name

/-- The test `f->encoding == encoding && strcmp(f->name.String(), fontName) == 0`
of `FindFont`. -/
def Font.hasKey (f : Font) (fontName : String) (encoding : Nat) : Bool :=
  f.encoding == encoding && f.name == fontName

/-- The linear scan of `FindFont` over `fFontCache`: the first entry with the
key. -/
def FindFont.scan (fontName : String) (encoding : Nat) : List Font → Option Font
  | [] => none
  | f :: rest => if f.hasKey fontName encoding then some f else FindFont.scan fontName encoding rest

/-- The name under which `FindFont` asks PDFlib for the encoding. -/
def FindFont.encoding_name (encoding : Nat) : String :=
  if encoding < user_defined_encoding_start then encoding_names.getD encoding ""
  else "user" ++ toString (encoding - user_defined_encoding_start)

/-- `FindFont`: the entry kept in the static `cache` answers when it has the
key; else the first entry of `fFontCache` with the key answers and becomes the
static `cache`; else `PDF_findfont` is called, whose answer is `findfontAns`,
and when that is not `-1` a new entry is appended to `fFontCache` and becomes
the static `cache`. `embedAns` is the answer of `EmbedFont(fontName)`. The
result is the returned handle and the writer afterwards. -/
def FindFont (w : Writer) (fontName : String) (embed : Bool) (encoding : Nat)
    (embedAns : Bool) (findfontAns : Int) : Int × Writer :=
  match w.findFontCache.filter (fun c => c.hasKey fontName encoding) with
  | some c => (c.font, w)
  | none =>
    match FindFont.scan fontName encoding w.fFontCache with
    | some f => (f.font, { w with findFontCache := some f })
    | none =>
      let embed1 := if embed then embedAns else embed
      let w1 := { w with fPdf := w.fPdf ++
        [PdfOp.findfont fontName (FindFont.encoding_name encoding) embed1] }
      if findfontAns ≠ -1 then
        let f : Font := { name := fontName, font := findfontAns, encoding := encoding }
        (findfontAns, { w1 with findFontCache := some f, fFontCache := w1.fFontCache ++ [f] })
      else (findfontAns, w1)

/-- One `FindFont` request: font name, embed flag, encoding, and the answers
`EmbedFont` and `PDF_findfont` give if they are called. -/
structure FontRequest where
  fontName : String
  embed : Bool
  encoding : Nat
  embedAns : Bool
  findfontAns : Int
deriving DecidableEq, Repr

/-- Run a sequence of `FindFont` requests. -/
def findFonts : List FontRequest → Writer → Writer
  | [], w => w
  | r :: rest, w =>
    findFonts rest (FindFont w r.fontName r.embed r.encoding r.embedAns r.findfontAns).2

/-- The handle `h` stands for the key `(fontName, encoding)` in the font cache
of `w`: some entry of `fFontCache` has the key, every entry with the key has the
handle `h`, and so has the static `cache` of `FindFont` when it has the key. -/
def FontKeyHolds (w : Writer) (fontName : String) (encoding : Nat) (h : Int) : Prop :=
  (∃ f ∈ w.fFontCache, f.hasKey fontName encoding = true) ∧
  (∀ f ∈ w.fFontCache, f.hasKey fontName encoding = true → f.font = h) ∧
  (∀ c, w.findFontCache = some c → c.hasKey fontName encoding = true → c.font = h)

/-- A render-pass writer with an empty font cache. -/
def fontWriter : Writer :=
  { fState := [default, default], fStateDepth := 1, makesPDF := true, makesPattern := false,
    fTransparencyCache := [], fPatterns := [], fPdf := [] }

/-- Requests for two other keys and, in between, for the key `Arial-Bold`,
encoding 0, with another embed flag. -/
def sampleFontRequests : List FontRequest :=
  [{ fontName := "Courier-Roman", embed := false, encoding := 0, embedAns := false,
     findfontAns := 12 },
   { fontName := "Arial-Bold", embed := false, encoding := 0, embedAns := false,
     findfontAns := 13 },
   { fontName := "Arial-Bold", embed := true, encoding := 1, embedAns := true,
     findfontAns := -1 }]

/-! ## Drawing a character (`PDFText.cpp` 353-465) -/

/-- Platform constant `B_UNDERSCORE_FACE` (Font.h). -/
def B_UNDERSCORE_FACE : Nat := 0x0002
/-- Platform constant `B_OUTLINED_FACE` (Font.h). -/
def B_OUTLINED_FACE : Nat := 0x0008
/-- Platform constant `B_STRIKEOUT_FACE` (Font.h). -/
def B_STRIKEOUT_FACE : Nat := 0x0010

/-- What the drawing part of `DrawChar` reads from its surroundings.
* `fontName`: the string `family-style` that `GetFontName` builds for
  `fState->beFont`; `face`: `fState->beFont.Face()`;
* `size`: `scale(fState->beFont.Size())`; `x`, `y`: `tx(fState->penX)` and
  `ty(fState->penY)`; `rotation`: `fState->beFont.Rotation()`;
* `embedAns`, `findfontAns`: the answers of `EmbedFont` and `PDF_findfont` if
  `FindFont` calls them; `defaultAns`: the answer of
  `PDF_findfont(fPdf, "Helvetica", "macroman", 0)` if it is called. -/
structure DrawEnv where
  fontName : String
  face : Nat
  size : ℚ
  x : ℚ
  y : ℚ
  rotation : ℚ
  embedAns : Bool
  findfontAns : Int
  defaultAns : Int
deriving DecidableEq, Repr

/-- The writer when `DrawChar` has chosen the encoding: the PDFlib calls of that
part are logged, the static flag `found` is stored, and the code points reported
with `kError` are appended. -/
def DrawChar.afterResolve (w : Writer) (r : Resolution) : Writer :=
  { w with fPdf := w.fPdf ++ r.pdf, drawCharFound := r.found,
           reportedUnicodes := w.reportedUnicodes ++ r.errors }

/-- The PDFlib calls of `DrawChar` from `PDF_set_parameter(fPdf, "underline",
...)` to the end, for the font handle `font` stored in `fState->font`. -/
def DrawChar.textOps (denv : DrawEnv) (c : Resolved) (font : Int) : List PdfOp :=
  [PdfOp.set_parameter "underline"
     (if denv.face &&& B_UNDERSCORE_FACE ≠ 0 then "true" else "false"),
   PdfOp.set_parameter "strikeout"
     (if denv.face &&& B_STRIKEOUT_FACE ≠ 0 then "true" else "false"),
   PdfOp.set_value "textrendering" (if denv.face &&& B_OUTLINED_FACE ≠ 0 then 1 else 0),
   PdfOp.setfont font denv.size]
  ++ (if denv.rotation ≠ 0 then
        [PdfOp.save, PdfOp.translate denv.x denv.y, PdfOp.rotate denv.rotation,
         PdfOp.set_text_pos 0 0]
      else [PdfOp.set_text_pos denv.x denv.y])
  ++ [PdfOp.show2 [c.dest0, c.dest1] c.destLen]
  ++ (if denv.rotation ≠ 0 then [PdfOp.restore] else [])

/-- `DrawChar`. The encoding is chosen by `DrawChar.resolve`, with the static
flag `found` taken from the writer; without MacRoman byte that part reads
`fState->beFont`, so a null `fState` gives `none`. When no encoding is found the
function returns. When the pass makes no PDF it returns as well. Otherwise the
font handle comes from `FindFont`, or from `PDF_findfont` for Helvetica when
`FindFont` answers a negative handle; it is stored in `fState->font` and the
character is shown. -/
def DrawChar (encodings : List unicode_to_encoding) (cid_tables : List cid_table)
    (env : CharEnv) (denv : DrawEnv) (w : Writer) (unicode : Nat) : Option Writer :=
  if (!env.convOK || env.convByte = 0) ∧ w.fState = [] then none
  else
    let r := DrawChar.resolve encodings cid_tables { env with found := w.drawCharFound } unicode
    let w0 := DrawChar.afterResolve w r
    match r.chosen with
    | none => some w0
    | some c =>
      if !w0.makesPDF then some w0
      else
        match w0.fState with
        | [] => none
        | s :: prev =>
          let ff := FindFont w0 (GetFontName denv.fontName c.encoding) c.embed c.encoding
            denv.embedAns denv.findfontAns
          let fb : Int × Writer :=
            if ff.1 < 0 then
              (denv.defaultAns,
               { ff.2 with fPdf := ff.2.fPdf ++ [PdfOp.findfont "Helvetica" "macroman" false] })
            else ff
          some { fb.2 with fState := { s with font := fb.1 } :: prev,
                           fPdf := fb.2.fPdf ++ DrawChar.textOps denv c fb.1 }

/-- Surroundings of the drawing part of `DrawChar` in which PDFlib finds no font
for the character but finds the default font under handle 1. -/
def sampleDrawEnv : DrawEnv :=
  { fontName := "Arial-Bold", face := 0, size := 12, x := 100, y := 700, rotation := 0,
    embedAns := true, findfontAns := -1, defaultAns := 1 }

/-! ## Further sample inputs -/

/-- A `B_RGBA32` pixel `0, 0, 0, 127`: its alpha byte is 127. -/
def sampleAlpha127 : Buffer := fun p => if p = 3 then 127 else 0

/-! ## Start of a job (`PDFWriter.cpp` 238-400) -/

/-- The options of the job message `JobMsg()` that `InitWriter` reads for links,
bookmarks and cross references. `none` stands for a missing option: `FindBool`
or `FindString` does not return `B_OK`. -/
structure JobMsg where
  create_web_links : Option Bool
  create_bookmarks : Option Bool
  bookmark_definition_file : Option String
  create_xrefs : Option Bool
  xrefs_file : Option String
deriving DecidableEq, Repr

/-- Platform constant `B_OK` (Errors.h). -/
def B_OK : Int := 0

/-- `InitWriter`: the state stack is reset and the three feature flags are read
from the job message. `bookmarksAns` and `xrefsAns` are the answers of
`LoadBookmarkDefinitions` and `LoadXRefsDefinitions` if they are called; `&&`
calls them only after the file name has been found. The function has the one
exit `return B_OK`. The declarations it hands to PDFlib in between (document
info, compression, encodings, fonts, border style) are left out. -/
def InitWriter (w : Writer) (msg : JobMsg) (bookmarksAns xrefsAns : Bool) : Int × Writer :=
  let w1 := { w with fState := [], fStateDepth := 0 }
  let w2 := match msg.create_web_links with
    | some b => { w1 with fCreateWebLinks := b }
    | none => { w1 with fCreateWebLinks := false }
  let w3 := match msg.create_bookmarks with
    | some b => { w2 with fCreateBookmarks := b }
    | none => { w2 with fCreateBookmarks := false }
  let w4 :=
    if w3.fCreateBookmarks then
      if msg.bookmark_definition_file.isSome && bookmarksAns then w3
      else { w3 with fCreateBookmarks := false }
    else w3
  let w5 := match msg.create_xrefs with
    | some b => { w4 with fCreateXRefs := b }
    | none => { w4 with fCreateXRefs := false }
  let w6 :=
    if w5.fCreateXRefs then
      if msg.xrefs_file.isSome && xrefsAns then w5
      else { w5 with fCreateXRefs := false }
    else w5
  (B_OK, w6)

/-! ## Ellipses and rounded rectangles (`PDFWriter.cpp` 1716-1782, 1879-1924) -/

/-- The calls that build a `BShape`. -/
inductive ShapeOp where
  | MoveTo (p : BPoint)
  | LineTo (p : BPoint)
  | BezierTo (c1 c2 c3 : BPoint)
  | Close
deriving DecidableEq, Repr

/-- The shape `PaintEllipse` builds and hands to `PaintShape`. -/
def PaintEllipse.shape (center radii : BPoint) : List ShapeOp :=
  let sx := radii.x
  let sy := radii.y
  let ax := sx
  let bx := 0.5555555555555 * sx
  let ay := sy
  let by1 := 0.5555555555555 * sy
  [ShapeOp.MoveTo { x := center.x - ax, y := center.y },
   ShapeOp.BezierTo { x := center.x - ax, y := center.y - by1 }
     { x := center.x - bx, y := center.y - ay } { x := center.x, y := center.y - ay },
   ShapeOp.BezierTo { x := center.x + bx, y := center.y - ay }
     { x := center.x + ax, y := center.y - by1 } { x := center.x + ax, y := center.y },
   ShapeOp.BezierTo { x := center.x + ax, y := center.y + by1 }
     { x := center.x + bx, y := center.y + ay } { x := center.x, y := center.y + ay },
   ShapeOp.BezierTo { x := center.x - bx, y := center.y + ay }
     { x := center.x - ax, y := center.y + by1 } { x := center.x - ax, y := center.y },
   ShapeOp.Close]

/-- The shape `PaintRoundRect` builds and hands to `PaintShape`, for the
rectangle with the edges `left`, `top`, `right`, `bottom`. The variable
`center` moves from corner to corner: `cx1`, `cx2` and `cy1`, `cy2` are its
coordinates at the left and right, top and bottom corners. -/
def PaintRoundRect.shape (left top right bottom : ℚ) (radii : BPoint) : List ShapeOp :=
  let sx := radii.x
  let sy := radii.y
  let ax := sx
  let bx := 0.5555555555555 * sx
  let ay := sy
  let by1 := 0.5555555555555 * sy
  let cx1 := left + sx
  let cy1 := top + sy
  let cx2 := right - sx
  let cy2 := bottom - sy
  [ShapeOp.MoveTo { x := cx1 - ax, y := cy1 },
   ShapeOp.BezierTo { x := cx1 - ax, y := cy1 - by1 } { x := cx1 - bx, y := cy1 - ay }
     { x := cx1, y := cy1 - ay },
   ShapeOp.LineTo { x := cx2, y := cy1 - ay },
   ShapeOp.BezierTo { x := cx2 + bx, y := cy1 - ay } { x := cx2 + ax, y := cy1 - by1 }
     { x := cx2 + ax, y := cy1 },
   ShapeOp.LineTo { x := cx2 + sx, y := cy2 },
   ShapeOp.BezierTo { x := cx2 + ax, y := cy2 + by1 } { x := cx2 + bx, y := cy2 + ay }
     { x := cx2, y := cy2 + ay },
   ShapeOp.LineTo { x := cx1, y := cy2 + ay },
   ShapeOp.BezierTo { x := cx1 - bx, y := cy2 + ay } { x := cx1 - ax, y := cy2 + by1 }
     { x := cx1 - ax, y := cy2 },
   ShapeOp.Close]

/-- One cubic Bezier arc of a shape: the point where it starts (the current
point of the shape), its two control points and the point where it ends. -/
structure Arc where
  start : BPoint
  c1 : BPoint
  c2 : BPoint
  stop : BPoint
deriving DecidableEq, Repr

/-- The Bezier arcs of a shape in drawing order, `cur` being the current
point. -/
def ShapeOp.arcs : BPoint → List ShapeOp → List Arc
  | _, [] => []
  | _, ShapeOp.MoveTo p :: rest => ShapeOp.arcs p rest
  | _, ShapeOp.LineTo p :: rest => ShapeOp.arcs p rest
  | cur, ShapeOp.BezierTo c1 c2 c3 :: rest =>
    { start := cur, c1 := c1, c2 := c2, stop := c3 } :: ShapeOp.arcs c3 rest
  | cur, ShapeOp.Close :: rest => ShapeOp.arcs cur rest

/-- The arc from `p` to `q` whose first control point lies `dy` below `p` and
whose second control point lies `dx` to the right of `q`. -/
def Arc.vertThenHoriz (p q : BPoint) (dy dx : ℚ) : Arc :=
  { start := p, c1 := { x := p.x, y := p.y + dy }, c2 := { x := q.x + dx, y := q.y }, stop := q }

/-- The arc from `p` to `q` whose first control point lies `dx` to the right of
`p` and whose second control point lies `dy` below `q`. -/
def Arc.horizThenVert (p q : BPoint) (dx dy : ℚ) : Arc :=
  { start := p, c1 := { x := p.x + dx, y := p.y }, c2 := { x := q.x, y := q.y + dy }, stop := q }

/-! ## Colour selection (`PDFWriter.cpp` 675-696, 895-905, 2345-2350) -/

/-- Platform constant `B_SOLID_HIGH` (GraphicsDefs.h): every bit set. -/
def B_SOLID_HIGH : pattern := { data := [0xff, 0xff, 0xff, 0xff, 0xff, 0xff, 0xff, 0xff] }

/-- Platform constant `B_SOLID_LOW` (GraphicsDefs.h): no bit set. -/
def B_SOLID_LOW : pattern := { data := [0, 0, 0, 0, 0, 0, 0, 0] }

/-- Modelled from the spec: `IsSame(pattern, pattern)`, which is not among the
sources: two stipple patterns are the same when their eight bytes are. -/
def IsSame (p q : pattern) : Bool := p == q

/-- `SetColor(rgb_color color)`. In a pass that makes no PDF the opacity handle
for a new alpha below 255 is created (`handle` is the answer of
`PDF_create_gstate` if it is called). In the render pass, when `color` differs
from `fState->currentColor` in some channel, it becomes the current colour and
is selected with `PDF_setcolor`; when it is equal nothing happens. The colour
components logged are the byte values (the source divides them by 255.0). -/
def SetColor.rgb (w : Writer) (color : rgb_color) (handle : Int) : Option Writer :=
  if !w.makesPDF then
    if w.supportsOpacity then
      match w.fState with
      | [] => none
      | s :: _ =>
        if s.currentColor.alpha ≠ color.alpha ∧ color.alpha < 255 then
          some (FindTransparency w color.alpha handle).2
        else some w
    else some w
  else
    match w.fState with
    | [] => none
    | s :: prev =>
      if s.currentColor.red ≠ color.red ∨ s.currentColor.blue ≠ color.blue ∨
          s.currentColor.green ≠ color.green ∨ s.currentColor.alpha ≠ color.alpha then
        some { w with fState := { s with currentColor := color } :: prev,
                      fPdf := w.fPdf ++
                        [PdfOp.setcolor "both" "rgb" color.red color.green color.blue] }
      else some w

/-- `SetColor()`: the foreground colour for the stipple `B_SOLID_HIGH`, the
background colour for `B_SOLID_LOW`, the pattern for any other stipple.
`gstate` and `patternHandle` are the answers of `PDF_create_gstate` and
`PDF_begin_pattern` if they are called. -/
def SetColor (w : Writer) (gstate patternHandle : Int) : Option Writer :=
  match w.fState with
  | [] => none
  | s :: _ =>
    if IsSame s.pattern0 B_SOLID_HIGH then SetColor.rgb w s.foregroundColor gstate
    else if IsSame s.pattern0 B_SOLID_LOW then SetColor.rgb w s.backgroundColor gstate
    else SetPattern w patternHandle

/-- `SetStipplePattern`: `fState->pattern0 = pat`. -/
def SetStipplePattern (w : Writer) (pat : pattern) : Option Writer :=
  match w.fState with
  | [] => none
  | s :: prev => some { w with fState := { s with pattern0 := pat } :: prev }

/-- A call that selects a stipple or the colour to paint with. -/
inductive ColorCall where
  | SetStipplePattern (pat : pattern)
  | SetColor (gstate patternHandle : Int)
deriving DecidableEq, Repr

/-- Run a sequence of `SetStipplePattern` and `SetColor()` calls. -/
def runColorCalls : List ColorCall → Writer → Option Writer
  | [], w => some w
  | ColorCall.SetStipplePattern pat :: cs, w =>
    match SetStipplePattern w pat with
    | none => none
    | some w1 => runColorCalls cs w1
  | ColorCall.SetColor g h :: cs, w =>
    match SetColor w g h with
    | none => none
    | some w1 => runColorCalls cs w1

/-- The colour selected last in a log: the last `PDF_setcolor` call. -/
def lastSetcolor (l : List PdfOp) : Option PdfOp :=
  (l.filter (fun op => match op with
    | PdfOp.setcolor _ _ _ _ _ => true
    | _ => false)).getLast?

/-- A stipple of alternating rows. -/
def sampleStipple : pattern := { data := [0xff, 0, 0xff, 0, 0xff, 0, 0xff, 0] }

/-- A render-pass page state with a red foreground, a white background, the
stipple `B_SOLID_HIGH`, a black current colour, and the pattern of
`sampleStipple` for these colours cached under the handle 7. -/
def colorWriter : Writer :=
  { fState := [{ (default : State) with
                   pattern0 := B_SOLID_HIGH,
                   foregroundColor := { red := 255, green := 0, blue := 0, alpha := 255 },
                   backgroundColor := { red := 255, green := 255, blue := 255, alpha := 255 },
                   currentColor := { red := 0, green := 0, blue := 0, alpha := 255 } },
               default],
    fStateDepth := 1, makesPDF := true, makesPattern := false,
    fTransparencyCache := [],
    fPatterns := [{ pat := sampleStipple,
                    lowColor := { red := 255, green := 255, blue := 255, alpha := 255 },
                    highColor := { red := 255, green := 0, blue := 0, alpha := 255 },
                    patternId := 7 }],
    fPdf := [] }

/-! ## The pictures of a page (`PDFWriter.cpp` 133-142) -/

/-- The recorded operations of a picture that act on the state stack or on the
coordinate system of the current state. -/
inductive PictureOp where
  | PushState
  | PopState
  | SetOrigin (pt : BPoint)
  | SetScale (scale : ℚ)
deriving DecidableEq, Repr

/-- Modelled from the spec: `Iterate(picture)` of the picture iterator, which is
not among the sources: the recorded operations are played in order, each one by
a call of the member function of its name. -/
def Iterate : List PictureOp → Writer → Option Writer
  | [], w => some w
  | PictureOp.PushState :: ops, w => Iterate ops (PushState w)
  | PictureOp.PopState :: ops, w =>
    match PopState w with
    | none => none
    | some w1 => Iterate ops w1
  | PictureOp.SetOrigin pt :: ops, w =>
    match SetOrigin w pt with
    | none => none
    | some w1 => Iterate ops w1
  | PictureOp.SetScale scale :: ops, w =>
    match SetScale w scale with
    | none => none
    | some w1 => Iterate ops w1

/-- One iteration of the picture loop of `PrintPage`: `SetOrigin(picPoints[i]);
PushInternalState(); Iterate(pictures[i]); PopInternalState();`. -/
def PrintPage.picture (w : Writer) (pt : BPoint) (pic : List PictureOp) : Option Writer :=
  match SetOrigin w pt with
  | none => none
  | some w1 =>
    match Iterate pic (PushInternalState w1) with
    | none => none
    | some w2 =>
      match PopInternalState w2 with
      | none => none
      | some r => some r.2

/-- The picture loop of `PrintPage` over the pictures and their points. -/
def PrintPage.pictures : List (BPoint × List PictureOp) → Writer → Option Writer
  | [], w => some w
  | (pt, pic) :: rest, w =>
    match PrintPage.picture w pt pic with
    | none => none
    | some w1 => PrintPage.pictures rest w1

/-! ## Sequences of characters (`PDFText.cpp` 353-417) -/

/-- One `DrawChar` call: what the call reads from its surroundings, and the code
point. -/
structure CharCall where
  env : CharEnv
  denv : DrawEnv
  unicode : Nat
deriving DecidableEq, Repr

/-- Run a sequence of `DrawChar` calls. -/
def drawChars (encodings : List unicode_to_encoding) (cid_tables : List cid_table) :
    List CharCall → Writer → Option Writer
  | [], w => some w
  | c :: cs, w =>
    match DrawChar encodings cid_tables c.env c.denv w c.unicode with
    | none => none
    | some w1 => drawChars encodings cid_tables cs w1

/-- No encoding is found for the code point of a call: the MacRoman conversion
fails, `find_encoding` fails, the font is not embeddable and
`find_in_cid_tables` fails. -/
def CharCall.unmappable (encodings : List unicode_to_encoding) (cid_tables : List cid_table)
    (c : CharCall) : Bool :=
  (!c.env.convOK || c.env.convByte = 0) &&
  !(find_encoding encodings c.unicode 0 0).1 &&
  !c.env.embeddable &&
  !(find_in_cid_tables cid_tables c.unicode 0 (find_encoding encodings c.unicode 0 0).2.2
      c.env.order).1

/-- Surroundings of `DrawChar` for a character that MacRoman does not hold, in
a font that may not be embedded, with an empty CJK search order. -/
def sampleCharEnvNoConv : CharEnv :=
  { convOK := false, convByte := 0, convLen := 0, embeddable := false, trueType := true,
    userNew := false, userEnc := 0, userIndex := 0, order := [], found := false }

/-- Three calls: the letter `A`, then two code points for which no encoding is
found. -/
def sampleCharCalls : List CharCall :=
  [{ env := sampleCharEnv, denv := sampleDrawEnv, unicode := 0x41 },
   { env := sampleCharEnvNoConv, denv := sampleDrawEnv, unicode := 0x3042 },
   { env := sampleCharEnvNoConv, denv := sampleDrawEnv, unicode := 0x3044 }]

/-! ## The CJK search order, in the words of the specification -/

/-- The table of the CJK encoding `enc`: `cid_tables[enc - first_cjk_encoding]`. -/
def cid_table.forEncoding (cid_tables : List cid_table) (enc : Nat) : cid_table :=
  cid_tables.getD (enc - first_cjk_encoding) []

/-- The table has a record for the code point. -/
def cid_table.hasUnicode (t : cid_table) (unicode : Nat) : Bool :=
  t.any (fun r => r.unicode == unicode)

/-- The search order as the specification words it: among the entries before the
first `invalid_encoding`, the first one whose table contains the code point. -/
def find_in_cid_tables.firstHit (cid_tables : List cid_table) (unicode : Nat)
    (order : List Nat) : Option Nat :=
  (order.takeWhile (fun e => e ≠ invalid_encoding)).find?
    (fun e => (cid_table.forEncoding cid_tables e).hasUnicode unicode)

/-- The code point `DrawString` hands to `DrawChar` for the two UCS-2 bytes
`u[0]`, `u[1]`: `u[0]*256+u[1]`. -/
def DrawString.codePoint (u0 u1 : Nat) : Nat := u0 * 256 + u1

/-- Four small CJK tables, in the order of `cid_tables`: Japanese, CNS1, GB1,
Korean. -/
def sampleCidTables : List cid_table :=
  [[{ unicode := 0x3042, cid := 843 }, { unicode := 0x4e00, cid := 1200 }],
   [{ unicode := 0x4e00, cid := 595 }],
   [{ unicode := 0x4e00, cid := 4162 }, { unicode := 0x4e01, cid := 1000 }],
   [{ unicode := 0xac00, cid := 1086 }]]

/-- A search order that prefers GB1 to Japanese and has Korean switched off. -/
def sampleOrder : List Nat :=
  [chinese_gb1_encoding, japanese_encoding, invalid_encoding, korean_encoding]

/-- Surroundings of `DrawChar` for a character that MacRoman does not hold, in a
font that may not be embedded, with the search order `sampleOrder`. -/
def sampleCharEnvCJK : CharEnv :=
  { convOK := false, convByte := 0, convLen := 0, embeddable := false, trueType := true,
    userNew := false, userEnc := 0, userIndex := 0, order := sampleOrder, found := false }

/-- Surroundings of the drawing part of `DrawChar` in which PDFlib finds the
font asked for under handle 5. -/
def sampleDrawEnvFound : DrawEnv :=
  { fontName := "Arial-Bold", face := 0, size := 12, x := 100, y := 700, rotation := 0,
    embedAns := true, findfontAns := 5, defaultAns := 1 }

/-! # Properties -/

/-! ## Graphics state stack -/

theorem PushInternalState_iterate_depth (n : Nat) (w : Writer) :
    (PushInternalState^[n] w).fStateDepth = w.fStateDepth + n := by
  induction n with
  | zero => simp
  | succ n ih =>
    rw [Function.iterate_succ_apply']
    simp only [PushInternalState, ih]
    push_cast
    ring

theorem PopInternalState_PushInternalState (v : Writer) (h : 0 ≤ v.fStateDepth) :
    PopInternalState (PushInternalState v) = some (true, v) := by
  have h1 : v.fStateDepth + 1 ≠ 0 := by omega
  simp [PopInternalState, PushInternalState, h1]

theorem popMany_after_pushes (n : Nat) (w : Writer) (h : 0 ≤ w.fStateDepth)
    (m : Nat) (rest : List Bool) (w1 : Writer) (hm : popMany m w = some (rest, w1)) :
    popMany (n + m) (PushInternalState^[n] w) = some (List.replicate n true ++ rest, w1) := by
  induction n with
  | zero => simpa using hm
  | succ n ih =>
    have hd : 0 ≤ (PushInternalState^[n] w).fStateDepth := by
      rw [PushInternalState_iterate_depth]; omega
    rw [Function.iterate_succ_apply', show n + 1 + m = (n + m) + 1 by omega]
    simp only [popMany, PopInternalState_PushInternalState _ hd, ih, List.replicate_succ,
      List.cons_append]

theorem saves_append (l m : List PdfOp) : saves (l ++ m) = saves l + saves m := by
  simp [saves, List.count_append]

theorem restores_append (l m : List PdfOp) : restores (l ++ m) = restores l + restores m := by
  simp [restores, List.count_append]

theorem PushState_render (w : Writer) (hpdf : w.makesPDF = true) :
    PushState w = { w with fState := State.copyOf w.fState :: w.fState,
                           fStateDepth := w.fStateDepth + 1,
                           fPdf := w.fPdf ++ [PdfOp.save] } := by
  simp [PushState, PushInternalState, hpdf]

theorem PopState_render_pos (w : Writer) (hpdf : w.makesPDF = true) (s : State)
    (prev : List State) (hs : w.fState = s :: prev) (hd : w.fStateDepth ≠ 0) :
    PopState w = some { w with fState := prev, fStateDepth := w.fStateDepth - 1,
                               fPdf := w.fPdf ++ [PdfOp.restore] } := by
  simp [PopState, PopInternalState, hs, hd, hpdf]

theorem PopState_zero (w : Writer) (hd : w.fStateDepth = 0) : PopState w = some w := by
  simp [PopState, PopInternalState, hd]

theorem runStack_balance (cs : List StackCall) :
    ∀ w : Writer, w.makesPDF = true → 0 ≤ w.fStateDepth →
      w.fStateDepth ≤ w.fState.length →
      ∃ w1, runStack cs w = some w1 ∧
        (saves w1.fPdf - saves w.fPdf) - (restores w1.fPdf - restores w.fPdf)
          = w1.fStateDepth - w.fStateDepth := by
  induction cs with
  | nil => intro w _ _ _; exact ⟨w, rfl, by simp⟩
  | cons c cs ih =>
    intro w hpdf h0 hlen
    cases c with
    | push =>
      obtain ⟨w1, hrun, hbal⟩ := ih (PushState w)
        (by rw [PushState_render w hpdf]; exact hpdf)
        (by rw [PushState_render w hpdf]; simp only; omega)
        (by rw [PushState_render w hpdf]; simp only [List.length_cons]; push_cast; omega)
      refine ⟨w1, by simpa [runStack] using hrun, ?_⟩
      rw [PushState_render w hpdf] at hbal
      simp only [saves_append, restores_append] at hbal
      have e1 : saves [PdfOp.save] = 1 := by decide
      have e2 : restores [PdfOp.save] = 0 := by decide
      rw [e1, e2] at hbal
      omega
    | pop =>
      by_cases hd : w.fStateDepth = 0
      · obtain ⟨w1, hrun, hbal⟩ := ih w hpdf h0 hlen
        exact ⟨w1, by simpa [runStack, PopState_zero w hd] using hrun, hbal⟩
      · cases hs : w.fState with
        | nil => rw [hs] at hlen; simp at hlen; omega
        | cons s prev =>
          have hpop := PopState_render_pos w hpdf s prev hs hd
          rw [hs] at hlen
          simp only [List.length_cons] at hlen
          push_cast at hlen
          obtain ⟨w1, hrun, hbal⟩ := ih
            { w with fState := prev, fStateDepth := w.fStateDepth - 1,
                     fPdf := w.fPdf ++ [PdfOp.restore] } hpdf
            (show 0 ≤ w.fStateDepth - 1 by omega)
            (show w.fStateDepth - 1 ≤ (prev.length : Int) by omega)
          refine ⟨w1, by simpa [runStack, hpop] using hrun, ?_⟩
          simp only [saves_append, restores_append] at hbal
          have e1 : saves [PdfOp.restore] = 0 := by decide
          have e2 : restores [PdfOp.restore] = 1 := by decide
          rw [e1, e2] at hbal
          omega

/-- C1: with `fStateDepth = 0`, `PopInternalState` returns `false` and changes
neither `fState` nor `fStateDepth`, and `PopState` changes nothing (so it emits
no restore); and after `n` pushes from depth 0, `n + 1` pops give `n` times
`true` and then `false`, ending in the initial writer with depth 0. -/
theorem PopInternalState_underflow (w : Writer) (h : w.fStateDepth = 0) :
    PopInternalState w = some (false, w) ∧
    PopState w = some w ∧
    ∀ n : Nat, popMany (n + 1) (PushInternalState^[n] w)
        = some (List.replicate n true ++ [false], w) := by
  have hpop : PopInternalState w = some (false, w) := by simp [PopInternalState, h]
  refine ⟨hpop, PopState_zero w h, ?_⟩
  intro n
  exact popMany_after_pushes n w (by omega) 1 [false] w (by simp [popMany, hpop])

theorem PopInternalState_underflow_witness :
    rootWriter.fStateDepth = 0 ∧
    popMany (3 + 1) (PushInternalState^[3] rootWriter)
      = some (List.replicate 3 true ++ [false], rootWriter) :=
  ⟨rfl, (PopInternalState_underflow rootWriter rfl).2.2 3⟩

theorem PopState_render_cases (w v : Writer) (hpdf : w.makesPDF = true)
    (h : PopState w = some v) :
    (w.fStateDepth = 0 ∧ v = w) ∨
    (w.fStateDepth ≠ 0 ∧ v.makesPDF = true ∧ v.fPdf = w.fPdf ++ [PdfOp.restore] ∧
      v.fStateDepth = w.fStateDepth - 1) := by
  by_cases hd : w.fStateDepth = 0
  · rw [PopState_zero w hd] at h
    exact Or.inl ⟨hd, by simpa using h.symm⟩
  · cases hs : w.fState with
    | nil => simp [PopState, PopInternalState, hs, hd] at h
    | cons s prev =>
      rw [PopState_render_pos w hpdf s prev hs hd] at h
      simp only [Option.some.injEq] at h
      subst h
      exact Or.inr ⟨hd, hpdf, rfl, rfl⟩

theorem runStack_balance_of_some (cs : List StackCall) :
    ∀ w w1 : Writer, w.makesPDF = true → runStack cs w = some w1 →
      (saves w1.fPdf - saves w.fPdf) - (restores w1.fPdf - restores w.fPdf)
        = w1.fStateDepth - w.fStateDepth := by
  induction cs with
  | nil =>
    intro w w1 _ h
    simp only [runStack, Option.some.injEq] at h
    subst h
    simp
  | cons c cs ih =>
    intro w w1 hpdf h
    cases c with
    | push =>
      simp only [runStack] at h
      have hbal := ih (PushState w) w1 (by rw [PushState_render w hpdf]; exact hpdf) h
      rw [PushState_render w hpdf] at hbal
      simp only [saves_append, restores_append] at hbal
      have e1 : saves [PdfOp.save] = 1 := by decide
      have e2 : restores [PdfOp.save] = 0 := by decide
      rw [e1, e2] at hbal
      omega
    | pop =>
      simp only [runStack] at h
      cases hp : PopState w with
      | none => rw [hp] at h; simp at h
      | some v =>
        rw [hp] at h
        rcases PopState_render_cases w v hpdf hp with ⟨_, hv⟩ | ⟨_, hvpdf, hvlog, hvd⟩
        · subst hv
          exact ih v w1 hpdf h
        · have hbal := ih v w1 hvpdf h
          rw [hvlog, hvd] at hbal
          simp only [saves_append, restores_append] at hbal
          have e1 : saves [PdfOp.restore] = 0 := by decide
          have e2 : restores [PdfOp.restore] = 1 := by decide
          rw [e1, e2] at hbal
          omega

/-- C2: in the render pass `PushState` appends exactly one `PDF_save` and raises
the depth by one; `PopState` appends exactly one `PDF_restore` and lowers the
depth by one when the depth is not 0 (and a state is there to pop), and changes
nothing at depth 0; for every sequence of `PushState` / `PopState` calls that
runs to its end, saves minus restores emitted equals the change of
`fStateDepth`; and started with `0 <= fStateDepth <= length of the chain`,
every sequence runs to its end. -/
theorem PushState_PopState_mirrored (w : Writer) (hpdf : w.makesPDF = true) :
    ((PushState w).fPdf = w.fPdf ++ [PdfOp.save] ∧
      (PushState w).fStateDepth = w.fStateDepth + 1) ∧
    (∀ s prev, w.fState = s :: prev → w.fStateDepth ≠ 0 →
      ∃ w1, PopState w = some w1 ∧ w1.fPdf = w.fPdf ++ [PdfOp.restore] ∧
        w1.fStateDepth = w.fStateDepth - 1) ∧
    (w.fStateDepth = 0 → PopState w = some w) ∧
    (∀ (cs : List StackCall) (w1 : Writer), runStack cs w = some w1 →
      (saves w1.fPdf - saves w.fPdf) - (restores w1.fPdf - restores w.fPdf)
        = w1.fStateDepth - w.fStateDepth) ∧
    (∀ cs : List StackCall, 0 ≤ w.fStateDepth → w.fStateDepth ≤ w.fState.length →
      ∃ w1, runStack cs w = some w1) := by
  refine ⟨?_, ?_, PopState_zero w, ?_, ?_⟩
  · rw [PushState_render w hpdf]; exact ⟨rfl, rfl⟩
  · intro s prev hs hd
    exact ⟨_, PopState_render_pos w hpdf s prev hs hd, rfl, rfl⟩
  · intro cs w1 h
    exact runStack_balance_of_some cs w w1 hpdf h
  · intro cs h0 hlen
    obtain ⟨w1, h1, _⟩ := runStack_balance cs w hpdf h0 hlen
    exact ⟨w1, h1⟩

theorem PushState_PopState_mirrored_witness :
    rootWriter.makesPDF = true ∧
    ∃ w1, runStack [StackCall.push, StackCall.push, StackCall.pop, StackCall.pop,
        StackCall.pop, StackCall.push] rootWriter = some w1 ∧
      (saves w1.fPdf - saves rootWriter.fPdf) - (restores w1.fPdf - restores rootWriter.fPdf)
        = w1.fStateDepth - rootWriter.fStateDepth :=
  ⟨rfl, ((PushState_PopState_mirrored rootWriter rfl).2.2.2.2 _ (by decide) (by decide)).elim
    fun w1 h1 => ⟨w1, h1, (PushState_PopState_mirrored rootWriter rfl).2.2.2.1 _ w1 h1⟩⟩

/-! ## Transparency cache -/

theorem FindTransparency.scan_none_iff (a : Nat) (l : List Transparency) :
    FindTransparency.scan a l = none ↔ ∀ t ∈ l, t.fAlpha ≠ a := by
  induction l with
  | nil => simp [FindTransparency.scan]
  | cons t l ih =>
    by_cases h : t.fAlpha = a
    · simp [FindTransparency.scan, Transparency.Matches, h]
    · simp [FindTransparency.scan, Transparency.Matches, h, ih]

theorem FindTransparency.scan_append_of_none (a : Nat) (l m : List Transparency)
    (h : FindTransparency.scan a l = none) :
    FindTransparency.scan a (l ++ m) = FindTransparency.scan a m := by
  induction l with
  | nil => rfl
  | cons t l ih =>
    simp only [FindTransparency.scan] at h
    split at h
    · exact absurd h (by simp)
    · rename_i hm
      simp only [List.cons_append, FindTransparency.scan, hm]
      simpa using ih h

theorem FindTransparency_scan_after (w : Writer) (a : Nat) (h1 : Int) (t : Transparency)
    (hfound : (FindTransparency w a h1).1 = some t) :
    FindTransparency.scan a (FindTransparency w a h1).2.fTransparencyCache = some t := by
  unfold FindTransparency at hfound ⊢
  cases hs : FindTransparency.scan a w.fTransparencyCache with
  | some t0 =>
    simp only [hs] at hfound ⊢
    exact hfound
  | none =>
    simp only [hs] at hfound ⊢
    by_cases hh : h1 ≥ 0
    · simp only [hh, if_true] at hfound ⊢
      rw [FindTransparency.scan_append_of_none a _ _ hs]
      simp only [FindTransparency.scan, Transparency.Matches, beq_self_eq_true, if_true]
      exact hfound
    · simp [hh] at hfound

theorem FindTransparency_cache_nodup (w : Writer) (a : Nat) (h : Int)
    (hn : (w.fTransparencyCache.map Transparency.fAlpha).Nodup) :
    ((FindTransparency w a h).2.fTransparencyCache.map Transparency.fAlpha).Nodup := by
  unfold FindTransparency
  cases hs : FindTransparency.scan a w.fTransparencyCache with
  | some t0 => simpa using hn
  | none =>
    by_cases hh : h ≥ 0
    · simp only [hh, if_true, List.map_append, List.map_cons, List.map_nil]
      rw [List.nodup_append]
      refine ⟨hn, by simp, ?_⟩
      intro x hx hx1
      simp only [List.mem_singleton] at hx1
      subst hx1
      obtain ⟨t, ht, hta⟩ := List.mem_map.1 hx
      exact (FindTransparency.scan_none_iff _ _).1 hs t ht hta
    · simpa [hh] using hn

theorem findTransparencies_cache_nodup (reqs : List (Nat × Int)) :
    ∀ w : Writer, (w.fTransparencyCache.map Transparency.fAlpha).Nodup →
      ((findTransparencies reqs w).fTransparencyCache.map Transparency.fAlpha).Nodup := by
  induction reqs with
  | nil => intro w hn; exact hn
  | cons r reqs ih =>
    intro w hn
    obtain ⟨a, h⟩ := r
    exact ih _ (FindTransparency_cache_nodup w a h hn)

/-- C3: if `FindTransparency(a)` returns an entry, the next `FindTransparency(a)`
returns the same entry and leaves the whole writer (cache and PDFlib log) as it
was, whatever PDFlib would have answered; and a cache grown from the empty
cache by `FindTransparency` calls alone holds no two entries with the same
alpha. -/
theorem FindTransparency_idempotent (w : Writer) (a : Nat) (h1 h2 : Int) (t : Transparency)
    (hfound : (FindTransparency w a h1).1 = some t) :
    FindTransparency (FindTransparency w a h1).2 a h2 = (some t, (FindTransparency w a h1).2) ∧
    ∀ (w0 : Writer) (reqs : List (Nat × Int)), w0.fTransparencyCache = [] →
      ((findTransparencies reqs w0).fTransparencyCache.map Transparency.fAlpha).Nodup := by
  constructor
  · have hs := FindTransparency_scan_after w a h1 t hfound
    generalize (FindTransparency w a h1).2 = w1 at hs
    simp [FindTransparency, hs]
  · intro w0 reqs h0
    exact findTransparencies_cache_nodup reqs w0 (by simp [h0])

theorem FindTransparency_idempotent_witness :
    (FindTransparency idleWriter 128 7).1 = some { fAlpha := 128, fHandle := 7 } ∧
    FindTransparency (FindTransparency idleWriter 128 7).2 128 9
      = (some { fAlpha := 128, fHandle := 7 }, (FindTransparency idleWriter 128 7).2) :=
  ⟨by decide, (FindTransparency_idempotent idleWriter 128 7 9 _ (by decide)).1⟩

/-! ## Pattern cache -/

theorem Pattern.Matches_iff (p : Pattern) (pat : pattern) (low high : rgb_color) :
    p.Matches pat low high = true ↔ p.pat = pat ∧ p.lowColor = low ∧ p.highColor = high := by
  simp [Pattern.Matches, and_assoc]

theorem FindPattern.scan_found (s : State) (l : List Pattern) (id : Int)
    (h : FindPattern.scan s l = id) (hid : id ≠ -1) :
    ∃ p ∈ l, p.patternId = id ∧
      p.Matches s.pattern0 s.backgroundColor s.foregroundColor = true := by
  induction l with
  | nil => simp [FindPattern.scan] at h; omega
  | cons p l ih =>
    simp only [FindPattern.scan] at h
    split at h
    · rename_i hm
      exact ⟨p, by simp, h, hm⟩
    · obtain ⟨q, hq, hqid, hqm⟩ := ih h
      exact ⟨q, by simp [hq], hqid, hqm⟩

theorem FindPattern.scan_no_match (s : State) (l : List Pattern)
    (hvalid : ∀ p ∈ l, p.patternId ≠ -1) (h : FindPattern.scan s l = -1) :
    ∀ p ∈ l, p.Matches s.pattern0 s.backgroundColor s.foregroundColor = false := by
  induction l with
  | nil => simp
  | cons p l ih =>
    simp only [FindPattern.scan] at h
    split at h
    · exact absurd h (hvalid p (by simp))
    · rename_i hm
      intro q hq
      rcases List.mem_cons.1 hq with rfl | hq
      · simpa using hm
      · exact ih (fun r hr => hvalid r (by simp [hr])) h q hq

theorem FindPattern.scan_append_of_no_match (s : State) (l m : List Pattern)
    (h : ∀ p ∈ l, p.Matches s.pattern0 s.backgroundColor s.foregroundColor = false) :
    FindPattern.scan s (l ++ m) = FindPattern.scan s m := by
  induction l with
  | nil => rfl
  | cons p l ih =>
    have hp := h p (by simp)
    simp only [List.cons_append, FindPattern.scan, hp]
    simpa using ih (fun q hq => h q (by simp [hq]))

theorem SetPattern_collect (w : Writer) (s : State) (rest : List State) (h1 : Int)
    (hpass : w.makesPattern = true) (hs : w.fState = s :: rest)
    (hvalid : ∀ p ∈ w.fPatterns, p.patternId ≠ -1) (hcreated : h1 ≠ -1) :
    ∃ w1 id, SetPattern w h1 = some w1 ∧ w1.makesPattern = true ∧ w1.fState = s :: rest ∧
      (∀ p ∈ w1.fPatterns, p.patternId ≠ -1) ∧
      FindPattern.scan s w1.fPatterns = id ∧ id ≠ -1 := by
  by_cases hf : FindPattern.scan s w.fPatterns = -1
  · have hno := FindPattern.scan_no_match s w.fPatterns hvalid hf
    refine ⟨{ w with
        fPdf := w.fPdf ++ [PdfOp.begin_pattern] ++ CreatePattern.pass s 0
          ++ CreatePattern.pass s 1 ++ [PdfOp.end_pattern],
        fPatterns := w.fPatterns ++
          [{ pat := s.pattern0, lowColor := s.backgroundColor,
             highColor := s.foregroundColor, patternId := h1 }] }, h1,
      by simp [SetPattern, hpass, FindPattern, hs, hf, CreatePattern, hcreated],
      hpass, hs, ?_, ?_, hcreated⟩
    · intro p hp
      simp only [List.mem_append, List.mem_singleton] at hp
      rcases hp with hp | rfl
      · exact hvalid p hp
      · exact hcreated
    · simp only
      rw [FindPattern.scan_append_of_no_match s _ _ hno]
      simp [FindPattern.scan, Pattern.Matches]
  · exact ⟨w, _, by simp [SetPattern, hpass, FindPattern, hs, hf], hpass, hs, hvalid, rfl, hf⟩

/-- C4: in the pattern-collecting pass, on a cache whose entries all carry a
created handle (not `-1`, as `CreatePattern` stores them), a `SetPattern` call
for which creation succeeds (PDFlib answers `h1`, not `-1`) leaves a cache with
the same property in which `FindPattern` finds a handle; a second `SetPattern`
for the same state changes nothing, so it creates no pattern and `FindPattern`
still returns that handle. And whenever `FindPattern` returns a handle other than
`-1`, it is the handle of a cache entry whose stipple, background colour and
foreground colour equal those of the current state. -/
theorem SetPattern_idempotent (w : Writer) (s : State) (rest : List State) (h1 h2 : Int)
    (hpass : w.makesPattern = true) (hs : w.fState = s :: rest)
    (hvalid : ∀ p ∈ w.fPatterns, p.patternId ≠ -1) (hcreated : h1 ≠ -1) :
    (∃ w1 id, SetPattern w h1 = some w1 ∧ (∀ p ∈ w1.fPatterns, p.patternId ≠ -1) ∧
      FindPattern w1 = some id ∧ id ≠ -1 ∧ SetPattern w1 h2 = some w1) ∧
    (∀ (v : Writer) (st : State) (tl : List State) (id : Int),
      v.fState = st :: tl → FindPattern v = some id → id ≠ -1 →
      ∃ p ∈ v.fPatterns, p.patternId = id ∧ p.pat = st.pattern0 ∧
        p.lowColor = st.backgroundColor ∧ p.highColor = st.foregroundColor) := by
  constructor
  · obtain ⟨w1, id, hset, hpass1, hs1, hvalid1, hfind, hid⟩ :=
      SetPattern_collect w s rest h1 hpass hs hvalid hcreated
    refine ⟨w1, id, hset, hvalid1, by simp [FindPattern, hs1, hfind], hid, ?_⟩
    simp [SetPattern, hpass1, FindPattern, hs1, hfind, hid]
  · intro v st tl id hv hfind hid
    simp only [FindPattern, hv, Option.some.injEq] at hfind
    obtain ⟨p, hp, hpid, hm⟩ := FindPattern.scan_found st v.fPatterns id hfind hid
    exact ⟨p, hp, hpid, (Pattern.Matches_iff _ _ _ _).1 hm⟩

theorem SetPattern_idempotent_witness :
    ∃ w1 id, SetPattern collectWriter 5 = some w1 ∧
      (∀ p ∈ w1.fPatterns, p.patternId ≠ -1) ∧
      FindPattern w1 = some id ∧ id ≠ -1 ∧ SetPattern w1 6 = some w1 :=
  (SetPattern_idempotent collectWriter default [] 5 6 rfl rfl (by simp [collectWriter])
    (by decide)).1

theorem SetPattern_keeps_created (w w1 : Writer) (h : Int)
    (hvalid : ∀ p ∈ w.fPatterns, p.patternId ≠ -1) (hset : SetPattern w h = some w1) :
    ∀ p ∈ w1.fPatterns, p.patternId ≠ -1 := by
  unfold SetPattern FindPattern CreatePattern at hset
  cases hs : w.fState with
  | nil => simp [hs] at hset
  | cons s rest =>
    simp only [hs] at hset
    split at hset
    · split at hset
      · split at hset
        · cases hset; exact hvalid
        · cases hset
          intro p hp
          simp only [List.mem_append, List.mem_singleton] at hp
          rcases hp with hp | rfl
          · exact hvalid p hp
          · assumption
      · cases hset; exact hvalid
    · split at hset <;> cases hset <;> exact hvalid

/-! ## Encoding lookup -/

theorem tdiv_two_bounds (x : Int) : x - 1 ≤ 2 * x.tdiv 2 ∧ 2 * x.tdiv 2 ≤ x + 1 := by
  rcases le_or_lt 0 x with h | h
  · rw [Int.tdiv_eq_ediv h (by decide)]; omega
  · have e : x.tdiv 2 = -((-x).tdiv 2) := by
      rw [Int.neg_tdiv]; simp
    rw [e, Int.tdiv_eq_ediv (by omega) (by decide)]; omega

theorem find_encoding.search_sound (codes : List Nat) (u : Nat) (bottom top m : Int)
    (h : find_encoding.search codes u bottom top = some m) :
    bottom ≤ m ∧ m ≤ top ∧ codes.getD m.toNat 0 = u := by
  induction bottom, top using find_encoding.search.induct codes u with
  | case1 bottom top hge mid hlt ih =>
    rw [find_encoding.search] at h
    simp only [hge, if_true] at h
    rw [if_pos hlt] at h
    have hb := tdiv_two_bounds (top + bottom)
    have := ih h
    refine ⟨this.1, ?_, this.2.2⟩
    have : m ≤ mid - 1 := this.2.1
    simp only [mid] at this
    omega
  | case2 bottom top hge mid hnlt hgt ih =>
    rw [find_encoding.search] at h
    simp only [hge, if_true] at h
    rw [if_neg hnlt, if_pos hgt] at h
    have hb := tdiv_two_bounds (top + bottom)
    have := ih h
    refine ⟨?_, this.2.1, this.2.2⟩
    have : mid + 1 ≤ m := this.1
    simp only [mid] at this
    omega
  | case3 bottom top hge mid hnlt hngt =>
    rw [find_encoding.search] at h
    simp only [hge, if_true] at h
    rw [if_neg hnlt, if_neg hngt] at h
    have hb := tdiv_two_bounds (top + bottom)
    have hm : mid = m := by simpa using h
    subst hm
    refine ⟨?_, ?_, ?_⟩
    · simp only [mid]; omega
    · simp only [mid]; omega
    · simp only [mid] at hnlt hngt ⊢; omega
  | case4 bottom top hlt =>
    rw [find_encoding.search] at h
    simp [hlt] at h

theorem getD_lt_of_pairwise (codes : List Nat) (hs : codes.Pairwise (· < ·)) (i j : Nat)
    (hij : i < j) (hj : j < codes.length) : codes.getD i 0 < codes.getD j 0 := by
  rw [List.getD_eq_getElem codes 0 (by omega : i < codes.length), List.getD_eq_getElem codes 0 hj]
  exact List.pairwise_iff_getElem.1 hs i j (by omega) hj hij

theorem find_encoding.search_complete (codes : List Nat) (hs : codes.Pairwise (· < ·))
    (u : Nat) (bottom top : Int) (hb : 0 ≤ bottom) (ht : top < codes.length)
    (h : find_encoding.search codes u bottom top = none) :
    ∀ k : Nat, bottom ≤ k → (k : Int) ≤ top → codes.getD k 0 ≠ u := by
  induction bottom, top using find_encoding.search.induct codes u with
  | case1 bottom top hge mid hlt ih =>
    rw [find_encoding.search] at h
    simp only [hge, if_true] at h
    rw [if_pos hlt] at h
    have hbd := tdiv_two_bounds (top + bottom)
    have hmid : mid = (top + bottom).tdiv 2 := rfl
    intro k hk1 hk2
    by_cases hkm : (k : Int) ≤ mid - 1
    · exact ih hb (by omega) h k hk1 hkm
    · have hmk : mid.toNat ≤ k := by omega
      rcases Nat.eq_or_lt_of_le hmk with he | hl
      · rw [← he]; omega
      · have := getD_lt_of_pairwise codes hs mid.toNat k hl (by omega)
        omega
  | case2 bottom top hge mid hnlt hgt ih =>
    rw [find_encoding.search] at h
    simp only [hge, if_true] at h
    rw [if_neg hnlt, if_pos hgt] at h
    have hbd := tdiv_two_bounds (top + bottom)
    have hmid : mid = (top + bottom).tdiv 2 := rfl
    intro k hk1 hk2
    by_cases hkm : mid + 1 ≤ (k : Int)
    · exact ih (by omega) ht h k hkm hk2
    · have hmk : k ≤ mid.toNat := by omega
      rcases Nat.eq_or_lt_of_le hmk with he | hl
      · rw [he]; omega
      · have := getD_lt_of_pairwise codes hs k mid.toNat hl (by omega)
        omega
  | case3 bottom top hge mid hnlt hngt =>
    rw [find_encoding.search] at h
    simp only [hge, if_true] at h
    rw [if_neg hnlt, if_neg hngt] at h
    simp at h
  | case4 bottom top hlt =>
    intro k hk1 hk2
    omega

theorem toInt16_of_lt (n : Nat) (h : n < 32768) : toInt16 n = n := by
  unfold toInt16; omega

theorem getElem?_of_getD_eq (codes : List Nat) (k u : Nat) (hk : k < codes.length)
    (h : codes.getD k 0 = u) : codes[k]? = some u := by
  rw [List.getD_eq_getElem codes 0 hk] at h
  rw [List.getElem?_eq_getElem hk, h]

theorem getD_of_getElem? (codes : List Nat) (k u : Nat) (h : codes[k]? = some u) :
    k < codes.length ∧ codes.getD k 0 = u := by
  obtain ⟨hk, he⟩ := List.getElem?_eq_some.1 h
  exact ⟨hk, by rw [List.getD_eq_getElem codes 0 hk, he]⟩

theorem index_unique_of_pairwise (codes : List Nat) (hs : codes.Pairwise (· < ·)) (a b u : Nat)
    (ha : codes[a]? = some u) (hb : codes[b]? = some u) : a = b := by
  obtain ⟨hal, hau⟩ := getD_of_getElem? codes a u ha
  obtain ⟨hbl, hbu⟩ := getD_of_getElem? codes b u hb
  rcases Nat.lt_trichotomy a b with h | h | h
  · have := getD_lt_of_pairwise codes hs a b h hbl; omega
  · exact h
  · have := getD_lt_of_pairwise codes hs b a h hal; omega

theorem find_encoding.loop_false (u e0 i0 : Nat) (rest : List unicode_to_encoding) :
    ∀ i, (find_encoding.loop u e0 i0 i rest).1 = false →
      find_encoding.loop u e0 i0 i rest = (false, e0, i0) := by
  induction rest with
  | nil => intro i _; rfl
  | cons e rest ih =>
    intro i h
    unfold find_encoding.loop at h ⊢
    split
    · rename_i hc
      rw [if_pos hc] at h
      cases hsr : find_encoding.search e.unicodes u 0 (e.length - 1) with
      | none => rfl
      | some mm => rw [hsr] at h; simp at h
    · rename_i hc
      rw [if_neg hc] at h
      exact ih (i + 1) h

theorem find_encoding.loop_uncovered (u e0 i0 : Nat) (rest : List unicode_to_encoding)
    (hno : ∀ e ∈ rest, ¬(e.from_ ≤ u ∧ u ≤ e.to_)) :
    ∀ i, find_encoding.loop u e0 i0 i rest = (false, e0, i0) := by
  induction rest with
  | nil => intro i; rfl
  | cons e rest ih =>
    intro i
    unfold find_encoding.loop
    rw [if_neg (hno e (by simp))]
    exact ih (fun e1 h1 => hno e1 (by simp [h1])) (i + 1)

theorem find_encoding.loop_true_iff (u e0 i0 : Nat) (rest : List unicode_to_encoding)
    (hlen : ∀ e ∈ rest, e.unicodes.length < 32768)
    (hsorted : ∀ e ∈ rest, e.unicodes.Pairwise (· < ·)) :
    ∀ i j m, i + rest.length ≤ 256 →
      (find_encoding.loop u e0 i0 i rest = (true, j, m) ↔
        ∃ k e, rest[k]? = some e ∧ j = i + k ∧ (e.from_ ≤ u ∧ u ≤ e.to_) ∧
          (∀ k1 e1, k1 < k → rest[k1]? = some e1 → ¬(e1.from_ ≤ u ∧ u ≤ e1.to_)) ∧
          e.unicodes[m]? = some u) := by
  induction rest with
  | nil =>
    intro i j m _
    simp [find_encoding.loop]
  | cons e rest ih =>
    intro i j m hi
    simp only [List.length_cons] at hi
    have hel := hlen e (by simp)
    have hes := hsorted e (by simp)
    unfold find_encoding.loop
    by_cases hc : e.from_ ≤ u ∧ u ≤ e.to_
    · rw [if_pos hc]
      have hfirst : ∀ k e1, (e :: rest)[k]? = some e1 →
          (∀ k1 e2, k1 < k → (e :: rest)[k1]? = some e2 → ¬(e2.from_ ≤ u ∧ u ≤ e2.to_)) →
          k = 0 ∧ e1 = e := by
        intro k e1 hk hmin
        rcases Nat.eq_zero_or_pos k with h0 | hpos
        · subst h0; simp at hk; exact ⟨rfl, hk.symm⟩
        · exact absurd hc (hmin 0 e hpos (by simp))
      cases hsr : find_encoding.search e.unicodes u 0 (e.length - 1) with
      | none =>
        have hcomp := find_encoding.search_complete e.unicodes hes u 0 (e.length - 1)
          (le_refl 0) (by unfold unicode_to_encoding.length; rw [toInt16_of_lt _ hel]; omega) hsr
        constructor
        · intro h; simp at h
        · rintro ⟨k, e1, hk, _, _, hmin, hm⟩
          obtain ⟨_, rfl⟩ := hfirst k e1 hk hmin
          obtain ⟨hml, hmu⟩ := getD_of_getElem? _ _ _ hm
          exact absurd hmu (hcomp m (by omega)
            (by unfold unicode_to_encoding.length; rw [toInt16_of_lt _ hel]; omega))
      | some mm =>
        obtain ⟨hm0, hmt, hmu⟩ := find_encoding.search_sound e.unicodes u 0 (e.length - 1) mm hsr
        unfold unicode_to_encoding.length at hmt
        rw [toInt16_of_lt _ hel] at hmt
        have hmm : e.unicodes[mm.toNat]? = some u :=
          getElem?_of_getD_eq _ _ _ (by omega) hmu
        have hidx : (mm % 65536).toNat = mm.toNat := by omega
        have henc : i % 256 = i := by omega
        simp only [hidx, henc, Prod.mk.injEq, true_and]
        constructor
        · rintro ⟨rfl, rfl⟩
          exact ⟨0, e, by simp, by simp, hc, by intro k1 e1 h; omega, hmm⟩
        · rintro ⟨k, e1, hk, hj, _, hmin, hm⟩
          obtain ⟨rfl, rfl⟩ := hfirst k e1 hk hmin
          exact ⟨by omega, index_unique_of_pairwise _ hes _ _ u hmm hm⟩
    · rw [if_neg hc]
      rw [ih (fun e1 h1 => hlen e1 (by simp [h1])) (fun e1 h1 => hsorted e1 (by simp [h1]))
        (i + 1) j m (by omega)]
      constructor
      · rintro ⟨k, e1, hk, hj, hcov, hmin, hm⟩
        refine ⟨k + 1, e1, by simpa using hk, by omega, hcov, ?_, hm⟩
        intro k1 e2 hk1 he2
        rcases Nat.eq_zero_or_pos k1 with h0 | hpos
        · subst h0; simp at he2; subst he2; exact hc
        · obtain ⟨k2, rfl⟩ : ∃ k2, k1 = k2 + 1 := ⟨k1 - 1, by omega⟩
          exact hmin k2 e2 (by omega) (by simpa using he2)
      · rintro ⟨k, e1, hk, hj, hcov, hmin, hm⟩
        rcases Nat.eq_zero_or_pos k with h0 | hpos
        · subst h0; simp at hk; subst hk; exact absurd hcov hc
        · obtain ⟨k2, rfl⟩ : ∃ k2, k = k2 + 1 := ⟨k - 1, by omega⟩
          refine ⟨k2, e1, by simpa using hk, by omega, hcov, ?_, hm⟩
          intro k1 e2 hk1 he2
          exact hmin (k1 + 1) e2 (by omega) (by simpa using he2)

/-- C5: for tables that fit their C types (at most 256 tables, as the table
number is stored in a `uint8`; fewer than 32768 codes per table, as the length
is an `int16`) with strictly ascending code arrays, `find_encoding` returns
`true` with `encoding = i` and `index = m` exactly when table `i` is the first
whose inclusive range `[from, to]` contains `u` and `codes_i[m] = u` (so also
for `u = from` and `u = to`); whenever it returns `false` both outputs keep
their old contents; and it returns `false` when no range contains `u`. -/
theorem find_encoding_first_range (encodings : List unicode_to_encoding) (u e0 i0 : Nat)
    (hn : encodings.length ≤ 256)
    (hlen : ∀ e ∈ encodings, e.unicodes.length < 32768)
    (hsorted : ∀ e ∈ encodings, e.unicodes.Pairwise (· < ·)) :
    (∀ i m, find_encoding encodings u e0 i0 = (true, i, m) ↔
      ∃ e, encodings[i]? = some e ∧ (e.from_ ≤ u ∧ u ≤ e.to_) ∧
        (∀ j e1, j < i → encodings[j]? = some e1 → ¬(e1.from_ ≤ u ∧ u ≤ e1.to_)) ∧
        e.unicodes[m]? = some u) ∧
    ((find_encoding encodings u e0 i0).1 = false →
      find_encoding encodings u e0 i0 = (false, e0, i0)) ∧
    ((∀ e ∈ encodings, ¬(e.from_ ≤ u ∧ u ≤ e.to_)) →
      find_encoding encodings u e0 i0 = (false, e0, i0)) := by
  refine ⟨?_, find_encoding.loop_false u e0 i0 encodings 0, fun hno =>
    find_encoding.loop_uncovered u e0 i0 encodings hno 0⟩
  intro i m
  unfold find_encoding
  rw [find_encoding.loop_true_iff u e0 i0 encodings hlen hsorted 0 i m (by omega)]
  constructor
  · rintro ⟨k, e, hk, hj, hcov, hmin, hm⟩
    have : i = k := by omega
    subst this
    exact ⟨e, hk, hcov, hmin, hm⟩
  · rintro ⟨e, hk, hcov, hmin, hm⟩
    exact ⟨i, e, hk, by omega, hcov, hmin, hm⟩

theorem find_encoding_first_range_witness :
    find_encoding sampleEncodings 0x17f 9 9 = (true, 1, 2) ∧
    find_encoding sampleEncodings 0x100 9 9 = (true, 1, 0) ∧
    find_encoding sampleEncodings 0xff 9 9 = (false, 9, 9) ∧
    find_encoding sampleEncodings 0x180 9 9 = (false, 9, 9) :=
  ⟨((find_encoding_first_range sampleEncodings 0x17f 9 9 (by decide) (by decide)
      (by decide)).1 1 2).2
      ⟨_, rfl, by decide, by
        intro j e1 hj he1
        have h0 : j = 0 := by omega
        subst h0
        cases he1
        decide, rfl⟩,
   ((find_encoding_first_range sampleEncodings 0x100 9 9 (by decide) (by decide)
      (by decide)).1 1 0).2
      ⟨_, rfl, by decide, by
        intro j e1 hj he1
        have h0 : j = 0 := by omega
        subst h0
        cases he1
        decide, rfl⟩,
   (find_encoding_first_range sampleEncodings 0xff 9 9 (by decide) (by decide)
      (by decide)).2.2 (by decide),
   (find_encoding_first_range sampleEncodings 0x180 9 9 (by decide) (by decide)
      (by decide)).2.2 (by decide)⟩

/-! ## Choice of the encoding in `DrawChar` -/

/-- C6: `DrawChar` chooses the encoding by strict priority. (1) When the MacRoman
conversion succeeds with a non-zero byte: `macroman_encoding` with that byte.
Otherwise, with `(found, enc, index)` the answer of `find_encoding`: (2) when
`found`, `tt_encoding0 + enc` for a TrueType font file and `t1_encoding0 + enc`
for any other, with output byte `index` (stored in a `char`), whether or not the
font is embeddable; (3) else, when the font is embeddable,
`user_defined_encoding_start + enc` with the `enc` of
`MakeUserDefinedEncoding`; (4) else, when `find_in_cid_tables` succeeds, the
encoding it stored; (5) else no encoding is chosen, the function returns and no
PDFlib call has been made. -/
theorem DrawChar_encoding_priority (encodings : List unicode_to_encoding)
    (cid_tables : List cid_table) (env : CharEnv) (u : Nat) :
    (env.convOK = true ∧ env.convByte ≠ 0 →
      ∃ c, (DrawChar.resolve encodings cid_tables env u).chosen = some c ∧
        c.encoding = macroman_encoding ∧ c.dest0 = env.convByte) ∧
    (¬(env.convOK = true ∧ env.convByte ≠ 0) →
      (find_encoding encodings u 0 0).1 = true →
      ∃ c, (DrawChar.resolve encodings cid_tables env u).chosen = some c ∧
        c.encoding = (if env.trueType then tt_encoding0 + (find_encoding encodings u 0 0).2.1
          else t1_encoding0 + (find_encoding encodings u 0 0).2.1) ∧
        c.dest0 = (find_encoding encodings u 0 0).2.2 % 256 ∧
        ((find_encoding encodings u 0 0).2.2 < 256 →
          c.dest0 = (find_encoding encodings u 0 0).2.2)) ∧
    (¬(env.convOK = true ∧ env.convByte ≠ 0) →
      (find_encoding encodings u 0 0).1 = false → env.embeddable = true →
      ∃ c, (DrawChar.resolve encodings cid_tables env u).chosen = some c ∧
        c.encoding = user_defined_encoding_start + env.userEnc) ∧
    (¬(env.convOK = true ∧ env.convByte ≠ 0) →
      (find_encoding encodings u 0 0).1 = false → env.embeddable = false →
      (find_in_cid_tables cid_tables u 0 (find_encoding encodings u 0 0).2.2 env.order).1
        = true →
      ∃ c, (DrawChar.resolve encodings cid_tables env u).chosen = some c ∧
        c.encoding =
          (find_in_cid_tables cid_tables u 0 (find_encoding encodings u 0 0).2.2
            env.order).2.1) ∧
    (¬(env.convOK = true ∧ env.convByte ≠ 0) →
      (find_encoding encodings u 0 0).1 = false → env.embeddable = false →
      (find_in_cid_tables cid_tables u 0 (find_encoding encodings u 0 0).2.2 env.order).1
        = false →
      (DrawChar.resolve encodings cid_tables env u).chosen = none ∧
        (DrawChar.resolve encodings cid_tables env u).pdf = []) := by
  have hcond : ∀ (hno : ¬(env.convOK = true ∧ env.convByte ≠ 0)),
      (!env.convOK || decide (env.convByte = 0)) = true := by
    intro hno
    cases hc : env.convOK
    · simp
    · simp only [hc, true_and, ne_eq, not_not] at hno
      simp [hno]
  refine ⟨?_, ?_, ?_, ?_, ?_⟩
  · rintro ⟨hok, hb⟩
    refine ⟨{ encoding := macroman_encoding, dest0 := env.convByte, dest1 := 0,
              destLen := env.convLen, embed := true }, ?_, rfl, rfl⟩
    simp [DrawChar.resolve, hok, hb]
  · intro hno hfe
    have h := hcond hno
    refine ⟨{ encoding := if env.trueType then (find_encoding encodings u 0 0).2.1 + tt_encoding0
                else (find_encoding encodings u 0 0).2.1 + t1_encoding0,
              dest0 := (find_encoding encodings u 0 0).2.2 % 256, dest1 := 0,
              destLen := env.convLen, embed := env.embeddable }, ?_, ?_, rfl, ?_⟩
    · simp only [DrawChar.resolve, h, hfe, if_true]
    · simp only [Nat.add_comm]
    · intro hlt; exact Nat.mod_eq_of_lt hlt
  · intro hno hfe hemb
    have h := hcond hno
    refine ⟨{ encoding := user_defined_encoding_start + env.userEnc,
              dest0 := env.userIndex % 256, dest1 := 0,
              destLen := env.convLen, embed := env.embeddable }, ?_, rfl⟩
    simp [DrawChar.resolve, h, hfe, hemb]
  · intro hno hfe hemb hcid
    have h := hcond hno
    refine ⟨{ encoding := (find_in_cid_tables cid_tables u 0
                (find_encoding encodings u 0 0).2.2 env.order).2.1,
              dest0 := u / 256 % 256, dest1 := u % 256, destLen := 2, embed := false },
      ?_, rfl⟩
    simp [DrawChar.resolve, h, hfe, hemb, hcid]
  · intro hno hfe hemb hcid
    have h := hcond hno
    simp [DrawChar.resolve, h, hfe, hemb, hcid]

theorem DrawChar_encoding_priority_witness :
    ∃ c, (DrawChar.resolve sampleEncodings [] sampleCharEnv 0x41).chosen = some c ∧
      c.encoding = macroman_encoding ∧ c.dest0 = sampleCharEnv.convByte :=
  (DrawChar_encoding_priority sampleEncodings [] sampleCharEnv 0x41).1 ⟨rfl, by decide⟩

/-! ## Mask creation -/

theorem getD_set_byte (l : List Nat) (o i v : Nat) :
    (l.set o v).getD i 0 = if i = o ∧ o < l.length then v else l.getD i 0 := by
  simp only [List.getD_eq_getElem?_getD, List.getElem?_set]
  by_cases h1 : o = i
  · subst h1
    by_cases h2 : o < l.length
    · simp [h2]
    · simp [h2, List.getElem?_eq_none (Nat.le_of_not_lt h2)]
  · have h3 : ¬(i = o ∧ o < l.length) := fun h => h1 h.1.symm
    simp [h1, h3]

theorem testBit_or_shift (x s b : Nat) (hb : b < 8) :
    ((x ||| (1 <<< s)) % 256).testBit b = (x.testBit b || decide (b = s)) := by
  rw [show (256 : Nat) = 2 ^ 8 by norm_num, Nat.testBit_mod_two_pow, Nat.testBit_or,
    Nat.one_shiftLeft, Nat.testBit_two_pow]
  simp [hb, eq_comm]

theorem CreateMask.shift_next (j : Nat) : (7 - j % 8 + 7) &&& 7 = 7 - (j + 1) % 8 := by
  have h := Nat.and_pow_two_sub_one_eq_mod (7 - j % 8 + 7) 3
  norm_num at h
  rw [h]
  omega

theorem CreateMask.out_next (r j : Nat) :
    (if 7 - j % 8 = 0 then r + j / 8 + 1 else r + j / 8) = r + (j + 1) / 8 := by
  split <;> omega

theorem CreateMask.mask_pixels_spec (pf : color_space) (bpp : Int) (data : Buffer) (p : Int)
    (r : Nat) :
    ∀ (n j : Nat) (st : List Nat × Bool),
      (∀ j1, j1 < j + n → r + j1 / 8 < st.1.length) →
      (CreateMask.pixels pf bpp data n (p + j * bpp) (r + j / 8) (7 - j % 8) st).1.length
          = st.1.length ∧
      (∀ i b, b < 8 →
        (((CreateMask.pixels pf bpp data n (p + j * bpp) (r + j / 8) (7 - j % 8) st).1.getD i
            0).testBit b = true ↔
          (st.1.getD i 0).testBit b = true ∨
          ∃ j1, j ≤ j1 ∧ j1 < j + n ∧ i = r + j1 / 8 ∧ b = 7 - j1 % 8 ∧
            CreateMask.isTransparent pf data (p + j1 * bpp) = true)) ∧
      ((CreateMask.pixels pf bpp data n (p + j * bpp) (r + j / 8) (7 - j % 8) st).2 = true ↔
        st.2 = true ∨
        ∃ j1, j ≤ j1 ∧ j1 < j + n ∧ CreateMask.isTransparent pf data (p + j1 * bpp) = true) := by
  intro n
  induction n with
  | zero =>
    intro j st _
    refine ⟨rfl, ?_, ?_⟩
    · intro i b _
      simp only [CreateMask.pixels]
      constructor
      · intro h; exact Or.inl h
      · rintro (h | ⟨j1, h1, h2, _⟩)
        · exact h
        · omega
    · simp only [CreateMask.pixels]
      constructor
      · intro h; exact Or.inl h
      · rintro (h | ⟨j1, h1, h2, _⟩)
        · exact h
        · omega
  | succ n ih =>
    intro j st hb
    simp only [CreateMask.pixels]
    rw [CreateMask.shift_next, CreateMask.out_next,
      show p + (j : Int) * bpp + bpp = p + ((j + 1 : Nat) : Int) * bpp by push_cast; ring]
    generalize hst1 : (if CreateMask.isTransparent pf data (p + (j : Int) * bpp) = true then
        (st.1.set (r + j / 8) ((st.1.getD (r + j / 8) 0 ||| 1 <<< (7 - j % 8)) % 256), true)
      else st) = st1
    have hlen1 : st1.1.length = st.1.length := by
      rw [← hst1]; split <;> simp
    have hbit1 : ∀ i b, b < 8 → ((st1.1.getD i 0).testBit b = true ↔
        (st.1.getD i 0).testBit b = true ∨
          (i = r + j / 8 ∧ b = 7 - j % 8 ∧
            CreateMask.isTransparent pf data (p + (j : Int) * bpp) = true)) := by
      intro i b hb8
      rw [← hst1]
      by_cases ha : CreateMask.isTransparent pf data (p + (j : Int) * bpp) = true
      · rw [if_pos ha]
        simp only [getD_set_byte]
        have hin : r + j / 8 < st.1.length := hb j (by omega)
        by_cases hi : i = r + j / 8
        · subst hi
          rw [if_pos ⟨rfl, hin⟩, testBit_or_shift _ _ _ hb8]
          simp [ha]
        · rw [if_neg (fun h => hi h.1)]
          simp [hi]
      · rw [if_neg ha]
        simp [ha]
    have hal1 : st1.2 = true ↔ st.2 = true ∨
        CreateMask.isTransparent pf data (p + (j : Int) * bpp) = true := by
      rw [← hst1]
      by_cases ha : CreateMask.isTransparent pf data (p + (j : Int) * bpp) = true
      · simp [ha]
      · simp [ha]
    obtain ⟨h1, h2, h3⟩ := ih (j + 1) st1 (by
      intro j1 hj1; rw [hlen1]; exact hb j1 (by omega))
    refine ⟨by rw [h1, hlen1], ?_, ?_⟩
    · intro i b hb8
      rw [h2 i b hb8, hbit1 i b hb8]
      constructor
      · rintro ((h | ⟨hi, hbb, ha⟩) | ⟨j1, hj1, hj2, hrest⟩)
        · exact Or.inl h
        · exact Or.inr ⟨j, le_refl _, by omega, hi, hbb, ha⟩
        · exact Or.inr ⟨j1, by omega, by omega, hrest⟩
      · rintro (h | ⟨j1, hj1, hj2, hi, hbb, ha⟩)
        · exact Or.inl (Or.inl h)
        · rcases Nat.eq_or_lt_of_le hj1 with he | hl
          · subst he; exact Or.inl (Or.inr ⟨hi, hbb, ha⟩)
          · exact Or.inr ⟨j1, hl, by omega, hi, hbb, ha⟩
    · rw [h3, hal1]
      constructor
      · rintro ((h | ha) | ⟨j1, hj1, hj2, hrest⟩)
        · exact Or.inl h
        · exact Or.inr ⟨j, le_refl _, by omega, ha⟩
        · exact Or.inr ⟨j1, by omega, by omega, hrest⟩
      · rintro (h | ⟨j1, hj1, hj2, ha⟩)
        · exact Or.inl (Or.inl h)
        · rcases Nat.eq_or_lt_of_le hj1 with he | hl
          · subst he; exact Or.inl (Or.inr ha)
          · exact Or.inr ⟨j1, hl, by omega, ha⟩

theorem CreateMask.mask_row_spec (pf : color_space) (bpp : Int) (data : Buffer) (p : Int)
    (r w : Nat) (st : List Nat × Bool) (hb : ∀ j1, j1 < w → r + j1 / 8 < st.1.length) :
    (CreateMask.pixels pf bpp data w p r 7 st).1.length = st.1.length ∧
    (∀ i b, b < 8 →
      (((CreateMask.pixels pf bpp data w p r 7 st).1.getD i 0).testBit b = true ↔
        (st.1.getD i 0).testBit b = true ∨
        ∃ j1, j1 < w ∧ i = r + j1 / 8 ∧ b = 7 - j1 % 8 ∧
          CreateMask.isTransparent pf data (p + j1 * bpp) = true)) ∧
    ((CreateMask.pixels pf bpp data w p r 7 st).2 = true ↔
      st.2 = true ∨ ∃ j1, j1 < w ∧ CreateMask.isTransparent pf data (p + j1 * bpp) = true) := by
  have h := CreateMask.mask_pixels_spec pf bpp data p r w 0 st (by simpa using hb)
  simp only [Nat.cast_zero, zero_mul, add_zero, Nat.zero_div, Nat.zero_mod, Nat.sub_zero,
    Nat.zero_le, true_and, Nat.zero_add] at h
  exact h

theorem CreateMask.mask_rows_spec (pf : color_space) (bpp bpr : Int) (data : Buffer) (w mw : Nat)
    (q : Int) (hmw : ∀ x, x < w → x / 8 < mw) :
    ∀ (n y : Nat) (st : List Nat × Bool), (y + n) * mw ≤ st.1.length →
      (CreateMask.rows pf bpp bpr data w mw n (q + y * bpr) (y * mw) st).1.length
          = st.1.length ∧
      (∀ i b, b < 8 →
        (((CreateMask.rows pf bpp bpr data w mw n (q + y * bpr) (y * mw) st).1.getD i
            0).testBit b = true ↔
          (st.1.getD i 0).testBit b = true ∨
          ∃ y1 x1, y ≤ y1 ∧ y1 < y + n ∧ x1 < w ∧ i = y1 * mw + x1 / 8 ∧ b = 7 - x1 % 8 ∧
            CreateMask.isTransparent pf data (q + y1 * bpr + x1 * bpp) = true)) ∧
      ((CreateMask.rows pf bpp bpr data w mw n (q + y * bpr) (y * mw) st).2 = true ↔
        st.2 = true ∨
        ∃ y1 x1, y ≤ y1 ∧ y1 < y + n ∧ x1 < w ∧
          CreateMask.isTransparent pf data (q + y1 * bpr + x1 * bpp) = true) := by
  intro n
  induction n with
  | zero =>
    intro y st _
    refine ⟨rfl, ?_, ?_⟩
    · intro i b _
      simp only [CreateMask.rows]
      constructor
      · intro h; exact Or.inl h
      · rintro (h | ⟨y1, x1, h1, h2, _⟩)
        · exact h
        · omega
    · simp only [CreateMask.rows]
      constructor
      · intro h; exact Or.inl h
      · rintro (h | ⟨y1, x1, h1, h2, _⟩)
        · exact h
        · omega
  | succ n ih =>
    intro y st hlen
    simp only [CreateMask.rows]
    have hy1 : (y + 1) * mw = y * mw + mw := by ring
    have hle : (y + 1) * mw ≤ (y + (n + 1)) * mw := Nat.mul_le_mul_right mw (by omega)
    obtain ⟨p1, p2, p3⟩ := CreateMask.mask_row_spec pf bpp data (q + y * bpr) (y * mw) w st (by
      intro j1 hj1
      have := hmw j1 hj1
      omega)
    rw [show q + (y : Int) * bpr + bpr = q + ((y + 1 : Nat) : Int) * bpr by push_cast; ring,
      ← hy1]
    obtain ⟨h1, h2, h3⟩ := ih (y + 1)
      (CreateMask.pixels pf bpp data w (q + y * bpr) (y * mw) 7 st) (by
        rw [p1, show y + 1 + n = y + (n + 1) by omega]; exact hlen)
    refine ⟨by rw [h1, p1], ?_, ?_⟩
    · intro i b hb8
      rw [h2 i b hb8, p2 i b hb8]
      constructor
      · rintro ((h | ⟨x1, hx, hi, hbb, ha⟩) | ⟨y1, x1, hy, hy2, hrest⟩)
        · exact Or.inl h
        · exact Or.inr ⟨y, x1, le_refl _, by omega, hx, hi, hbb, ha⟩
        · exact Or.inr ⟨y1, x1, by omega, by omega, hrest⟩
      · rintro (h | ⟨y1, x1, hy, hy2, hx, hi, hbb, ha⟩)
        · exact Or.inl (Or.inl h)
        · rcases Nat.eq_or_lt_of_le hy with he | hl
          · subst he; exact Or.inl (Or.inr ⟨x1, hx, hi, hbb, ha⟩)
          · exact Or.inr ⟨y1, x1, hl, by omega, hx, hi, hbb, ha⟩
    · rw [h3, p3]
      constructor
      · rintro ((h | ⟨x1, hx, ha⟩) | ⟨y1, x1, hy, hy2, hrest⟩)
        · exact Or.inl h
        · exact Or.inr ⟨y, x1, le_refl _, by omega, hx, ha⟩
        · exact Or.inr ⟨y1, x1, by omega, by omega, hrest⟩
      · rintro (h | ⟨y1, x1, hy, hy2, hx, ha⟩)
        · exact Or.inl (Or.inl h)
        · rcases Nat.eq_or_lt_of_le hy with he | hl
          · subst he; exact Or.inl (Or.inr ⟨x1, hx, ha⟩)
          · exact Or.inr ⟨y1, x1, hl, by omega, hx, ha⟩

theorem row_col_unique (mw a b c d : Nat) (hc : c < mw) (hd : d < mw)
    (h : a * mw + c = b * mw + d) : a = b ∧ c = d := by
  rcases Nat.lt_trichotomy a b with hab | hab | hab
  · have h1 : (a + 1) * mw ≤ b * mw := Nat.mul_le_mul_right mw hab
    have h2 : (a + 1) * mw = a * mw + mw := by ring
    omega
  · subst hab; exact ⟨rfl, by omega⟩
  · have h1 : (b + 1) * mw ≤ a * mw := Nat.mul_le_mul_right mw hab
    have h2 : (b + 1) * mw = b * mw + mw := by ring
    omega

theorem CreateMask.rows_zero_spec (pf : color_space) (bpp bpr : Int) (data : Buffer)
    (w h L : Nat) (q : Int) (hL : h * ((w + 7) / 8) ≤ L) :
    (CreateMask.rows pf bpp bpr data w ((w + 7) / 8) h q 0 (List.replicate L 0, false)).1.length
        = L ∧
    (∀ i b, b < 8 →
      (maskBit (CreateMask.rows pf bpp bpr data w ((w + 7) / 8) h q 0
          (List.replicate L 0, false)).1 i b = true ↔
        ∃ y1 x1, y1 < h ∧ x1 < w ∧ i = y1 * ((w + 7) / 8) + x1 / 8 ∧ b = 7 - x1 % 8 ∧
          CreateMask.isTransparent pf data (q + y1 * bpr + x1 * bpp) = true)) ∧
    ((CreateMask.rows pf bpp bpr data w ((w + 7) / 8) h q 0 (List.replicate L 0, false)).2
        = true ↔
      ∃ y1 x1, y1 < h ∧ x1 < w ∧
        CreateMask.isTransparent pf data (q + y1 * bpr + x1 * bpp) = true) := by
  have hz : ∀ i b, ((List.replicate L 0).getD i 0).testBit b = false := by
    intro i b
    rw [List.getD_eq_getElem?_getD, List.getElem?_replicate]
    split <;> simp
  have h0 := CreateMask.mask_rows_spec pf bpp bpr data w ((w + 7) / 8) q
    (fun x hx => by omega) h 0 (List.replicate L 0, false) (by simpa using hL)
  simp only [Nat.cast_zero, zero_mul, add_zero, Nat.zero_le, true_and, Nat.zero_add,
    List.length_replicate, hz, Bool.false_eq_true, false_or] at h0
  exact h0

theorem CreateMask.maskWidth_toNat (width : Int) :
    ((width + 7).tdiv 8).toNat = (width.toNat + 7) / 8 := by
  rcases le_or_lt 0 (width + 7) with h | h
  · rw [Int.tdiv_eq_ediv h (by decide)]; omega
  · have e : (width + 7).tdiv 8 = -((-(width + 7)).tdiv 8) := by
      rw [Int.neg_tdiv]; simp
    rw [e, Int.tdiv_eq_ediv (by omega) (by decide)]; omega

theorem CreateMask.alloc_size (width height : Int) :
    height.toNat * ((width.toNat + 7) / 8) ≤ ((width + 7).tdiv 8 * height).toNat ∧
    (0 < width → 0 < height →
      ((width + 7).tdiv 8 * height).toNat = (width.toNat + 7) / 8 * height.toNat) := by
  have hmw := CreateMask.maskWidth_toNat width
  have key : 0 < width → 0 < height →
      ((width + 7).tdiv 8 * height).toNat = (width.toNat + 7) / 8 * height.toNat := by
    intro hw hh
    have h1 : (width + 7).tdiv 8 = (((width.toNat + 7) / 8 : Nat) : Int) := by
      rw [← hmw, Int.toNat_of_nonneg]
      rw [Int.tdiv_eq_ediv (by omega) (by decide)]; omega
    have h2 : height = ((height.toNat : Nat) : Int) := by omega
    rw [h1]
    conv_lhs => rw [h2]
    rw [← Nat.cast_mul, Int.toNat_natCast]
  refine ⟨?_, key⟩
  by_cases hh : 0 < height
  · by_cases hw : 0 < width
    · rw [key hw hh, Nat.mul_comm]
    · have : width.toNat = 0 := by omega
      simp [this]
  · have : height.toNat = 0 := by omega
    simp [this]

theorem CreateMask.isTransparent_bpp (pf : color_space) (data : Buffer) (p : Int)
    (h : CreateMask.isTransparent pf data p = true) : ¬(BytesPerPixel pf < 0) := by
  cases pf <;> simp_all [CreateMask.isTransparent, BytesPerPixel]

theorem pixelOffset_eq (src : BRect) (bpr bpp : Int) (x y : Nat) :
    bpr * src.top + bpp * src.left + y * bpr + x * bpp = pixelOffset src bpr bpp x y := by
  unfold pixelOffset; ring

theorem CreateMask_unfold (src : BRect) (bpr : Int) (pf : color_space) (data : Buffer) :
    CreateMask src bpr pf data =
      if BytesPerPixel pf < 0 then none
      else if !(CreateMask.rows pf (BytesPerPixel pf) bpr data src.columns
          ((src.columns + 7) / 8) src.lines (bpr * src.top + BytesPerPixel pf * src.left) 0
          (List.replicate ((src.IntegerWidth + 1 + 7).tdiv 8 *
            (src.IntegerHeight + 1)).toNat 0, false)).2 then none
      else some (CreateMask.rows pf (BytesPerPixel pf) bpr data src.columns
          ((src.columns + 7) / 8) src.lines (bpr * src.top + BytesPerPixel pf * src.left) 0
          (List.replicate ((src.IntegerWidth + 1 + 7).tdiv 8 *
            (src.IntegerHeight + 1)).toNat 0, false)).1 := by
  unfold CreateMask BRect.columns BRect.lines
  simp only [CreateMask.maskWidth_toNat]

/-- What `CreateMask` computes: the mask is returned exactly when some pixel of
the rectangle is transparent, and then it has the allocated length and its set
bits are those of the transparent pixels. -/
theorem CreateMask_run (src : BRect) (bpr : Int) (pf : color_space) (data : Buffer) :
    (CreateMask src bpr pf data = none ↔
      ∀ x y, x < src.columns → y < src.lines →
        CreateMask.isTransparent pf data (pixelOffset src bpr (BytesPerPixel pf) x y) = false) ∧
    (∀ mask, CreateMask src bpr pf data = some mask →
      mask.length = (src.columns + 7) / 8 * src.lines ∧
      ∀ i b, b < 8 → (maskBit mask i b = true ↔
        ∃ y1 x1, y1 < src.lines ∧ x1 < src.columns ∧
          i = y1 * ((src.columns + 7) / 8) + x1 / 8 ∧ b = 7 - x1 % 8 ∧
          CreateMask.isTransparent pf data
            (pixelOffset src bpr (BytesPerPixel pf) x1 y1) = true)) := by
  obtain ⟨hsize, hexact⟩ := CreateMask.alloc_size (src.IntegerWidth + 1) (src.IntegerHeight + 1)
  obtain ⟨r1, r2, r3⟩ := CreateMask.rows_zero_spec pf (BytesPerPixel pf) bpr data src.columns
    src.lines (((src.IntegerWidth + 1 + 7).tdiv 8 * (src.IntegerHeight + 1)).toNat)
    (bpr * src.top + BytesPerPixel pf * src.left) hsize
  simp only [pixelOffset_eq] at r2 r3
  rw [CreateMask_unfold]
  generalize CreateMask.rows pf (BytesPerPixel pf) bpr data src.columns
    ((src.columns + 7) / 8) src.lines (bpr * src.top + BytesPerPixel pf * src.left) 0
    (List.replicate ((src.IntegerWidth + 1 + 7).tdiv 8 *
      (src.IntegerHeight + 1)).toNat 0, false) = res at r1 r2 r3
  by_cases hbpp : BytesPerPixel pf < 0
  · simp only [hbpp, if_true, true_iff]
    refine ⟨?_, fun mask h => by simp at h⟩
    intro x y _ _
    by_contra hc
    exact CreateMask.isTransparent_bpp pf data _ (by simpa using hc) hbpp
  · simp only [hbpp, if_false]
    by_cases hal : res.2 = true
    · obtain ⟨y1, x1, hy1, hx1, hp⟩ := r3.1 hal
      have hw : 0 < src.IntegerWidth + 1 := by unfold BRect.columns at hx1; omega
      have hh : 0 < src.IntegerHeight + 1 := by unfold BRect.lines at hy1; omega
      simp only [hal, Bool.not_true, Bool.false_eq_true, if_false]
      refine ⟨?_, ?_⟩
      · constructor
        · intro h; simp at h
        · intro h
          have := h x1 y1 hx1 hy1
          rw [hp] at this
          simp at this
      · intro mask hm
        simp only [Option.some.injEq] at hm
        subst hm
        exact ⟨by rw [r1, hexact hw hh]; rfl, r2⟩
    · have hal2 : res.2 = false := by simpa using hal
      simp only [hal2, Bool.not_false, if_true, true_iff]
      refine ⟨?_, fun mask h => by simp at h⟩
      intro x y hx hy
      by_contra hc
      exact hal (r3.2 ⟨y, x, hy, hx, by simpa using hc⟩)

theorem CreateMask.bit_eq (src : BRect) (bpr : Int) (pf : color_space) (data : Buffer)
    (mask : List Nat) (hret : CreateMask src bpr pf data = some mask) (x y : Nat)
    (hx : x < src.columns) (hy : y < src.lines) :
    maskBit mask (y * ((src.columns + 7) / 8) + x / 8) (7 - x % 8)
      = CreateMask.isTransparent pf data (pixelOffset src bpr (BytesPerPixel pf) x y) := by
  have hbits := ((CreateMask_run src bpr pf data).2 mask hret).2
    (y * ((src.columns + 7) / 8) + x / 8) (7 - x % 8) (by omega)
  rw [Bool.eq_iff_iff, hbits]
  constructor
  · rintro ⟨y1, x1, hy1, hx1, hi, hb, hp⟩
    obtain ⟨hyy, hxx⟩ := row_col_unique ((src.columns + 7) / 8) y y1 (x / 8) (x1 / 8)
      (by omega) (by omega) hi
    have : x1 = x := by omega
    subst this; subst hyy
    exact hp
  · intro hp
    exact ⟨y, x, hy, hx, rfl, rfl, hp⟩

/-- C8: `CreateMask` returns null exactly when no pixel of the source rectangle
satisfies the transparency predicate of the format, which includes every
format without a pixel size; so a returned mask always has a bit set. -/
theorem CreateMask_null_iff (src : BRect) (bpr : Int) (pf : color_space) (data : Buffer) :
    (CreateMask src bpr pf data = none ↔
      ∀ x y, x < src.columns → y < src.lines →
        CreateMask.isTransparent pf data (pixelOffset src bpr (BytesPerPixel pf) x y) = false) ∧
    (BytesPerPixel pf < 0 → CreateMask src bpr pf data = none) ∧
    (∀ mask, CreateMask src bpr pf data = some mask →
      ∃ i b, i < mask.length ∧ b < 8 ∧ maskBit mask i b = true) := by
  refine ⟨(CreateMask_run src bpr pf data).1, ?_, ?_⟩
  · intro hb
    simp [CreateMask, hb]
  · intro mask hret
    by_cases hex : ∃ x y, x < src.columns ∧ y < src.lines ∧
        CreateMask.isTransparent pf data (pixelOffset src bpr (BytesPerPixel pf) x y) = true
    swap
    · have hnone := (CreateMask_run src bpr pf data).1.2 (by
        intro x y hx hy
        by_contra hc
        exact hex ⟨x, y, hx, hy, by simpa using hc⟩)
      rw [hnone] at hret
      simp at hret
    · obtain ⟨x, y, hx, hy, hp⟩ := hex
      have hbit := CreateMask.bit_eq src bpr pf data mask hret x y hx hy
      rw [hp] at hbit
      have hlen := ((CreateMask_run src bpr pf data).2 mask hret).1
      refine ⟨y * ((src.columns + 7) / 8) + x / 8, 7 - x % 8, ?_, by omega, hbit⟩
      rw [hlen]
      have h1 : (y + 1) * ((src.columns + 7) / 8) ≤ src.lines * ((src.columns + 7) / 8) :=
        Nat.mul_le_mul_right _ hy
      have h2 : (y + 1) * ((src.columns + 7) / 8)
          = y * ((src.columns + 7) / 8) + (src.columns + 7) / 8 := by ring
      have h3 : x / 8 < (src.columns + 7) / 8 := by omega
      rw [Nat.mul_comm ((src.columns + 7) / 8) src.lines]
      omega

theorem CreateMask_null_iff_witness :
    CreateMask sampleRect2 6 color_space.B_RGB24 sampleRGB24 = none :=
  (CreateMask_null_iff sampleRect2 6 color_space.B_RGB24 sampleRGB24).1.2
    (fun _ _ _ _ => rfl)

/-! ## Image and mask registration -/

/-- The mask `GetImages` derives before it converts the bitmap. -/
theorem GetImages_calls (supportsSoftMask valid : Bool) (palette : Nat → rgb_color)
    (maskAns imageAns image0 : Int) (src : BRect) (bpr : Int) (pf : color_space)
    (data : Buffer) (m : Option (List Nat))
    (hm : m = if HasAlphaChannel pf then
        if NeedsBPC1Mask pf || !supportsSoftMask then CreateMask src bpr pf data
        else CreateSoftMask src bpr pf data
      else none) :
    ((∃ mask len w h bpc, CacheCall.GetMask mask len w h bpc ∈
        (GetImages supportsSoftMask valid palette maskAns imageAns image0 src bpr pf
          data).calls) ↔ m ≠ none) ∧
    (m = none →
      (GetImages supportsSoftMask valid palette maskAns imageAns image0 src bpr pf
        data).maskId = -1) := by
  subst hm
  unfold GetImages
  cases ha : HasAlphaChannel pf <;> cases hn : (NeedsBPC1Mask pf || !supportsSoftMask) <;>
    cases hc : CreateMask src bpr pf data <;>
    cases hb : ConvertBitmap valid palette src bpr pf data <;>
    simp [ha, hn, hc, hb, CreateSoftMask]

/-- C9: `GetImages` hands a mask to the image cache exactly when the format has
an alpha channel, needs a 1-bit mask or soft masks are unsupported, and some
pixel of the source rectangle is transparent; in every other case `*maskId` is
`-1`, in particular for every format without alpha channel and, when soft masks
are supported, for the four 32-bit formats. -/
theorem GetImages_mask_iff (supportsSoftMask valid : Bool) (palette : Nat → rgb_color)
    (maskAns imageAns image0 : Int) (src : BRect) (bpr : Int) (pf : color_space)
    (data : Buffer) :
    ((∃ mask len w h bpc, CacheCall.GetMask mask len w h bpc ∈
        (GetImages supportsSoftMask valid palette maskAns imageAns image0 src bpr pf
          data).calls) ↔
      (HasAlphaChannel pf = true ∧ (NeedsBPC1Mask pf = true ∨ supportsSoftMask = false) ∧
        ∃ x y, x < src.columns ∧ y < src.lines ∧
          CreateMask.isTransparent pf data
            (pixelOffset src bpr (BytesPerPixel pf) x y) = true)) ∧
    (¬(HasAlphaChannel pf = true ∧ (NeedsBPC1Mask pf = true ∨ supportsSoftMask = false) ∧
        ∃ x y, x < src.columns ∧ y < src.lines ∧
          CreateMask.isTransparent pf data
            (pixelOffset src bpr (BytesPerPixel pf) x y) = true) →
      (GetImages supportsSoftMask valid palette maskAns imageAns image0 src bpr pf
        data).maskId = -1) ∧
    (HasAlphaChannel pf = false →
      (GetImages supportsSoftMask valid palette maskAns imageAns image0 src bpr pf
        data).maskId = -1) ∧
    (supportsSoftMask = true →
      (pf = color_space.B_RGB32 ∨ pf = color_space.B_RGB32_BIG ∨ pf = color_space.B_RGBA32 ∨
        pf = color_space.B_RGBA32_BIG) →
      (GetImages supportsSoftMask valid palette maskAns imageAns image0 src bpr pf
        data).maskId = -1) := by
  obtain ⟨hcalls, hid⟩ := GetImages_calls supportsSoftMask valid palette maskAns imageAns
    image0 src bpr pf data _ rfl
  have hnone := (CreateMask_run src bpr pf data).1
  have hmask : (if HasAlphaChannel pf then
        if NeedsBPC1Mask pf || !supportsSoftMask then CreateMask src bpr pf data
        else CreateSoftMask src bpr pf data
      else none) ≠ none ↔
      (HasAlphaChannel pf = true ∧ (NeedsBPC1Mask pf = true ∨ supportsSoftMask = false) ∧
        ∃ x y, x < src.columns ∧ y < src.lines ∧
          CreateMask.isTransparent pf data
            (pixelOffset src bpr (BytesPerPixel pf) x y) = true) := by
    cases ha : HasAlphaChannel pf
    · simp
    · cases hn : NeedsBPC1Mask pf <;> cases hs : supportsSoftMask <;>
        simp [CreateSoftMask, hnone]
  refine ⟨hcalls.trans hmask, ?_, ?_, ?_⟩
  · intro hno
    exact hid (by
      by_contra hc
      exact hno (hmask.1 hc))
  · intro ha
    exact hid (by simp [ha])
  · intro hs hpf
    refine hid ?_
    rcases hpf with h | h | h | h <;> subst h <;> simp [HasAlphaChannel, NeedsBPC1Mask, hs,
      CreateSoftMask]

theorem GetImages_mask_iff_witness :
    (∃ mask len w h bpc, CacheCall.GetMask mask len w h bpc ∈
        (GetImages true true samplePalette 4 5 0 sampleRect 3 color_space.B_CMAP8
          sampleIndexed).calls) ∧
    (GetImages true true samplePalette 4 5 0 sampleRect2 6 color_space.B_RGB24
      sampleRGB24).maskId = -1 :=
  ⟨(GetImages_mask_iff true true samplePalette 4 5 0 sampleRect 3 color_space.B_CMAP8
      sampleIndexed).1.2 ⟨rfl, Or.inl rfl, 1, 0, by decide, by decide, by decide⟩,
   (GetImages_mask_iff true true samplePalette 4 5 0 sampleRect2 6 color_space.B_RGB24
      sampleRGB24).2.2.1 rfl⟩

/-! ## Conversion to RGBA -/

theorem Quad.store_length (q : Quad) (bits : List Nat) (out : Nat) :
    (q.store bits out).length = bits.length := by
  simp [Quad.store]

theorem Quad.store_getD (q : Quad) (bits : List Nat) (out i : Nat)
    (hin : out + 4 ≤ bits.length) :
    (q.store bits out).getD i 0 =
      if out ≤ i ∧ i < out + 4 then q.byte (i - out) else bits.getD i 0 := by
  unfold Quad.store
  simp only [getD_set_byte, List.length_set]
  by_cases h3 : i = out + 3
  · subst h3
    rw [if_pos ⟨rfl, by omega⟩, if_pos ⟨by omega, by omega⟩]
    simp [Quad.byte]
  · rw [if_neg (fun h => h3 h.1)]
    by_cases h2 : i = out + 2
    · subst h2
      rw [if_pos ⟨rfl, by omega⟩, if_pos ⟨by omega, by omega⟩]
      simp [Quad.byte]
    · rw [if_neg (fun h => h2 h.1)]
      by_cases h1 : i = out + 1
      · subst h1
        rw [if_pos ⟨rfl, by omega⟩, if_pos ⟨by omega, by omega⟩]
        simp [Quad.byte]
      · rw [if_neg (fun h => h1 h.1)]
        by_cases h0 : i = out
        · subst h0
          rw [if_pos ⟨rfl, by omega⟩, if_pos ⟨by omega, by omega⟩]
          simp [Quad.byte]
        · rw [if_neg (fun h => h0 h.1), if_neg (by omega)]

theorem ConvertBitmap.bitmap_pixels_spec (pf : color_space) (hpf : pf ≠ color_space.B_GRAY1)
    (bpp : Int) (palette : Nat → rgb_color) (data : Buffer) (p : Int) (o : Nat) :
    ∀ (n j : Nat) (bits : List Nat), o + 4 * (j + n) ≤ bits.length →
      (ConvertBitmap.pixels pf bpp palette data n j (p + j * bpp) (o + 4 * j) bits).length
          = bits.length ∧
      (∀ j1 k q, j ≤ j1 → j1 < j + n → k < 4 →
        ConvertBitmap.convert pf palette data (p + j1 * bpp) j1 = some q →
        (ConvertBitmap.pixels pf bpp palette data n j (p + j * bpp) (o + 4 * j) bits).getD
          (o + 4 * j1 + k) 0 = q.byte k) ∧
      (∀ i, i < o + 4 * j ∨ o + 4 * (j + n) ≤ i →
        (ConvertBitmap.pixels pf bpp palette data n j (p + j * bpp) (o + 4 * j) bits).getD i 0
          = bits.getD i 0) := by
  intro n
  induction n with
  | zero =>
    intro j bits _
    refine ⟨rfl, ?_, fun i _ => rfl⟩
    intro j1 k q h1 h2
    omega
  | succ n ih =>
    intro j bits hlen
    simp only [ConvertBitmap.pixels, hpf, false_and, if_false]
    rw [show p + (j : Int) * bpp + bpp = p + ((j + 1 : Nat) : Int) * bpp by push_cast; ring,
      show o + 4 * j + 4 = o + 4 * (j + 1) by ring]
    generalize hb1 : (match ConvertBitmap.convert pf palette data (p + (j : Int) * bpp) j with
      | some q => q.store bits (o + 4 * j)
      | none => bits) = bits1
    have hlen1 : bits1.length = bits.length := by
      rw [← hb1]; split
      · exact Quad.store_length _ _ _
      · rfl
    have hframe1 : ∀ i, i < o + 4 * j ∨ o + 4 * (j + 1) ≤ i →
        bits1.getD i 0 = bits.getD i 0 := by
      intro i hi
      rw [← hb1]; split
      · rw [Quad.store_getD _ _ _ _ (by omega), if_neg (by omega)]
      · rfl
    have hnew1 : ∀ k q, k < 4 →
        ConvertBitmap.convert pf palette data (p + (j : Int) * bpp) j = some q →
        bits1.getD (o + 4 * j + k) 0 = q.byte k := by
      intro k q hk hq
      rw [← hb1, hq]
      simp only
      rw [Quad.store_getD _ _ _ _ (by omega), if_pos (by omega)]
      congr 1
      omega
    obtain ⟨h1, h2, h3⟩ := ih (j + 1) bits1 (by rw [hlen1]; omega)
    refine ⟨by rw [h1, hlen1], ?_, ?_⟩
    · intro j1 k q hj1 hj2 hk hq
      rcases Nat.eq_or_lt_of_le hj1 with he | hl
      · subst he
        rw [h3 _ (Or.inl (by omega))]
        exact hnew1 k q hk hq
      · exact h2 j1 k q (by omega) (by omega) hk hq
    · intro i hi
      rw [h3 i (by omega), hframe1 i (by omega)]

theorem ConvertBitmap.bitmap_row_spec (pf : color_space) (hpf : pf ≠ color_space.B_GRAY1)
    (bpp : Int) (palette : Nat → rgb_color) (data : Buffer) (p : Int) (o cols : Nat)
    (bits : List Nat) (hlen : o + 4 * cols ≤ bits.length) :
    (ConvertBitmap.pixels pf bpp palette data cols 0 p o bits).length = bits.length ∧
    (∀ j1 k q, j1 < cols → k < 4 →
      ConvertBitmap.convert pf palette data (p + j1 * bpp) j1 = some q →
      (ConvertBitmap.pixels pf bpp palette data cols 0 p o bits).getD (o + 4 * j1 + k) 0
        = q.byte k) ∧
    (∀ i, i < o ∨ o + 4 * cols ≤ i →
      (ConvertBitmap.pixels pf bpp palette data cols 0 p o bits).getD i 0 = bits.getD i 0) := by
  have h := ConvertBitmap.bitmap_pixels_spec pf hpf bpp palette data p o cols 0 bits (by simpa using hlen)
  simp only [Nat.cast_zero, zero_mul, add_zero, Nat.mul_zero, Nat.zero_le, true_implies,
    Nat.zero_add] at h
  exact h

theorem ConvertBitmap.bitmap_rows_spec (pf : color_space) (hpf : pf ≠ color_space.B_GRAY1)
    (bpp bpr : Int) (palette : Nat → rgb_color) (data : Buffer) (cols : Nat) (q : Int) :
    ∀ (n y : Nat) (bits : List Nat), (y + n) * (4 * cols) ≤ bits.length →
      (ConvertBitmap.rows pf bpp bpr palette data cols (4 * cols) n (q + y * bpr)
          (y * (4 * cols)) bits).length = bits.length ∧
      (∀ y1 x1 k qd, y ≤ y1 → y1 < y + n → x1 < cols → k < 4 →
        ConvertBitmap.convert pf palette data (q + y1 * bpr + x1 * bpp) x1 = some qd →
        (ConvertBitmap.rows pf bpp bpr palette data cols (4 * cols) n (q + y * bpr)
          (y * (4 * cols)) bits).getD (y1 * (4 * cols) + 4 * x1 + k) 0 = qd.byte k) ∧
      (∀ i, i < y * (4 * cols) ∨ (y + n) * (4 * cols) ≤ i →
        (ConvertBitmap.rows pf bpp bpr palette data cols (4 * cols) n (q + y * bpr)
          (y * (4 * cols)) bits).getD i 0 = bits.getD i 0) := by
  intro n
  induction n with
  | zero =>
    intro y bits _
    refine ⟨rfl, ?_, fun i _ => rfl⟩
    intro y1 x1 k qd h1 h2
    omega
  | succ n ih =>
    intro y bits hlen
    simp only [ConvertBitmap.rows]
    have hy1 : (y + 1) * (4 * cols) = y * (4 * cols) + 4 * cols := by ring
    have hle : (y + 1) * (4 * cols) ≤ (y + (n + 1)) * (4 * cols) :=
      Nat.mul_le_mul_right _ (by omega)
    obtain ⟨p1, p2, p3⟩ := ConvertBitmap.bitmap_row_spec pf hpf bpp palette data (q + y * bpr)
      (y * (4 * cols)) cols bits (by omega)
    rw [show q + (y : Int) * bpr + bpr = q + ((y + 1 : Nat) : Int) * bpr by push_cast; ring,
      ← hy1]
    obtain ⟨h1, h2, h3⟩ := ih (y + 1)
      (ConvertBitmap.pixels pf bpp palette data cols 0 (q + y * bpr) (y * (4 * cols)) bits) (by
        rw [p1, show y + 1 + n = y + (n + 1) by omega]; exact hlen)
    refine ⟨by rw [h1, p1], ?_, ?_⟩
    · intro y1 x1 k qd hy hy2 hx hk hq
      rcases Nat.eq_or_lt_of_le hy with he | hl
      · subst he
        rw [h3 _ (Or.inl (by omega))]
        exact p2 x1 k qd hx hk hq
      · exact h2 y1 x1 k qd (by omega) (by omega) hx hk hq
    · intro i hi
      have hle2 : (y + 1) * (4 * cols) ≤ (y + 1 + n) * (4 * cols) :=
        Nat.mul_le_mul_right _ (by omega)
      have he2 : (y + 1 + n) * (4 * cols) = (y + (n + 1)) * (4 * cols) := by
        rw [show y + 1 + n = y + (n + 1) by omega]
      rw [h3 i (by omega), p3 i (by omega)]

theorem ConvertBitmap.convert_isSome (pf : color_space) (hbpp : 1 ≤ BytesPerPixel pf)
    (palette : Nat → rgb_color) (data : Buffer) (p : Int) (x : Nat) :
    ∃ q, ConvertBitmap.convert pf palette data p x = some q ∧
      ∀ x1, ConvertBitmap.convert pf palette data p x1 = some q := by
  cases pf <;> simp_all [BytesPerPixel, ConvertBitmap.convert]

/-- C10: for a format with `BytesPerPixel >= 1` and a rectangle with
`left <= right` and `top <= bottom`, `ConvertBitmap` (the new bitmap being
valid) returns a bitmap with bounds `(0, 0, right - left, bottom - top)`, that
is `right - left + 1` by `bottom - top + 1` pixels, in which the four bytes of
pixel `(x, y)` are the conversion of the source bytes at offset
`bytesPerRow * (top + y) + bpp * (left + x)`: output row `y` comes from source
row `top + y`. For a format with `BytesPerPixel = -1` it returns null. -/
theorem ConvertBitmap_pixels (palette : Nat → rgb_color) (src : BRect) (bpr : Int)
    (pf : color_space) (data : Buffer) (hbpp : 1 ≤ BytesPerPixel pf)
    (hw : src.left ≤ src.right) (hh : src.top ≤ src.bottom) :
    (∃ bm, ConvertBitmap true palette src bpr pf data = some bm ∧
      bm.right = src.right - src.left ∧ bm.bottom = src.bottom - src.top ∧
      (src.columns : Int) = src.right - src.left + 1 ∧
      (src.lines : Int) = src.bottom - src.top + 1 ∧
      bm.bits.length = 4 * src.columns * src.lines ∧
      ∀ x y k, x < src.columns → y < src.lines → k < 4 →
        ∃ q, ConvertBitmap.convert pf palette data
            (pixelOffset src bpr (BytesPerPixel pf) x y) x = some q ∧
          bm.bits.getD (4 * (y * src.columns + x) + k) 0 = q.byte k) ∧
    (∀ (valid : Bool) (pf1 : color_space), BytesPerPixel pf1 = -1 →
      ConvertBitmap valid palette src bpr pf1 data = none) := by
  have hpf : pf ≠ color_space.B_GRAY1 := by
    intro h; subst h; simp [BytesPerPixel] at hbpp
  have hcols : (src.columns : Int) = src.right - src.left + 1 := by
    unfold BRect.columns BRect.IntegerWidth; omega
  have hlines : (src.lines : Int) = src.bottom - src.top + 1 := by
    unfold BRect.lines BRect.IntegerHeight; omega
  have hrow : (4 * (src.IntegerWidth + 1)).toNat = 4 * src.columns := by
    unfold BRect.columns BRect.IntegerWidth; omega
  have hsize : (4 * (src.IntegerWidth + 1) * (src.IntegerHeight + 1)).toNat
      = src.lines * (4 * src.columns) := by
    have e1 : src.IntegerWidth + 1 = (src.columns : Int) := by
      unfold BRect.IntegerWidth; omega
    have e2 : src.IntegerHeight + 1 = (src.lines : Int) := by
      unfold BRect.IntegerHeight; omega
    rw [e1, e2, show (4 : Int) * (src.columns : Int) * (src.lines : Int)
      = ((src.lines * (4 * src.columns) : Nat) : Int) by push_cast; ring, Int.toNat_natCast]
  constructor
  · obtain ⟨r1, r2, r3⟩ := ConvertBitmap.bitmap_rows_spec pf hpf (BytesPerPixel pf) bpr palette data
      src.columns (bpr * src.top + BytesPerPixel pf * src.left) src.lines 0
      (List.replicate (src.lines * (4 * src.columns)) 0) (by simp)
    simp only [Nat.cast_zero, zero_mul, add_zero, Nat.zero_le, true_implies, Nat.zero_add,
      Nat.zero_mul, pixelOffset_eq] at r1 r2
    have hrun : ConvertBitmap true palette src bpr pf data = some
        { right := src.IntegerWidth, bottom := src.IntegerHeight,
          bits := ConvertBitmap.rows pf (BytesPerPixel pf) bpr palette data src.columns
            (4 * src.columns) src.lines (bpr * src.top + BytesPerPixel pf * src.left) 0
            (List.replicate (src.lines * (4 * src.columns)) 0) } := by
      unfold ConvertBitmap
      rw [if_neg (by omega)]
      simp only [Bool.not_true, Bool.false_eq_true, if_false, BBitmap.BytesPerRow, hrow, hsize]
      rfl
    refine ⟨_, hrun, rfl, rfl, hcols, hlines, ?_, ?_⟩
    · simp only [r1, List.length_replicate]
      ring
    · intro x y k hx hy hk
      obtain ⟨q, hq, _⟩ := ConvertBitmap.convert_isSome pf hbpp palette data
        (pixelOffset src bpr (BytesPerPixel pf) x y) x
      refine ⟨q, hq, ?_⟩
      have := r2 y x k q hy hx hk hq
      rw [show 4 * (y * src.columns + x) + k = y * (4 * src.columns) + 4 * x + k by ring]
      exact this
  · intro valid pf1 h1
    simp [ConvertBitmap, h1]

theorem ConvertBitmap_pixels_witness :
    ConvertBitmap true samplePalette sampleRect2 6 color_space.B_RGB24 sampleRGB24
      = some { right := 1, bottom := 0, bits := [10, 20, 30, 255, 40, 50, 60, 255] } ∧
    ∃ bm, ConvertBitmap true samplePalette sampleRect2 6 color_space.B_RGB24 sampleRGB24
        = some bm ∧
      bm.right = sampleRect2.right - sampleRect2.left ∧
      bm.bottom = sampleRect2.bottom - sampleRect2.top ∧
      (sampleRect2.columns : Int) = sampleRect2.right - sampleRect2.left + 1 ∧
      (sampleRect2.lines : Int) = sampleRect2.bottom - sampleRect2.top + 1 ∧
      bm.bits.length = 4 * sampleRect2.columns * sampleRect2.lines ∧
      ∀ x y k, x < sampleRect2.columns → y < sampleRect2.lines → k < 4 →
        ∃ q, ConvertBitmap.convert color_space.B_RGB24 samplePalette sampleRGB24
            (pixelOffset sampleRect2 6 (BytesPerPixel color_space.B_RGB24) x y) x = some q ∧
          bm.bits.getD (4 * (y * sampleRect2.columns + x) + k) 0 = q.byte k :=
  ⟨by decide, (ConvertBitmap_pixels samplePalette sampleRect2 6 color_space.B_RGB24 sampleRGB24
    (by decide) (by decide) (by decide)).1⟩

/-! ## Pixel converters -/

/-- C11: at the pure red RGB15 pixel `0b0_11111_00000_00000` (bytes `0x00`,
`0x7c`) `ConvertFromRGB15` writes `(0, 64, 240, 255)`, whereas the 5/5/5 fields
of that value, each times 8, are `(0, 0, 248, 255)`. -/
theorem ConvertFromRGB15_pure_red :
    read16 sampleRed15 0 = 0b0111110000000000 ∧
    ConvertFromRGB15 sampleRed15 0 = ⟨0, 64, 240, 255⟩ ∧
    (⟨read16 sampleRed15 0 % 32 * 8, read16 sampleRed15 0 / 32 % 32 * 8,
      read16 sampleRed15 0 / 1024 % 32 * 8, 255⟩ : Quad) = ⟨0, 0, 248, 255⟩ := by
  decide

/-- C12: each of `ConvertFromRGBA32_BIG`, `ConvertFromRGB24_BIG`,
`ConvertFromRGB15_BIG` and `ConvertFromRGBA15_BIG` applied to a pixel writes the
four bytes that `ConvertFromRGBA32`, `ConvertFromRGB24`, `ConvertFromRGB15` and
`ConvertFromRGBA15` write for the pixel with its bytes reversed. -/
theorem BIG_converters_reverse (buf : Buffer) (p : Int) :
    ConvertFromRGBA32_BIG buf p = ConvertFromRGBA32 (reversePixel buf p 4) p ∧
    ConvertFromRGB24_BIG buf p = ConvertFromRGB24 (reversePixel buf p 3) p ∧
    ConvertFromRGB15_BIG buf p = ConvertFromRGB15 (reversePixel buf p 2) p ∧
    ConvertFromRGBA15_BIG buf p = ConvertFromRGBA15 (reversePixel buf p 2) p := by
  have h0 : ∀ n : Int, 0 < n → reversePixel buf p n p = buf (p + (n - 1)) := by
    intro n hn
    simp [reversePixel, hn]
  have h1 : ∀ n : Int, 1 < n → reversePixel buf p n (p + 1) = buf (p + (n - 2)) := by
    intro n hn
    have e : n - 1 - 1 = n - 2 := by ring
    simp [reversePixel, hn, e]
  have h2 : ∀ n : Int, 2 < n → reversePixel buf p n (p + 2) = buf (p + (n - 3)) := by
    intro n hn
    have e : n - 1 - 2 = n - 3 := by ring
    simp [reversePixel, hn, e]
  have h3 : ∀ n : Int, 3 < n → reversePixel buf p n (p + 3) = buf (p + (n - 4)) := by
    intro n hn
    have e : n - 1 - 3 = n - 4 := by ring
    simp [reversePixel, hn, e]
  refine ⟨?_, ?_, ?_, ?_⟩
  · simp [ConvertFromRGBA32_BIG, ConvertFromRGBA32, h0, h1, h2, h3]
  · simp [ConvertFromRGB24_BIG, ConvertFromRGB24, h0, h1, h2]
  · simp [ConvertFromRGB15_BIG, ConvertFromRGB15, h0, h1]
  · simp [ConvertFromRGBA15_BIG, ConvertFromRGBA15, h0, h1]

/-- C13: for the pixel `0x00`, `0xf8` `ConvertFromRGB16_BIG` writes blue from
the byte after the pixel: it gives `(0, 0, 0, 255)` when that byte is 0 and
`(248, 0, 0, 255)` when it is `0xff`, while `ConvertFromRGB16` on the swapped
pixel `0xf8`, `0x00` gives `(248, 0, 0, 255)` in both cases. -/
theorem ConvertFromRGB16_BIG_next_byte :
    sampleBig16 0 = sampleBig16Next 0 ∧ sampleBig16 1 = sampleBig16Next 1 ∧
    ConvertFromRGB16_BIG sampleBig16 0 = ⟨0, 0, 0, 255⟩ ∧
    ConvertFromRGB16_BIG sampleBig16Next 0 = ⟨248, 0, 0, 255⟩ ∧
    ConvertFromRGB16 (reversePixel sampleBig16 0 2) 0 = ⟨248, 0, 0, 255⟩ ∧
    ConvertFromRGB16 (reversePixel sampleBig16Next 0 2) 0 = ⟨248, 0, 0, 255⟩ := by
  decide

/-- C14: for `B_GRAY1` and the rectangle of the single pixel in column 1 of a
row whose byte has bit 1 set and bit 0 clear, `ConvertBitmap` returns the black
pixel `(0, 0, 0, 255)`: it reads bit `x mod 8` of the byte at
`bytesPerRow * top + x div 8`, without `left`. -/
theorem ConvertBitmap_GRAY1_left :
    (sampleGray1 (1 * (sampleRectColumn1.top + 0) + (sampleRectColumn1.left + 0) / 8)).testBit
        (((sampleRectColumn1.left + 0) % 8).toNat) = true ∧
    ConvertBitmap true samplePalette sampleRectColumn1 1 color_space.B_GRAY1 sampleGray1
      = some { right := 0, bottom := 0, bits := [0, 0, 0, 255] } := by
  decide

/-! ## Origin -/

theorem SetOrigin_computed (w : Writer) (s p : State) (rest : List State) (pt : BPoint)
    (hs : w.fState = s :: p :: rest) :
    SetOrigin w pt = some { w with fState :=
      { s with pdfSystem :=
          { s.pdfSystem with fX := p.pdfSystem.fX + s.pdfSystem.fScale * pt.x,
                             fY := p.pdfSystem.fY + s.pdfSystem.fScale * pt.y } }
        :: p :: rest } := by
  simp [SetOrigin, hs, PDFSystem.Origin, PDFSystem.SetOrigin, PDFSystem.scale]

/-- C15: `SetOrigin` multiplies the point by the scale of the current state, not
by the scale of its predecessor. For a state pushed off a predecessor of scale 1
and origin `(10, 20)`, `SetScale(2)` followed by `SetOrigin((1, 1))` sets the
origin `(12, 22)`, whereas the origin of the predecessor plus the point times
the scale of the predecessor is `(11, 21)`; the same two calls in the other
order do set `(11, 21)`, so the origin depends on the order of the calls. In
both runs the predecessor keeps scale 1 and origin `(10, 20)` and the current
state ends with scale 2. -/
theorem SetOrigin_scale_order :
    ((SetScale pushedWriter 2).bind (fun w => SetOrigin w { x := 1, y := 1 })).map
        (fun w => w.fState.map (fun s => (s.pdfSystem.Origin, s.pdfSystem.Scale)))
      = some [({ x := 12, y := 22 }, 2), ({ x := 10, y := 20 }, 1)] ∧
    ((SetOrigin pushedWriter { x := 1, y := 1 }).bind (fun w => SetScale w 2)).map
        (fun w => w.fState.map (fun s => (s.pdfSystem.Origin, s.pdfSystem.Scale)))
      = some [({ x := 11, y := 21 }, 2), ({ x := 10, y := 20 }, 1)] ∧
    pushedWriter.fState.getLast?.map
        (fun p => (p.pdfSystem.Origin.x + p.pdfSystem.scale 1,
                   p.pdfSystem.Origin.y + p.pdfSystem.scale 1))
      = some (11, 21) := by
  refine ⟨?_, ?_, ?_⟩
  · simp only [SetScale, SetOrigin, pushedWriter, PDFSystem.Origin, PDFSystem.SetOrigin,
      PDFSystem.SetScale, PDFSystem.Scale, PDFSystem.scale, Option.some_bind, Option.map_some',
      List.map_cons, List.map_nil]
    norm_num
  · simp only [SetScale, SetOrigin, pushedWriter, PDFSystem.Origin, PDFSystem.SetOrigin,
      PDFSystem.SetScale, PDFSystem.Scale, PDFSystem.scale, Option.some_bind, Option.map_some',
      List.map_cons, List.map_nil]
    norm_num
  · simp only [pushedWriter, PDFSystem.Origin, PDFSystem.scale, List.getLast?_cons_cons,
      List.getLast?_singleton, Option.map_some']
    norm_num

/-! ## Depth invariant of the page -/

theorem getLast?_cons_of_ne_nil {α : Type} (a : α) (l : List α) (h : l ≠ []) :
    (a :: l).getLast? = l.getLast? := by
  cases l with
  | nil => exact absurd rfl h
  | cons b l => simp [List.getLast?_cons_cons]

theorem runStateCall_invariant (c : StateCall) (w : Writer)
    (hd : w.fStateDepth = (w.fState.length : Int) - 1) (hne : w.fState ≠ []) :
    ∃ w1, runStateCall c w = some w1 ∧
      w1.fStateDepth = (w1.fState.length : Int) - 1 ∧ w1.fState ≠ [] ∧
      w1.fState.getLast? = w.fState.getLast? := by
  have hpush : (PushInternalState w).fStateDepth
        = ((PushInternalState w).fState.length : Int) - 1 ∧
      (PushInternalState w).fState ≠ [] ∧
      (PushInternalState w).fState.getLast? = w.fState.getLast? := by
    refine ⟨?_, ?_, ?_⟩
    · simp only [PushInternalState, List.length_cons]; push_cast; omega
    · simp [PushInternalState]
    · simp only [PushInternalState]; exact getLast?_cons_of_ne_nil _ _ hne
  have hpop : ∃ r, PopInternalState w = some r ∧
      r.2.fStateDepth = (r.2.fState.length : Int) - 1 ∧ r.2.fState ≠ [] ∧
      r.2.fState.getLast? = w.fState.getLast? ∧ r.2.makesPDF = w.makesPDF := by
    by_cases h0 : w.fStateDepth = 0
    · exact ⟨(false, w), by simp [PopInternalState, h0], hd, hne, rfl, rfl⟩
    · cases hs : w.fState with
      | nil => exact absurd hs hne
      | cons s prev =>
        rw [hs] at hd
        simp only [List.length_cons] at hd
        push_cast at hd
        have hprev : prev ≠ [] := by
          intro hp; subst hp; simp at hd; exact h0 hd
        refine ⟨(true, { w with fState := prev, fStateDepth := w.fStateDepth - 1 }),
          by simp [PopInternalState, h0, hs], ?_, hprev, ?_, rfl⟩
        · simp only; omega
        · simp only; exact (getLast?_cons_of_ne_nil s prev hprev).symm
  cases c with
  | pushInternal => exact ⟨_, rfl, hpush⟩
  | popInternal =>
    obtain ⟨r, hr, h1, h2, h3, _⟩ := hpop
    exact ⟨r.2, by simp [runStateCall, hr], h1, h2, h3⟩
  | push =>
    have hst : (PushState w).fState = (PushInternalState w).fState ∧
        (PushState w).fStateDepth = (PushInternalState w).fStateDepth := by
      cases hp : w.makesPDF <;> simp [PushState, PushInternalState, hp]
    refine ⟨PushState w, rfl, ?_⟩
    rw [hst.1, hst.2]
    exact hpush
  | pop =>
    obtain ⟨r, hr, h1, h2, h3, h4⟩ := hpop
    obtain ⟨b, w1⟩ := r
    cases b with
    | true =>
      simp only [runStateCall, PopState, hr]
      split
      · exact ⟨w1, rfl, h1, h2, h3⟩
      · exact ⟨_, rfl, h1, h2, h3⟩
    | false =>
      simp only [runStateCall, PopState, hr]
      exact ⟨w1, rfl, h1, h2, h3⟩

theorem runStateCalls_invariant (cs : List StateCall) :
    ∀ w : Writer, w.fStateDepth = (w.fState.length : Int) - 1 → w.fState ≠ [] →
      ∃ w1, runStateCalls cs w = some w1 ∧
        w1.fStateDepth = (w1.fState.length : Int) - 1 ∧ w1.fState ≠ [] ∧
        w1.fState.getLast? = w.fState.getLast? := by
  induction cs with
  | nil => intro w hd hne; exact ⟨w, rfl, hd, hne, rfl⟩
  | cons c cs ih =>
    intro w hd hne
    obtain ⟨w1, h1, hd1, hne1, hl1⟩ := runStateCall_invariant c w hd hne
    obtain ⟨w2, h2, hd2, hne2, hl2⟩ := ih w1 hd1 hne1
    exact ⟨w2, by simp [runStateCalls, h1, h2], hd2, hne2, hl2.trans hl1⟩

theorem BeginPage_state (a4_width a4_height : ℚ) (w : Writer) (paperRect printRect : BRect) :
    ∃ root top, (BeginPage a4_width a4_height w paperRect printRect).fState = [top, root] ∧
      (BeginPage a4_width a4_height w paperRect printRect).fStateDepth = w.fStateDepth + 1 := by
  unfold BeginPage PushState PushInternalState
  cases hp : w.makesPDF <;> simp [hp]

/-- C16: `BeginPage`, entered with `fStateDepth = 0`, leaves a root state plus
one pushed state and depth 1; from there every finite sequence of
`PushInternalState`, `PopInternalState`, `PushState` and `PopState` calls runs
to its end and ends with `fStateDepth` equal to the number of states in the
chain minus one, with a current state, and with the root state of `BeginPage`
still at the bottom of the chain. -/
theorem page_depth_invariant (a4_width a4_height : ℚ) (w : Writer)
    (paperRect printRect : BRect) (h0 : w.fStateDepth = 0) (cs : List StateCall) :
    (BeginPage a4_width a4_height w paperRect printRect).fState.length = 2 ∧
    (BeginPage a4_width a4_height w paperRect printRect).fStateDepth = 1 ∧
    ∃ w1, runStateCalls cs (BeginPage a4_width a4_height w paperRect printRect) = some w1 ∧
      w1.fStateDepth = (w1.fState.length : Int) - 1 ∧ w1.fState ≠ [] ∧
      w1.fState.getLast?
        = (BeginPage a4_width a4_height w paperRect printRect).fState.getLast? := by
  obtain ⟨root, top, hs, hd⟩ := BeginPage_state a4_width a4_height w paperRect printRect
  refine ⟨by rw [hs]; rfl, by rw [hd, h0]; rfl, ?_⟩
  exact runStateCalls_invariant cs _ (by rw [hd, h0, hs]; rfl) (by rw [hs]; simp)

theorem page_depth_invariant_witness :
    idleWriter.fStateDepth = 0 ∧
    ∃ w1, runStateCalls [StateCall.pop, StateCall.pop, StateCall.popInternal,
        StateCall.pushInternal, StateCall.push, StateCall.pop]
        (BeginPage 595 842 idleWriter sampleRect sampleRect) = some w1 ∧
      w1.fStateDepth = (w1.fState.length : Int) - 1 ∧ w1.fState ≠ [] ∧
      w1.fState.getLast? = (BeginPage 595 842 idleWriter sampleRect sampleRect).fState.getLast? :=
  ⟨rfl, (page_depth_invariant 595 842 idleWriter sampleRect sampleRect rfl _).2.2⟩

/-! ## End of the page -/

theorem PopState_step (w : Writer) (s p : State) (rest : List State)
    (hs : w.fState = s :: p :: rest) (hd : w.fStateDepth ≠ 0) :
    ∃ w1, PopState w = some w1 ∧ w1.fState = p :: rest ∧
      w1.fStateDepth = w.fStateDepth - 1 ∧ w1.makesPDF = w.makesPDF ∧
      (w.makesPDF = true → w1.fPdf = w.fPdf ++ [PdfOp.restore]) ∧
      (w.makesPDF = false → w1.fPdf = w.fPdf) := by
  cases hp : w.makesPDF <;>
    simp [PopState, PopInternalState, hs, hd, hp]

theorem EndPage.popLoop_spec (fuel : Nat) :
    ∀ w : Writer, w.fState ≠ [] → w.fStateDepth = (w.fState.length : Int) - 1 →
      w.fStateDepth.toNat ≤ fuel →
      ∃ w1, EndPage.popLoop fuel w = some (w.fStateDepth.toNat, w1) ∧
        w1.fStateDepth = 0 ∧ w1.fState.length = 1 ∧ w1.makesPDF = w.makesPDF ∧
        (w.makesPDF = true →
          w1.fPdf = w.fPdf ++ List.replicate w.fStateDepth.toNat PdfOp.restore) ∧
        (w.makesPDF = false → w1.fPdf = w.fPdf) := by
  induction fuel with
  | zero =>
    intro w hne hd hfuel
    cases hs : w.fState with
    | nil => exact absurd hs hne
    | cons s prev =>
      cases prev with
      | nil =>
        rw [hs] at hd
        simp at hd
        refine ⟨w, ?_, hd, by rw [hs]; rfl, rfl, ?_, fun _ => rfl⟩
        · unfold EndPage.popLoop; simp [EndPage.prevIsNull, hs, hd]
        · intro _; simp [hd]
      | cons p rest =>
        rw [hs] at hd
        simp only [List.length_cons] at hd
        push_cast at hd
        omega
  | succ fuel ih =>
    intro w hne hd hfuel
    cases hs : w.fState with
    | nil => exact absurd hs hne
    | cons s prev =>
      cases prev with
      | nil =>
        rw [hs] at hd
        simp at hd
        refine ⟨w, ?_, hd, by rw [hs]; rfl, rfl, ?_, fun _ => rfl⟩
        · unfold EndPage.popLoop; simp [EndPage.prevIsNull, hs, hd]
        · intro _; simp [hd]
      | cons p rest =>
        have hd2 := hd
        rw [hs] at hd2
        simp only [List.length_cons] at hd2
        push_cast at hd2
        obtain ⟨v, hv, hvs, hvd, hvp, hvl1, hvl2⟩ := PopState_step w s p rest hs (by omega)
        obtain ⟨w1, h1, h2, h3, h4, h5, h6⟩ := ih v (by rw [hvs]; simp)
          (by rw [hvd, hvs]; simp only [List.length_cons]; push_cast; omega)
          (by rw [hvd]; omega)
        have hn : w.fStateDepth.toNat = (v.fStateDepth).toNat + 1 := by rw [hvd]; omega
        refine ⟨w1, ?_, h2, h3, h4.trans hvp, ?_, ?_⟩
        · unfold EndPage.popLoop
          simp only [EndPage.prevIsNull, hs, hv, h1, hn]
        · intro hp
          rw [h5 (hvp.trans hp), hvl1 hp, hn, List.replicate_succ]
          simp
        · intro hp
          rw [h6 (hvp.trans hp), hvl2 hp]

/-- C17: for a page state with a current state and `fStateDepth` equal to the
number of states in the chain minus one, the pop loop of `EndPage` ends, given
room for at least `fStateDepth` iterations, after exactly `fStateDepth` calls of
`PopState`; in the render pass these append `fStateDepth` restores, followed by
the end of the page; and `EndPage` leaves `fStateDepth = 0` and `fState` null. -/
theorem EndPage_pops_to_root (w : Writer) (fuel : Nat) (hne : w.fState ≠ [])
    (hd : w.fStateDepth = (w.fState.length : Int) - 1) (hfuel : w.fStateDepth.toNat ≤ fuel) :
    ∃ w1, EndPage fuel w = some (w.fStateDepth.toNat, w1) ∧
      w1.fStateDepth = 0 ∧ w1.fState = [] ∧
      (w.makesPDF = true →
        w1.fPdf = w.fPdf ++ List.replicate w.fStateDepth.toNat PdfOp.restore
          ++ [PdfOp.end_page]) ∧
      (w.makesPDF = false → w1.fPdf = w.fPdf) := by
  obtain ⟨v, hv, hvd, _, hvp, hl1, hl2⟩ := EndPage.popLoop_spec fuel w hne hd hfuel
  cases hp : w.makesPDF
  · refine ⟨{ v with fState := [] }, ?_, hvd, rfl, by simp, fun _ => hl2 hp⟩
    simp [EndPage, hv, hvp, hp]
  · refine ⟨{ v with fPdf := v.fPdf ++ [PdfOp.end_page], fState := [] }, ?_, hvd, rfl,
      fun _ => by simp [hl1 hp], by simp⟩
    simp [EndPage, hv, hvp, hp]

theorem EndPage_pops_to_root_witness :
    ∃ w1, EndPage 5 scaledWriter = some (scaledWriter.fStateDepth.toNat, w1) ∧
      w1.fStateDepth = 0 ∧ w1.fState = [] ∧
      (scaledWriter.makesPDF = true →
        w1.fPdf = scaledWriter.fPdf
          ++ List.replicate scaledWriter.fStateDepth.toNat PdfOp.restore ++ [PdfOp.end_page]) ∧
      (scaledWriter.makesPDF = false → w1.fPdf = scaledWriter.fPdf) :=
  EndPage_pops_to_root scaledWriter 5 (by simp [scaledWriter]) (by simp [scaledWriter])
    (by decide)

/-! ## Transparency brackets -/

theorem FindTransparency.scan_some (a : Nat) (l : List Transparency) (t : Transparency)
    (h : FindTransparency.scan a l = some t) : t.fAlpha = a ∧ t ∈ l := by
  induction l with
  | nil => simp [FindTransparency.scan] at h
  | cons t0 l ih =>
    simp only [FindTransparency.scan] at h
    split at h
    · rename_i hm
      simp only [Option.some.injEq] at h
      subst h
      exact ⟨by simpa [Transparency.Matches] using hm, by simp⟩
    · obtain ⟨h1, h2⟩ := ih h
      exact ⟨h1, by simp [h2]⟩

theorem FindTransparency_frame (w : Writer) (a : Nat) (h : Int) :
    (FindTransparency w a h).2.supportsOpacity = w.supportsOpacity ∧
    (FindTransparency w a h).2.makesPDF = w.makesPDF ∧
    (FindTransparency w a h).2.fMode = w.fMode ∧
    (FindTransparency w a h).2.fTransparencyStack = w.fTransparencyStack ∧
    ((FindTransparency w a h).2.fPdf = w.fPdf ∨
      (FindTransparency w a h).2.fPdf = w.fPdf ++ [PdfOp.create_gstate a]) ∧
    (∀ t, (FindTransparency w a h).1 = some t →
      t.fAlpha = a ∧ t ∈ (FindTransparency w a h).2.fTransparencyCache) := by
  unfold FindTransparency
  cases hs : FindTransparency.scan a w.fTransparencyCache with
  | some t0 =>
    refine ⟨rfl, rfl, rfl, rfl, Or.inl rfl, ?_⟩
    intro t ht
    simp only [Option.some.injEq] at ht
    subst ht
    exact FindTransparency.scan_some a _ _ hs
  | none =>
    by_cases hh : h ≥ 0
    · simp only [hh, if_true]
      simp
    · simp only [hh, if_false]
      simp

theorem EndTransparency_after_push (v : Writer) (st : List (Option Transparency))
    (item : Option Transparency) (hop : v.supportsOpacity = true) (hpdf : v.makesPDF = true)
    (hdraw : IsDrawing v = true) (hst : v.fTransparencyStack = st ++ [item]) :
    EndTransparency v =
      { v with fTransparencyStack := st,
               fPdf := if item.isSome then v.fPdf ++ [PdfOp.restore] else v.fPdf } := by
  have h1 : (st ++ [item]).getLast? = some item := by simp
  have h2 : (st ++ [item]).dropLast = st := by simp
  have hc : (!v.supportsOpacity || !v.makesPDF || !IsDrawing v) = false := by
    simp [hop, hpdf, hdraw]
  unfold EndTransparency
  rw [hc, hst, h1, h2]
  cases item <;> simp

/-- C18: in the render pass, in drawing mode and with opacity supported, when the
drawing mode is `B_OP_ALPHA`, the alpha of the current colour is below 255 and
`FindTransparency` returns an entry, `BeginTransparency` followed by
`EndTransparency` appends one save, one set-graphics-state with the handle of
that entry (the cache entry of the current alpha; a `PDF_create_gstate` call
comes before it when the entry is new) and one restore, and leaves the
transparency stack as it was; when the alpha is 255 or the drawing mode is
another, the pair changes nothing; and when opacity is unsupported, the pass
makes no PDF, or the mode is not drawing, each of the two calls changes
nothing. -/
theorem transparency_bracket (w : Writer) (handle : Int) :
    (w.supportsOpacity = true → w.makesPDF = true → IsDrawing w = true →
      ∀ s rest, w.fState = s :: rest →
        (s.drawingMode = B_OP_ALPHA → s.currentColor.alpha < 255 →
          ∀ t, (FindTransparency { w with fPdf := w.fPdf ++ [PdfOp.save] }
              s.currentColor.alpha handle).1 = some t →
            ∃ wb c, BeginTransparency w handle = some wb ∧
              (c = [] ∨ c = [PdfOp.create_gstate s.currentColor.alpha]) ∧
              (EndTransparency wb).fPdf
                = w.fPdf ++ [PdfOp.save] ++ c ++ [PdfOp.set_gstate t.Handle, PdfOp.restore] ∧
              (EndTransparency wb).fTransparencyStack = w.fTransparencyStack ∧
              t.fAlpha = s.currentColor.alpha ∧
              t ∈ (EndTransparency wb).fTransparencyCache) ∧
        (¬(s.drawingMode = B_OP_ALPHA ∧ s.currentColor.alpha < 255) →
          ∃ wb, BeginTransparency w handle = some wb ∧ EndTransparency wb = w)) ∧
    ((w.supportsOpacity = false ∨ w.makesPDF = false ∨ IsDrawing w = false) →
      BeginTransparency w handle = some w ∧ EndTransparency w = w) := by
  constructor
  · intro hop hpdf hdraw s rest hs
    constructor
    · intro hmode halpha t ht
      obtain ⟨f1, f2, f3, f4, f5, f6⟩ := FindTransparency_frame
        { w with fPdf := w.fPdf ++ [PdfOp.save] } s.currentColor.alpha handle
      obtain ⟨hta, htm⟩ := f6 t ht
      generalize hr : FindTransparency { w with fPdf := w.fPdf ++ [PdfOp.save] }
        s.currentColor.alpha handle = r at ht f1 f2 f3 f4 f5 htm
      obtain ⟨o, v⟩ := r
      simp only at ht f1 f2 f3 f4 f5 htm
      subst ht
      have hb : BeginTransparency w handle = some
          { v with fPdf := v.fPdf ++ [PdfOp.set_gstate t.Handle],
                   fTransparencyStack := v.fTransparencyStack ++ [some t] } := by
        have hc : (!w.supportsOpacity || !w.makesPDF || !IsDrawing w) = false := by
          simp [hop, hpdf, hdraw]
        unfold BeginTransparency
        rw [hc]
        simp only [Bool.false_eq_true, if_false]
        split
        · rename_i h0
          rw [hs] at h0
          cases h0
        · rename_i s1 rest1 h1
          have e : s1 = s := by
            rw [hs] at h1
            exact (List.cons.inj h1).1.symm
          subst e
          rw [if_pos ⟨hmode, halpha⟩]
          simp only [hr]
      have he := EndTransparency_after_push
        { v with fPdf := v.fPdf ++ [PdfOp.set_gstate t.Handle],
                 fTransparencyStack := v.fTransparencyStack ++ [some t] }
        w.fTransparencyStack (some t) (f1.trans hop) (f2.trans hpdf)
        (by simpa [IsDrawing, f3] using hdraw) (by simp [f4])
      simp only at he
      rcases f5 with hlog | hlog
      · refine ⟨_, [], hb, Or.inl rfl, ?_, ?_, hta, ?_⟩
        · rw [he]; simp [hlog]
        · rw [he]
        · rw [he]; exact htm
      · refine ⟨_, [PdfOp.create_gstate s.currentColor.alpha], hb, Or.inr rfl, ?_, ?_, hta, ?_⟩
        · rw [he]; simp [hlog]
        · rw [he]
        · rw [he]; exact htm
    · intro hno
      refine ⟨{ w with fTransparencyStack := w.fTransparencyStack ++ [none] }, ?_, ?_⟩
      · simp [BeginTransparency, hop, hpdf, hdraw, hs, hno]
      · rw [EndTransparency_after_push
          { w with fTransparencyStack := w.fTransparencyStack ++ [none] }
          w.fTransparencyStack none hop hpdf (by simpa [IsDrawing] using hdraw) rfl]
        simp
  · intro hoff
    have hc : (!w.supportsOpacity || !w.makesPDF || !IsDrawing w) = true := by
      rcases hoff with h | h | h <;> simp [h]
    exact ⟨by simp [BeginTransparency, hc], by simp [EndTransparency, hc]⟩

theorem transparency_bracket_witness :
    ∃ wb c, BeginTransparency alphaWriter 3 = some wb ∧
      (c = [] ∨ c = [PdfOp.create_gstate 128]) ∧
      (EndTransparency wb).fPdf
        = alphaWriter.fPdf ++ [PdfOp.save] ++ c
            ++ [PdfOp.set_gstate (Transparency.Handle { fAlpha := 128, fHandle := 3 }),
                PdfOp.restore] ∧
      (EndTransparency wb).fTransparencyStack = alphaWriter.fTransparencyStack ∧
      (128 : Nat) = 128 ∧
      ({ fAlpha := 128, fHandle := 3 } : Transparency)
        ∈ (EndTransparency wb).fTransparencyCache :=
  ((transparency_bracket alphaWriter 3).1 rfl rfl rfl _ _ rfl).1 rfl (by decide)
    { fAlpha := 128, fHandle := 3 } (by decide)

/-! ## Font handles -/

theorem Font.hasKey_iff (f : Font) (fontName : String) (encoding : Nat) :
    f.hasKey fontName encoding = true ↔ f.encoding = encoding ∧ f.name = fontName := by
  simp [Font.hasKey]

theorem FindFont.scan_font_some (fontName : String) (encoding : Nat) (l : List Font) (f : Font)
    (h : FindFont.scan fontName encoding l = some f) :
    f ∈ l ∧ f.hasKey fontName encoding = true := by
  induction l with
  | nil => simp [FindFont.scan] at h
  | cons g l ih =>
    simp only [FindFont.scan] at h
    split at h
    · rename_i hk
      simp only [Option.some.injEq] at h
      subst h
      exact ⟨by simp, hk⟩
    · obtain ⟨h1, h2⟩ := ih h
      exact ⟨by simp [h1], h2⟩

theorem FindFont.scan_font_none (fontName : String) (encoding : Nat) (l : List Font)
    (h : FindFont.scan fontName encoding l = none) :
    ∀ f ∈ l, f.hasKey fontName encoding = false := by
  induction l with
  | nil => simp
  | cons g l ih =>
    simp only [FindFont.scan] at h
    split at h
    · simp at h
    · rename_i hk
      intro f hf
      rcases List.mem_cons.1 hf with rfl | hf
      · simpa using hk
      · exact ih h f hf

theorem FindFont.scan_font_isSome (fontName : String) (encoding : Nat) (l : List Font)
    (h : ∃ f ∈ l, f.hasKey fontName encoding = true) :
    ∃ g, FindFont.scan fontName encoding l = some g := by
  cases hs : FindFont.scan fontName encoding l with
  | some g => exact ⟨g, rfl⟩
  | none =>
    obtain ⟨f, hf, hk⟩ := h
    have := FindFont.scan_font_none fontName encoding l hs f hf
    rw [hk] at this
    simp at this

theorem FindFont_hit (w : Writer) (fontName : String) (encoding : Nat) (h : Int)
    (hold : FontKeyHolds w fontName encoding h) (embed embedAns : Bool) (ans : Int) :
    (FindFont w fontName embed encoding embedAns ans).1 = h ∧
    (FindFont w fontName embed encoding embedAns ans).2.fPdf = w.fPdf ∧
    (FindFont w fontName embed encoding embedAns ans).2.fFontCache = w.fFontCache := by
  obtain ⟨hex, hall, hlast⟩ := hold
  unfold FindFont
  cases hf : w.findFontCache.filter (fun c => c.hasKey fontName encoding) with
  | some c =>
    obtain ⟨hc1, hc2⟩ := Option.filter_eq_some.1 hf
    exact ⟨hlast c hc1 hc2, rfl, rfl⟩
  | none =>
    obtain ⟨g, hg⟩ := FindFont.scan_font_isSome fontName encoding w.fFontCache hex
    obtain ⟨hg1, hg2⟩ := FindFont.scan_font_some fontName encoding _ g hg
    rw [hg]
    exact ⟨hall g hg1 hg2, rfl, rfl⟩

theorem FindFont_keeps_key (w : Writer) (fontName : String) (encoding : Nat) (h : Int)
    (hold : FontKeyHolds w fontName encoding h) (name2 : String) (embed : Bool) (enc2 : Nat)
    (embedAns : Bool) (ans : Int) :
    FontKeyHolds (FindFont w name2 embed enc2 embedAns ans).2 fontName encoding h := by
  obtain ⟨hex, hall, hlast⟩ := hold
  unfold FindFont
  cases hf : w.findFontCache.filter (fun c => c.hasKey name2 enc2) with
  | some c => exact ⟨hex, hall, hlast⟩
  | none =>
    cases hs : FindFont.scan name2 enc2 w.fFontCache with
    | some g =>
      obtain ⟨hg1, _⟩ := FindFont.scan_font_some name2 enc2 _ g hs
      refine ⟨hex, hall, ?_⟩
      intro c hc hk
      simp only [Option.some.injEq] at hc
      subst hc
      exact hall g hg1 hk
    | none =>
      have hnone := FindFont.scan_font_none name2 enc2 w.fFontCache hs
      by_cases ha : ans ≠ -1
      · simp only []
        rw [if_pos ha]
        have hnew : ∀ f : Font, f = { name := name2, font := ans, encoding := enc2 } →
            f.hasKey fontName encoding = true → f.font = h := by
          intro f hf2 hk
          subst hf2
          obtain ⟨he, hn⟩ := (Font.hasKey_iff _ _ _).1 hk
          simp only at he hn
          subst he; subst hn
          obtain ⟨g, hg, hgk⟩ := hex
          have := hnone g hg
          rw [hgk] at this
          simp at this
        refine ⟨?_, ?_, ?_⟩
        · obtain ⟨g, hg, hgk⟩ := hex
          exact ⟨g, by simp [hg], hgk⟩
        · intro f hf2 hk
          simp only [List.mem_append, List.mem_singleton] at hf2
          rcases hf2 with hf2 | hf2
          · exact hall f hf2 hk
          · exact hnew f hf2 hk
        · intro c hc hk
          simp only [Option.some.injEq] at hc
          exact hnew c hc.symm hk
      · simp only []
        rw [if_neg ha]
        exact ⟨hex, hall, hlast⟩

theorem findFonts_keeps_key (reqs : List FontRequest) (fontName : String) (encoding : Nat)
    (h : Int) :
    ∀ w : Writer, FontKeyHolds w fontName encoding h →
      FontKeyHolds (findFonts reqs w) fontName encoding h := by
  induction reqs with
  | nil => intro w hold; exact hold
  | cons r reqs ih =>
    intro w hold
    exact ih _ (FindFont_keeps_key w fontName encoding h hold _ _ _ _ _)

theorem FindFont_creates (w : Writer) (fontName : String) (embed : Bool) (encoding : Nat)
    (embedAns : Bool) (ans : Int)
    (hfast : w.findFontCache.filter (fun c => c.hasKey fontName encoding) = none)
    (hscan : FindFont.scan fontName encoding w.fFontCache = none) :
    (FindFont w fontName embed encoding embedAns ans).1 = ans ∧
    (FindFont w fontName embed encoding embedAns ans).2.fPdf = w.fPdf ++
      [PdfOp.findfont fontName (FindFont.encoding_name encoding)
        (if embed then embedAns else embed)] ∧
    (ans ≠ -1 → FontKeyHolds (FindFont w fontName embed encoding embedAns ans).2
      fontName encoding ans) ∧
    (ans = -1 →
      (FindFont w fontName embed encoding embedAns ans).2.fFontCache = w.fFontCache ∧
      (FindFont w fontName embed encoding embedAns ans).2.findFontCache = w.findFontCache) := by
  have hnone := FindFont.scan_font_none fontName encoding w.fFontCache hscan
  unfold FindFont
  rw [hfast, hscan]
  by_cases ha : ans ≠ -1
  · simp only []
    rw [if_pos ha]
    refine ⟨rfl, rfl, fun _ => ?_, fun h => absurd h ha⟩
    refine ⟨⟨{ name := fontName, font := ans, encoding := encoding }, by simp,
      by simp [Font.hasKey]⟩, ?_, ?_⟩
    · intro f hf hk
      simp only [List.mem_append, List.mem_singleton] at hf
      rcases hf with hf | hf
      · have := hnone f hf
        rw [hk] at this
        simp at this
      · subst hf; rfl
    · intro c hc _
      simp only [Option.some.injEq] at hc
      subst hc; rfl
  · simp only []
    rw [if_neg ha]
    have ha2 : ans = -1 := by simpa using ha
    exact ⟨rfl, rfl, fun h => absurd ha2 h, fun _ => ⟨rfl, rfl⟩⟩

/-- C19: when a `FindFont` call finds the key `(fontName, encoding)` neither in
the static `cache` nor in `fFontCache` and PDFlib creates the handle `h`, not
`-1`, the call returns `h`, and after any sequence of further `FindFont` calls
(any keys, flags and PDFlib answers) every `FindFont` call with that key
returns `h`, whatever its embed flag, without a `PDF_findfont` call and without
a new cache entry, and both the static `cache` (when it has the key) and the
first matching entry of the scan carry `h`. When PDFlib answers `-1` instead,
the call returns `-1` and adds no entry. -/
theorem FindFont_created_once (w : Writer) (fontName : String) (embed : Bool) (encoding : Nat)
    (embedAns : Bool) (h : Int)
    (hfast : w.findFontCache.filter (fun c => c.hasKey fontName encoding) = none)
    (hscan : FindFont.scan fontName encoding w.fFontCache = none) :
    (h ≠ -1 →
      (FindFont w fontName embed encoding embedAns h).1 = h ∧
      ∀ (reqs : List FontRequest) (embed2 embedAns2 : Bool) (h2 : Int),
        (FindFont (findFonts reqs (FindFont w fontName embed encoding embedAns h).2)
          fontName embed2 encoding embedAns2 h2).1 = h ∧
        (FindFont (findFonts reqs (FindFont w fontName embed encoding embedAns h).2)
          fontName embed2 encoding embedAns2 h2).2.fPdf
          = (findFonts reqs (FindFont w fontName embed encoding embedAns h).2).fPdf ∧
        (FindFont (findFonts reqs (FindFont w fontName embed encoding embedAns h).2)
          fontName embed2 encoding embedAns2 h2).2.fFontCache
          = (findFonts reqs (FindFont w fontName embed encoding embedAns h).2).fFontCache ∧
        (∀ c, (findFonts reqs (FindFont w fontName embed encoding embedAns h).2).findFontCache
            = some c → c.hasKey fontName encoding = true → c.font = h) ∧
        (∃ f, FindFont.scan fontName encoding
            (findFonts reqs (FindFont w fontName embed encoding embedAns h).2).fFontCache
              = some f ∧ f.font = h)) ∧
    ((FindFont w fontName embed encoding embedAns (-1)).1 = -1 ∧
      (FindFont w fontName embed encoding embedAns (-1)).2.fFontCache = w.fFontCache) := by
  constructor
  · intro hne
    obtain ⟨c1, _, c3, _⟩ := FindFont_creates w fontName embed encoding embedAns h hfast hscan
    refine ⟨c1, ?_⟩
    intro reqs embed2 embedAns2 h2
    have hold := findFonts_keeps_key reqs fontName encoding h _ (c3 hne)
    obtain ⟨r1, r2, r3⟩ := FindFont_hit _ fontName encoding h hold embed2 embedAns2 h2
    refine ⟨r1, r2, r3, hold.2.2, ?_⟩
    obtain ⟨g, hg⟩ := FindFont.scan_font_isSome fontName encoding _ hold.1
    obtain ⟨hg1, hg2⟩ := FindFont.scan_font_some fontName encoding _ g hg
    exact ⟨g, hg, hold.2.1 g hg1 hg2⟩
  · obtain ⟨c1, _, _, c4⟩ := FindFont_creates w fontName embed encoding embedAns (-1) hfast hscan
    exact ⟨c1, (c4 rfl).1⟩

theorem FindFont_created_once_witness :
    (FindFont fontWriter "Arial-Bold" true 0 true 11).1 = 11 ∧
    (FindFont (findFonts sampleFontRequests (FindFont fontWriter "Arial-Bold" true 0 true 11).2)
      "Arial-Bold" false 0 false 14).1 = 11 :=
  ⟨((FindFont_created_once fontWriter "Arial-Bold" true 0 true 11 rfl rfl).1 (by decide)).1,
   (((FindFont_created_once fontWriter "Arial-Bold" true 0 true 11 rfl rfl).1 (by decide)).2
      sampleFontRequests false false 14).1⟩

/-! ## Drawing a character -/

/-- C20: in the render pass, when an encoding has been chosen for the character
and `FindFont` answers a negative handle, `DrawChar` still completes: it asks
PDFlib for `("Helvetica", "macroman", not embedded)`, stores the handle it gets
in `fState->font`, and appends the calls of the drawing part for that handle,
among them the set-font call with that handle, a set-text-position call and the
show-text call for the bytes of the character. -/
theorem DrawChar_font_fallback (encodings : List unicode_to_encoding)
    (cid_tables : List cid_table) (env : CharEnv) (denv : DrawEnv) (w : Writer) (u : Nat)
    (c : Resolved) (s : State) (prev : List State)
    (hpdf : w.makesPDF = true) (hs : w.fState = s :: prev)
    (hres : (DrawChar.resolve encodings cid_tables { env with found := w.drawCharFound }
        u).chosen = some c)
    (hneg : (FindFont
        (DrawChar.afterResolve w
          (DrawChar.resolve encodings cid_tables { env with found := w.drawCharFound } u))
        (GetFontName denv.fontName c.encoding) c.embed c.encoding denv.embedAns
        denv.findfontAns).1 < 0) :
    ∃ w1, DrawChar encodings cid_tables env denv w u = some w1 ∧
      w1.fState = { s with font := denv.defaultAns } :: prev ∧
      w1.fPdf = (FindFont
          (DrawChar.afterResolve w
            (DrawChar.resolve encodings cid_tables { env with found := w.drawCharFound } u))
          (GetFontName denv.fontName c.encoding) c.embed c.encoding denv.embedAns
          denv.findfontAns).2.fPdf
        ++ [PdfOp.findfont "Helvetica" "macroman" false]
        ++ DrawChar.textOps denv c denv.defaultAns ∧
      PdfOp.setfont denv.defaultAns denv.size ∈ DrawChar.textOps denv c denv.defaultAns ∧
      (∃ x y, PdfOp.set_text_pos x y ∈ DrawChar.textOps denv c denv.defaultAns) ∧
      PdfOp.show2 [c.dest0, c.dest1] c.destLen ∈ DrawChar.textOps denv c denv.defaultAns := by
  have hne : ¬((!env.convOK || decide (env.convByte = 0)) = true ∧ w.fState = []) := by
    rw [hs]; simp
  have hs0 : (DrawChar.afterResolve w
      (DrawChar.resolve encodings cid_tables { env with found := w.drawCharFound } u)).fState
      = s :: prev := hs
  have hpdf0 : (!(DrawChar.afterResolve w
      (DrawChar.resolve encodings cid_tables { env with found := w.drawCharFound } u)).makesPDF)
      = false := by
    simp [DrawChar.afterResolve, hpdf]
  have hrun : DrawChar encodings cid_tables env denv w u = some
      { (FindFont
          (DrawChar.afterResolve w
            (DrawChar.resolve encodings cid_tables { env with found := w.drawCharFound } u))
          (GetFontName denv.fontName c.encoding) c.embed c.encoding denv.embedAns
          denv.findfontAns).2 with
        fState := { s with font := denv.defaultAns } :: prev,
        fPdf := (FindFont
            (DrawChar.afterResolve w
              (DrawChar.resolve encodings cid_tables { env with found := w.drawCharFound } u))
            (GetFontName denv.fontName c.encoding) c.embed c.encoding denv.embedAns
            denv.findfontAns).2.fPdf
          ++ [PdfOp.findfont "Helvetica" "macroman" false]
          ++ DrawChar.textOps denv c denv.defaultAns } := by
    unfold DrawChar
    rw [if_neg hne]
    simp only [hres, hpdf0, Bool.false_eq_true, if_false, hs0, if_pos hneg]
  refine ⟨_, hrun, rfl, rfl, ?_, ?_, ?_⟩
  · simp [DrawChar.textOps]
  · by_cases hr : denv.rotation ≠ 0
    · exact ⟨0, 0, by simp [DrawChar.textOps, hr]⟩
    · exact ⟨denv.x, denv.y, by simp [DrawChar.textOps, hr]⟩
  · simp [DrawChar.textOps]

theorem DrawChar_font_fallback_witness :
    ∃ w1, DrawChar sampleEncodings [] sampleCharEnv sampleDrawEnv fontWriter 0x41 = some w1 ∧
      w1.fState = [{ (default : State) with font := 1 }, default] ∧
      PdfOp.setfont 1 12 ∈ w1.fPdf ∧ PdfOp.show2 [65, 0] 1 ∈ w1.fPdf := by
  obtain ⟨w1, h1, h2, h3, h4, _, h6⟩ :=
    DrawChar_font_fallback sampleEncodings [] sampleCharEnv sampleDrawEnv fontWriter 0x41
      { encoding := macroman_encoding, dest0 := 65, dest1 := 0, destLen := 1, embed := true }
      default [default] rfl rfl (by decide) (by decide)
  exact ⟨w1, h1, h2, by rw [h3]; exact List.mem_append_right _ h4,
    by rw [h3]; exact List.mem_append_right _ h6⟩

/-! ## Transparency predicates and byte order -/

/-- C29: for a buffer of bytes, `IsTransparentRGBA32` on a pixel and
`IsTransparentRGBA32_BIG` on the same pixel with its four bytes reversed give
the same answer exactly when the alpha byte is not 127: the first tests
`alpha < 128`, the second `alpha < 127`. At alpha 127 the first answers true and
the second false. -/
theorem IsTransparentRGBA32_byte_order (buf : Buffer) (p : Int) (hb : ∀ q, buf q < 256) :
    (IsTransparentRGBA32 buf p = IsTransparentRGBA32_BIG (reversePixel buf p 4) p
      ↔ buf (p + 3) ≠ 127) ∧
    (buf (p + 3) = 127 → IsTransparentRGBA32 buf p = true ∧
      IsTransparentRGBA32_BIG (reversePixel buf p 4) p = false) := by
  have h0 : reversePixel buf p 4 p = buf (p + 3) := by simp [reversePixel]
  have h1 : reversePixel buf p 4 (p + 1) = buf (p + 2) := by
    simp [reversePixel]
  have h2 : reversePixel buf p 4 (p + 2) = buf (p + 1) := by
    simp [reversePixel]
  have h3 : reversePixel buf p 4 (p + 3) = buf p := by
    simp [reversePixel]
  have b0 := hb p
  have b1 := hb (p + 1)
  have b2 := hb (p + 2)
  have b3 := hb (p + 3)
  simp only [IsTransparentRGBA32, IsTransparentRGBA32_BIG, IsTransparentRGB32,
    IsTransparentRGB32_BIG, read32, h0, h1, h2, h3, B_TRANSPARENT_MAGIC_RGBA32,
    B_TRANSPARENT_MAGIC_RGBA32_BIG]
  generalize buf p = x0 at *
  generalize buf (p + 1) = x1 at *
  generalize buf (p + 2) = x2 at *
  generalize buf (p + 3) = x3 at *
  constructor
  · rw [Bool.eq_iff_iff]
    simp only [Bool.or_eq_true, decide_eq_true_eq, beq_iff_eq]
    omega
  · intro h
    subst h
    simp only [Bool.or_eq_true, decide_eq_true_eq, beq_iff_eq, Bool.or_eq_false_iff,
      decide_eq_false_iff_not, beq_eq_false_iff_ne]
    omega

theorem IsTransparentRGBA32_byte_order_witness :
    IsTransparentRGBA32 sampleAlpha127 0 = true ∧
    IsTransparentRGBA32_BIG (reversePixel sampleAlpha127 0 4) 0 = false :=
  (IsTransparentRGBA32_byte_order sampleAlpha127 0
    (by intro q; unfold sampleAlpha127; split <;> decide)).2 (by decide)

/-! ## The index argument of `find_in_cid_tables` -/

theorem find_in_cid_tables.loop_index (cid_tables : List cid_table) (u i0 : Nat) :
    ∀ (n e0 : Nat) (order : List Nat),
      (find_in_cid_tables.loop cid_tables u i0 n e0 order).2.2 = i0 := by
  intro n
  induction n with
  | zero => intro e0 order; rfl
  | succ n ih =>
    intro e0 order
    cases order with
    | nil => rfl
    | cons enc order =>
      unfold find_in_cid_tables.loop
      split
      · rfl
      · simp only []
        split
        · rfl
        · exact ih enc order

/-- C30: for every code point, table array, search order and prior contents of
the two reference arguments, the contents of `index` after
`find_in_cid_tables` returns are its contents before the call, whether the
function returns true or false. -/
theorem find_in_cid_tables_index_unchanged (cid_tables : List cid_table) (u e0 i0 : Nat)
    (order : List Nat) :
    (find_in_cid_tables cid_tables u e0 i0 order).2.2 = i0 :=
  find_in_cid_tables.loop_index cid_tables u i0 cid_tables.length e0 order

/-! ## Transparency brackets when no graphics state can be created -/

/-- C26: in the render pass, in drawing mode and with opacity supported, when the
drawing mode is `B_OP_ALPHA`, the alpha of the current colour is below 255, no
cache entry has that alpha and `PDF_create_gstate` fails (negative handle),
`BeginTransparency` followed by `EndTransparency` appends one `PDF_save` and the
failed `PDF_create_gstate` but no `PDF_restore`: the pair leaves one more save
than restores in the output, while the transparency stack is as before. -/
theorem transparency_save_without_restore (w : Writer) (handle : Int) (s : State)
    (rest : List State)
    (hop : w.supportsOpacity = true) (hpdf : w.makesPDF = true) (hdraw : IsDrawing w = true)
    (hs : w.fState = s :: rest) (hmode : s.drawingMode = B_OP_ALPHA)
    (halpha : s.currentColor.alpha < 255)
    (hmiss : FindTransparency.scan s.currentColor.alpha w.fTransparencyCache = none)
    (hneg : handle < 0) :
    ∃ wb, BeginTransparency w handle = some wb ∧
      wb.fPdf = w.fPdf ++ [PdfOp.save, PdfOp.create_gstate s.currentColor.alpha] ∧
      wb.fTransparencyStack = w.fTransparencyStack ++ [none] ∧
      (EndTransparency wb).fPdf
        = w.fPdf ++ [PdfOp.save, PdfOp.create_gstate s.currentColor.alpha] ∧
      saves (EndTransparency wb).fPdf = saves w.fPdf + 1 ∧
      restores (EndTransparency wb).fPdf = restores w.fPdf ∧
      (EndTransparency wb).fTransparencyStack = w.fTransparencyStack := by
  have hc : (!w.supportsOpacity || !w.makesPDF || !IsDrawing w) = false := by
    simp [hop, hpdf, hdraw]
  have hnot : ¬ handle ≥ 0 := by omega
  have hfind : FindTransparency { w with fPdf := w.fPdf ++ [PdfOp.save] }
      s.currentColor.alpha handle
      = (none, { w with fPdf := w.fPdf ++ [PdfOp.save]
                          ++ [PdfOp.create_gstate s.currentColor.alpha] }) := by
    unfold FindTransparency
    simp only [hmiss]
    rw [if_neg hnot]
  have hb : BeginTransparency w handle = some
      { w with fPdf := w.fPdf ++ [PdfOp.save] ++ [PdfOp.create_gstate s.currentColor.alpha],
               fTransparencyStack := w.fTransparencyStack ++ [none] } := by
    unfold BeginTransparency
    rw [hc]
    simp only [Bool.false_eq_true, if_false]
    split
    · rename_i h0
      rw [hs] at h0
      cases h0
    · rename_i s1 rest1 h1
      have e : s1 = s := by
        rw [hs] at h1
        exact (List.cons.inj h1).1.symm
      subst e
      rw [if_pos ⟨hmode, halpha⟩]
      simp only [hfind]
  have he := EndTransparency_after_push
    { w with fPdf := w.fPdf ++ [PdfOp.save] ++ [PdfOp.create_gstate s.currentColor.alpha],
             fTransparencyStack := w.fTransparencyStack ++ [none] }
    w.fTransparencyStack none hop hpdf (by simpa [IsDrawing] using hdraw) rfl
  simp only [Option.isSome_none, Bool.false_eq_true, if_false] at he
  refine ⟨_, hb, by simp, rfl, ?_, ?_, ?_, ?_⟩
  · rw [he]; simp
  · rw [he]; simp [saves, List.count_append]
  · rw [he]; simp [restores, List.count_append]
  · rw [he]

theorem transparency_save_without_restore_witness :
    ∃ wb, BeginTransparency alphaWriter (-1) = some wb ∧
      wb.fPdf = alphaWriter.fPdf ++ [PdfOp.save, PdfOp.create_gstate 128] ∧
      wb.fTransparencyStack = alphaWriter.fTransparencyStack ++ [none] ∧
      (EndTransparency wb).fPdf = alphaWriter.fPdf ++ [PdfOp.save, PdfOp.create_gstate 128] ∧
      saves (EndTransparency wb).fPdf = saves alphaWriter.fPdf + 1 ∧
      restores (EndTransparency wb).fPdf = restores alphaWriter.fPdf ∧
      (EndTransparency wb).fTransparencyStack = alphaWriter.fTransparencyStack :=
  transparency_save_without_restore alphaWriter (-1) _ _ rfl rfl rfl rfl rfl (by decide) rfl
    (by decide)

/-! ## Start of a job -/

theorem InitWriter_bookmarks_value (w : Writer) (msg : JobMsg) (bookmarksAns xrefsAns : Bool) :
    (InitWriter w msg bookmarksAns xrefsAns).2.fCreateBookmarks
      = (msg.create_bookmarks == some true && msg.bookmark_definition_file.isSome
          && bookmarksAns) := by
  obtain ⟨wl, cb, bf, cx, xf⟩ := msg
  rcases wl with _ | _ | _ <;> rcases cb with _ | _ | _ <;> rcases cx with _ | _ | _ <;>
    cases hb : (bf.isSome && bookmarksAns) <;> cases hx : (xf.isSome && xrefsAns) <;>
    simp [InitWriter, hb, hx]

theorem InitWriter_xrefs_value (w : Writer) (msg : JobMsg) (bookmarksAns xrefsAns : Bool) :
    (InitWriter w msg bookmarksAns xrefsAns).2.fCreateXRefs
      = (msg.create_xrefs == some true && msg.xrefs_file.isSome && xrefsAns) := by
  obtain ⟨wl, cb, bf, cx, xf⟩ := msg
  rcases wl with _ | _ | _ <;> rcases cb with _ | _ | _ <;> rcases cx with _ | _ | _ <;>
    cases hb : (bf.isSome && bookmarksAns) <;> cases hx : (xf.isSome && xrefsAns) <;>
    simp [InitWriter, hb, hx]

/-- C24: `InitWriter` returns `B_OK` for every job message and every outcome of
loading the definition files. Afterwards `fCreateBookmarks` is true exactly when
the message has `create_bookmarks = true`, has a bookmark definition file name,
and loading the definitions succeeds; so it is false when the file name is
absent or loading fails, false when the option is false or missing, and the
requested value otherwise. The same holds for `fCreateXRefs` with
`create_xrefs` and `xrefs_file`. -/
theorem InitWriter_flags (w : Writer) (msg : JobMsg) (bookmarksAns xrefsAns : Bool) :
    (InitWriter w msg bookmarksAns xrefsAns).1 = B_OK ∧
    ((InitWriter w msg bookmarksAns xrefsAns).2.fCreateBookmarks = true ↔
      msg.create_bookmarks = some true ∧ msg.bookmark_definition_file ≠ none ∧
        bookmarksAns = true) ∧
    ((InitWriter w msg bookmarksAns xrefsAns).2.fCreateXRefs = true ↔
      msg.create_xrefs = some true ∧ msg.xrefs_file ≠ none ∧ xrefsAns = true) ∧
    (msg.create_bookmarks = some true →
      (msg.bookmark_definition_file = none ∨ bookmarksAns = false) →
      (InitWriter w msg bookmarksAns xrefsAns).2.fCreateBookmarks = false) ∧
    (msg.create_xrefs = some true → (msg.xrefs_file = none ∨ xrefsAns = false) →
      (InitWriter w msg bookmarksAns xrefsAns).2.fCreateXRefs = false) ∧
    (msg.create_bookmarks = none →
      (InitWriter w msg bookmarksAns xrefsAns).2.fCreateBookmarks = false) ∧
    (msg.create_xrefs = none →
      (InitWriter w msg bookmarksAns xrefsAns).2.fCreateXRefs = false) ∧
    (∀ b, msg.create_bookmarks = some b → msg.bookmark_definition_file ≠ none →
      bookmarksAns = true →
      (InitWriter w msg bookmarksAns xrefsAns).2.fCreateBookmarks = b) ∧
    (∀ b, msg.create_xrefs = some b → msg.xrefs_file ≠ none → xrefsAns = true →
      (InitWriter w msg bookmarksAns xrefsAns).2.fCreateXRefs = b) := by
  rw [InitWriter_bookmarks_value, InitWriter_xrefs_value]
  refine ⟨rfl, ?_, ?_, ?_, ?_, ?_, ?_, ?_, ?_⟩
  · simp [Option.isSome_iff_ne_none, and_assoc]
  · simp [Option.isSome_iff_ne_none, and_assoc]
  · rintro h (h1 | h1) <;> simp [h, h1]
  · rintro h (h1 | h1) <;> simp [h, h1]
  · intro h; simp [h]
  · intro h; simp [h]
  · intro b h h1 h2
    cases b <;> simp [h, h2, Option.isSome_iff_ne_none, h1]
  · intro b h h1 h2
    cases b <;> simp [h, h2, Option.isSome_iff_ne_none, h1]

/-! ## Ellipses and rounded rectangles -/

/-- C25, as stated, fails: for the unit circle around the origin the first arc
of `PaintEllipse` runs from `(-1, 0)` to `(0, -1)` with the control points
`(-1, -0.5555555555555)` and `(-0.5555555555555, -1)`; the offset factor
`0.5555555555555` is not `0.5523` to four decimal places (it is not within
`0.00005` of it), and it exceeds `4 (√2 - 1) / 3` by more than `0.003`. -/
theorem PaintEllipse_factor_counterexample :
    (ShapeOp.arcs { x := 0, y := 0 }
        (PaintEllipse.shape { x := 0, y := 0 } { x := 1, y := 1 })).head?
      = some { start := { x := -1, y := 0 }, c1 := { x := -1, y := -0.5555555555555 },
               c2 := { x := -0.5555555555555, y := -1 }, stop := { x := 0, y := -1 } } ∧
    ¬ (|(0.5555555555555 : ℚ) - 0.5523| ≤ 0.00005) ∧
    (0.5555555555555 : ℝ) - 4 * (Real.sqrt 2 - 1) / 3 > 0.003 := by
  refine ⟨?_, ?_, ?_⟩
  · simp only [PaintEllipse.shape, ShapeOp.arcs, List.head?_cons, Option.some.injEq,
      Arc.mk.injEq, BPoint.mk.injEq]
    norm_num
  · rw [abs_of_pos (by norm_num)]
    norm_num
  · have h : Real.sqrt 2 < 1.4143 := by
      rw [Real.sqrt_lt' (by norm_num)]
      norm_num
    linarith

/-- C25, amended: for every centre and radii `(rx, ry)` the shape of
`PaintEllipse` has four Bezier arcs, between the four extreme points of the
ellipse, and for every rectangle and radii the shape of `PaintRoundRect` has
four Bezier arcs, one per corner; in each arc one control point lies `k ry`
above or below one end point and the other lies `k rx` left or right of the
other end point, with the same factor `k = 0.5555555555555` for both axes. The
factor is `0.5556` to four decimal places and exceeds the circular-arc constant
`4 (√2 - 1) / 3 = 0.5523` by more than `0.003`. -/
theorem PaintEllipse_PaintRoundRect_arcs (center radii : BPoint) (left top right bottom : ℚ) :
    ShapeOp.arcs { x := 0, y := 0 } (PaintEllipse.shape center radii)
      = [Arc.vertThenHoriz { x := center.x - radii.x, y := center.y }
           { x := center.x, y := center.y - radii.y }
           (-(0.5555555555555 * radii.y)) (-(0.5555555555555 * radii.x)),
         Arc.horizThenVert { x := center.x, y := center.y - radii.y }
           { x := center.x + radii.x, y := center.y }
           (0.5555555555555 * radii.x) (-(0.5555555555555 * radii.y)),
         Arc.vertThenHoriz { x := center.x + radii.x, y := center.y }
           { x := center.x, y := center.y + radii.y }
           (0.5555555555555 * radii.y) (0.5555555555555 * radii.x),
         Arc.horizThenVert { x := center.x, y := center.y + radii.y }
           { x := center.x - radii.x, y := center.y }
           (-(0.5555555555555 * radii.x)) (0.5555555555555 * radii.y)] ∧
    ShapeOp.arcs { x := 0, y := 0 } (PaintRoundRect.shape left top right bottom radii)
      = [Arc.vertThenHoriz { x := left, y := top + radii.y }
           { x := left + radii.x, y := top }
           (-(0.5555555555555 * radii.y)) (-(0.5555555555555 * radii.x)),
         Arc.horizThenVert { x := right - radii.x, y := top }
           { x := right, y := top + radii.y }
           (0.5555555555555 * radii.x) (-(0.5555555555555 * radii.y)),
         Arc.vertThenHoriz { x := right, y := bottom - radii.y }
           { x := right - radii.x, y := bottom }
           (0.5555555555555 * radii.y) (0.5555555555555 * radii.x),
         Arc.horizThenVert { x := left + radii.x, y := bottom }
           { x := left, y := bottom - radii.y }
           (-(0.5555555555555 * radii.x)) (0.5555555555555 * radii.y)] ∧
    |(0.5555555555555 : ℚ) - 0.5556| ≤ 0.00005 ∧
    (0.5555555555555 : ℝ) - 4 * (Real.sqrt 2 - 1) / 3 > 0.003 := by
  refine ⟨?_, ?_, ?_, ?_⟩
  · simp only [PaintEllipse.shape, ShapeOp.arcs, Arc.vertThenHoriz, Arc.horizThenVert,
      List.cons.injEq, Arc.mk.injEq, BPoint.mk.injEq, and_true]
    repeat' apply And.intro
    all_goals first | rfl | trivial | ring
  · simp only [PaintRoundRect.shape, ShapeOp.arcs, Arc.vertThenHoriz, Arc.horizThenVert,
      List.cons.injEq, Arc.mk.injEq, BPoint.mk.injEq, and_true]
    repeat' apply And.intro
    all_goals first | rfl | trivial | ring
  · rw [abs_of_neg (by norm_num)]
    norm_num
  · have h : Real.sqrt 2 < 1.4143 := by
      rw [Real.sqrt_lt' (by norm_num)]
      norm_num
    linarith

/-! ## Colour selection -/

/-- C27: in the render pass, for a state with a red foreground colour whose
current colour is black: `SetColor()` with the stipple `B_SOLID_HIGH` selects
red; after `SetStipplePattern` with a cached stipple, `SetColor()` selects the
pattern 7; after `SetStipplePattern(B_SOLID_HIGH)`, `SetColor()` makes no
PDFlib call, as `fState->currentColor` is still red. So `SetColor()` returns
with the stipple `B_SOLID_HIGH` while the colour selected last in the output
is the pattern, not the rgb value of the foreground colour. -/
theorem SetColor_after_pattern :
    (runColorCalls
        [ColorCall.SetColor 0 0,
         ColorCall.SetStipplePattern sampleStipple, ColorCall.SetColor 0 0,
         ColorCall.SetStipplePattern B_SOLID_HIGH, ColorCall.SetColor 0 0] colorWriter).map
      (fun w => (w.fState.map (fun s => (s.pattern0, s.foregroundColor, s.currentColor)),
        w.fPdf, lastSetcolor w.fPdf))
    = some ([(B_SOLID_HIGH, { red := 255, green := 0, blue := 0, alpha := 255 },
                { red := 255, green := 0, blue := 0, alpha := 255 }),
             ((default : State).pattern0, (default : State).foregroundColor,
                (default : State).currentColor)],
            [PdfOp.setcolor "both" "rgb" 255 0 0, PdfOp.setcolor "both" "pattern" 7 0 0],
            some (PdfOp.setcolor "both" "pattern" 7 0 0)) := by
  decide

/-! ## The pictures of a page -/

theorem PrintPage.picture_extra_pop (w : Writer) (top root : State) (p1 : BPoint)
    (hs : w.fState = [top, root]) (hd : w.fStateDepth = 1) :
    ∃ w1, PrintPage.picture w p1 [PictureOp.PopState] = some w1 ∧
      w1.fState = [root] ∧ w1.fStateDepth = 0 := by
  cases hp : w.makesPDF <;>
    simp [PrintPage.picture, SetOrigin, hs, PushInternalState, Iterate, PopState,
      PopInternalState, hd, hp]

/-- C28: on a page begun by `BeginPage` with `fStateDepth = 0`, a first picture
that consists of one `PopState` leaves, after the `PopInternalState` of the
picture loop, the root state alone (`fState->prev` null, depth 0); the
`SetOrigin` call for the next picture then reads `fState->prev->pdfSystem`
through the null pointer, and so does a `SetScale` call, whatever the points,
the rectangles and the further pictures are. -/
theorem PrintPage_SetOrigin_without_parent (a4_width a4_height : ℚ) (w : Writer)
    (paperRect printRect : BRect) (p1 p2 : BPoint) (scale : ℚ) (pic2 : List PictureOp)
    (rest : List (BPoint × List PictureOp)) (h0 : w.fStateDepth = 0) :
    ∃ w1, PrintPage.picture (BeginPage a4_width a4_height w paperRect printRect) p1
        [PictureOp.PopState] = some w1 ∧
      w1.fState.length = 1 ∧ w1.fStateDepth = 0 ∧
      SetOrigin w1 p2 = none ∧ SetScale w1 scale = none ∧
      PrintPage.pictures ((p1, [PictureOp.PopState]) :: (p2, pic2) :: rest)
        (BeginPage a4_width a4_height w paperRect printRect) = none := by
  obtain ⟨root, top, hs, hd⟩ := BeginPage_state a4_width a4_height w paperRect printRect
  rw [h0] at hd
  obtain ⟨w1, h1, h2, h3⟩ := PrintPage.picture_extra_pop _ top root p1 hs hd
  have h4 : SetOrigin w1 p2 = none := by simp [SetOrigin, h2]
  refine ⟨w1, h1, by rw [h2]; rfl, h3, h4, by simp [SetScale, h2], ?_⟩
  simp only [PrintPage.pictures, h1]
  simp [PrintPage.picture, h4]

theorem PrintPage_SetOrigin_without_parent_witness :
    ∃ w1, PrintPage.picture (BeginPage 595 842 idleWriter sampleRect sampleRect)
        { x := 0, y := 0 } [PictureOp.PopState] = some w1 ∧
      w1.fState.length = 1 ∧ w1.fStateDepth = 0 ∧
      SetOrigin w1 { x := 0, y := 0 } = none ∧ SetScale w1 2 = none ∧
      PrintPage.pictures [({ x := 0, y := 0 }, [PictureOp.PopState]), ({ x := 0, y := 0 }, [])]
        (BeginPage 595 842 idleWriter sampleRect sampleRect) = none :=
  PrintPage_SetOrigin_without_parent 595 842 idleWriter sampleRect sampleRect
    { x := 0, y := 0 } { x := 0, y := 0 } 2 [] [] rfl

/-! ## Characters without encoding -/

theorem DrawChar.resolve_unmappable (encodings : List unicode_to_encoding)
    (cid_tables : List cid_table) (c : CharCall) (b : Bool)
    (h : c.unmappable encodings cid_tables = true) :
    DrawChar.resolve encodings cid_tables { c.env with found := b } c.unicode
      = { chosen := none, found := true, errors := if !b then [c.unicode] else [], pdf := [] } := by
  simp only [CharCall.unmappable, Bool.and_eq_true, Bool.not_eq_true', Bool.or_eq_true,
    decide_eq_true_eq] at h
  obtain ⟨⟨⟨h1, h2⟩, h3⟩, h4⟩ := h
  have hc : (!c.env.convOK || decide (c.env.convByte = 0)) = true := by
    rcases h1 with h1 | h1 <;> simp [h1]
  simp only [DrawChar.resolve, hc, h2, h3, h4, if_true, Bool.false_eq_true, if_false]

theorem DrawChar.resolve_mappable (encodings : List unicode_to_encoding)
    (cid_tables : List cid_table) (c : CharCall) (b : Bool)
    (h : c.unmappable encodings cid_tables = false) :
    ∃ r, (DrawChar.resolve encodings cid_tables { c.env with found := b } c.unicode).chosen
        = some r ∧
      (DrawChar.resolve encodings cid_tables { c.env with found := b } c.unicode).found = b ∧
      (DrawChar.resolve encodings cid_tables { c.env with found := b } c.unicode).errors = [] := by
  unfold DrawChar.resolve
  simp only []
  by_cases hc : (!c.env.convOK || decide (c.env.convByte = 0)) = true
  · rw [if_pos hc]
    by_cases h2 : (find_encoding encodings c.unicode 0 0).1 = true
    · rw [if_pos h2]; exact ⟨_, rfl, rfl, rfl⟩
    · rw [if_neg h2]
      by_cases h3 : c.env.embeddable = true
      · rw [if_pos h3]; exact ⟨_, rfl, rfl, rfl⟩
      · rw [if_neg h3]
        by_cases h4 : (find_in_cid_tables cid_tables c.unicode 0
            (find_encoding encodings c.unicode 0 0).2.2 c.env.order).1 = true
        · rw [if_pos h4]; exact ⟨_, rfl, rfl, rfl⟩
        · exfalso
          simp only [Bool.not_eq_true] at h2 h3 h4
          simp [CharCall.unmappable, h2, h3, h4] at h
          simp [h.1, h.2] at hc
  · rw [if_neg hc]; exact ⟨_, rfl, rfl, rfl⟩

theorem FindFont_frame (w : Writer) (fontName : String) (embed : Bool) (encoding : Nat)
    (embedAns : Bool) (ans : Int) :
    (FindFont w fontName embed encoding embedAns ans).2.drawCharFound = w.drawCharFound ∧
    (FindFont w fontName embed encoding embedAns ans).2.reportedUnicodes = w.reportedUnicodes := by
  unfold FindFont
  split
  · exact ⟨rfl, rfl⟩
  · split
    · exact ⟨rfl, rfl⟩
    · simp only []
      split <;> exact ⟨rfl, rfl⟩

theorem DrawChar_skips (encodings : List unicode_to_encoding) (cid_tables : List cid_table)
    (c : CharCall) (v : Writer) (hne : v.fState ≠ [])
    (h : c.unmappable encodings cid_tables = true) :
    ∃ v1, DrawChar encodings cid_tables c.env c.denv v c.unicode = some v1 ∧
      v1.fPdf = v.fPdf ∧ v1.fState = v.fState ∧ v1.drawCharFound = true ∧
      v1.reportedUnicodes = v.reportedUnicodes ++
        (if v.drawCharFound then [] else [c.unicode]) := by
  unfold DrawChar
  rw [if_neg (fun hh => hne hh.2)]
  simp only [DrawChar.resolve_unmappable encodings cid_tables c v.drawCharFound h,
    DrawChar.afterResolve]
  refine ⟨_, rfl, by simp, rfl, rfl, ?_⟩
  cases v.drawCharFound <;> simp

theorem DrawChar_draws (encodings : List unicode_to_encoding) (cid_tables : List cid_table)
    (c : CharCall) (v : Writer) (hne : v.fState ≠ [])
    (h : c.unmappable encodings cid_tables = false) :
    ∃ v1, DrawChar encodings cid_tables c.env c.denv v c.unicode = some v1 ∧
      v1.fState ≠ [] ∧ v1.drawCharFound = v.drawCharFound ∧
      v1.reportedUnicodes = v.reportedUnicodes := by
  obtain ⟨r, hr, hf, he⟩ := DrawChar.resolve_mappable encodings cid_tables c v.drawCharFound h
  unfold DrawChar
  rw [if_neg (fun hh => hne hh.2)]
  simp only [hr]
  split
  · refine ⟨_, rfl, hne, ?_, ?_⟩
    · simp [DrawChar.afterResolve, hf]
    · simp [DrawChar.afterResolve, he]
  · split
    · rename_i h0
      exact absurd h0 hne
    · rename_i s prev hs
      refine ⟨_, rfl, by simp, ?_, ?_⟩
      · simp only []
        split
        · simp only [(FindFont_frame _ _ _ _ _ _).1, DrawChar.afterResolve, hf]
        · simp only [(FindFont_frame _ _ _ _ _ _).1, DrawChar.afterResolve, hf]
      · simp only []
        split
        · simp only [(FindFont_frame _ _ _ _ _ _).2, DrawChar.afterResolve, he,
            List.append_nil]
        · simp only [(FindFont_frame _ _ _ _ _ _).2, DrawChar.afterResolve, he,
            List.append_nil]

theorem drawChars_reports (encodings : List unicode_to_encoding) (cid_tables : List cid_table)
    (calls : List CharCall) :
    ∀ w : Writer, w.fState ≠ [] →
      ∃ w1, drawChars encodings cid_tables calls w = some w1 ∧
        w1.reportedUnicodes = w.reportedUnicodes ++
          (if w.drawCharFound then []
           else ((calls.find? (fun c => c.unmappable encodings cid_tables)).map
             (fun c => c.unicode)).toList) := by
  induction calls with
  | nil =>
    intro w _
    exact ⟨w, rfl, by simp⟩
  | cons c cs ih =>
    intro w hne
    cases hu : c.unmappable encodings cid_tables
    · obtain ⟨v1, h1, h2, h3, h4⟩ := DrawChar_draws encodings cid_tables c w hne hu
      obtain ⟨w1, g1, g2⟩ := ih v1 h2
      refine ⟨w1, ?_, ?_⟩
      · simp only [drawChars, h1, g1]
      · rw [g2, h3, h4]
        simp [List.find?_cons, hu]
    · obtain ⟨v1, h1, _, h2, h3, h4⟩ := DrawChar_skips encodings cid_tables c w hne hu
      obtain ⟨w1, g1, g2⟩ := ih v1 (by rw [h2]; exact hne)
      refine ⟨w1, ?_, ?_⟩
      · simp only [drawChars, h1, g1]
      · rw [g2, h3, h4]
        cases hfd : w.drawCharFound <;> simp [List.find?_cons, hu]

/-- C23: over every sequence of `DrawChar` calls that starts with a current
state, all calls return, and the code points reported with "Could not find an
encoding for character" during the sequence are: none when the static flag
`found` is already set, and otherwise just the first code point of the sequence
for which no encoding is found (none when there is no such code point); so the
report is issued at most once. Each call for a code point without encoding
makes no PDFlib call and leaves the state chain, and with it `fState->font`,
unchanged. -/
theorem DrawChar_reports_once (encodings : List unicode_to_encoding)
    (cid_tables : List cid_table) (calls : List CharCall) (w : Writer) (hne : w.fState ≠ []) :
    (∃ w1, drawChars encodings cid_tables calls w = some w1 ∧
      w1.reportedUnicodes = w.reportedUnicodes ++
        (if w.drawCharFound then []
         else ((calls.find? (fun c => c.unmappable encodings cid_tables)).map
           (fun c => c.unicode)).toList) ∧
      w1.reportedUnicodes.length ≤ w.reportedUnicodes.length + 1) ∧
    (∀ (c : CharCall) (v : Writer), v.fState ≠ [] →
      c.unmappable encodings cid_tables = true →
      ∃ v1, DrawChar encodings cid_tables c.env c.denv v c.unicode = some v1 ∧
        v1.fPdf = v.fPdf ∧ v1.fState = v.fState) := by
  constructor
  · obtain ⟨w1, h1, h2⟩ := drawChars_reports encodings cid_tables calls w hne
    refine ⟨w1, h1, h2, ?_⟩
    rw [h2, List.length_append]
    split
    · simp
    · cases (calls.find? fun c => c.unmappable encodings cid_tables) <;> simp
  · intro c v hv hu
    obtain ⟨v1, h1, h2, h3, _⟩ := DrawChar_skips encodings cid_tables c v hv hu
    exact ⟨v1, h1, h2, h3⟩

theorem DrawChar_reports_once_witness :
    ∃ w1, drawChars sampleEncodings [] sampleCharCalls fontWriter = some w1 ∧
      w1.reportedUnicodes = [0x3042] := by
  obtain ⟨w1, h1, h2, _⟩ :=
    (DrawChar_reports_once sampleEncodings [] sampleCharCalls fontWriter (by decide)).1
  exact ⟨w1, h1, by rw [h2]; decide⟩

/-! ## The CJK tables -/

theorem find_in_cid_tables.cid_search_sound (table : cid_table) (u : Nat) (bottom top : Int)
    (cid : Nat) (h : find_in_cid_tables.search table u bottom top = some cid) :
    ∃ m : Int, bottom ≤ m ∧ m ≤ top ∧
      (table.getD m.toNat { unicode := 0, cid := 0 }).unicode = u := by
  induction bottom, top using find_in_cid_tables.search.induct table u with
  | case1 bottom top hge mid r hlt ih =>
    rw [find_in_cid_tables.search] at h
    simp only [hge, if_true] at h
    rw [if_pos hlt] at h
    have hb := tdiv_two_bounds (top + bottom)
    obtain ⟨m, h1, h2, h3⟩ := ih h
    refine ⟨m, h1, ?_, h3⟩
    simp only [mid] at h2
    omega
  | case2 bottom top hge mid r hnlt hgt ih =>
    rw [find_in_cid_tables.search] at h
    simp only [hge, if_true] at h
    rw [if_neg hnlt, if_pos hgt] at h
    have hb := tdiv_two_bounds (top + bottom)
    obtain ⟨m, h1, h2, h3⟩ := ih h
    refine ⟨m, ?_, h2, h3⟩
    simp only [mid] at h1
    omega
  | case3 bottom top hge mid r hnlt hngt =>
    have hb := tdiv_two_bounds (top + bottom)
    refine ⟨mid, ?_, ?_, ?_⟩
    · simp only [mid]; omega
    · simp only [mid]; omega
    · simp only [r] at hnlt hngt; omega
  | case4 bottom top hlt =>
    rw [find_in_cid_tables.search] at h
    simp [hlt] at h

theorem cid_getD_lt_of_pairwise (table : cid_table)
    (hs : table.Pairwise (fun a b => a.unicode < b.unicode)) (i j : Nat)
    (hij : i < j) (hj : j < table.length) :
    (table.getD i { unicode := 0, cid := 0 }).unicode
      < (table.getD j { unicode := 0, cid := 0 }).unicode := by
  rw [List.getD_eq_getElem table _ (by omega : i < table.length), List.getD_eq_getElem table _ hj]
  exact List.pairwise_iff_getElem.1 hs i j (by omega) hj hij

theorem find_in_cid_tables.cid_search_complete (table : cid_table)
    (hs : table.Pairwise (fun a b => a.unicode < b.unicode))
    (u : Nat) (bottom top : Int) (hb : 0 ≤ bottom) (ht : top < table.length)
    (h : find_in_cid_tables.search table u bottom top = none) :
    ∀ k : Nat, bottom ≤ k → (k : Int) ≤ top →
      (table.getD k { unicode := 0, cid := 0 }).unicode ≠ u := by
  induction bottom, top using find_in_cid_tables.search.induct table u with
  | case1 bottom top hge mid r hlt ih =>
    rw [find_in_cid_tables.search] at h
    simp only [hge, if_true] at h
    rw [if_pos hlt] at h
    have hbd := tdiv_two_bounds (top + bottom)
    have hmid : mid = (top + bottom).tdiv 2 := rfl
    simp only [r] at hlt
    intro k hk1 hk2
    by_cases hkm : (k : Int) ≤ mid - 1
    · exact ih hb (by omega) h k hk1 hkm
    · have hmk : mid.toNat ≤ k := by omega
      rcases Nat.eq_or_lt_of_le hmk with he | hl
      · rw [← he]; omega
      · have := cid_getD_lt_of_pairwise table hs mid.toNat k hl (by omega)
        omega
  | case2 bottom top hge mid r hnlt hgt ih =>
    rw [find_in_cid_tables.search] at h
    simp only [hge, if_true] at h
    rw [if_neg hnlt, if_pos hgt] at h
    have hbd := tdiv_two_bounds (top + bottom)
    have hmid : mid = (top + bottom).tdiv 2 := rfl
    simp only [r] at hgt
    intro k hk1 hk2
    by_cases hkm : mid + 1 ≤ (k : Int)
    · exact ih (by omega) ht h k hkm hk2
    · have hmk : k ≤ mid.toNat := by omega
      rcases Nat.eq_or_lt_of_le hmk with he | hl
      · rw [he]; omega
      · have := cid_getD_lt_of_pairwise table hs k mid.toNat hl (by omega)
        omega
  | case3 bottom top hge mid r hnlt hngt =>
    rw [find_in_cid_tables.search] at h
    simp only [hge, if_true] at h
    rw [if_neg hnlt, if_neg hngt] at h
    simp at h
  | case4 bottom top hlt =>
    intro k hk1 hk2
    omega

theorem find_in_cid_tables.search_isSome (table : cid_table)
    (hs : table.Pairwise (fun a b => a.unicode < b.unicode)) (hlen : table.length < 65536)
    (u : Nat) :
    (find_in_cid_tables.search table u 0 (table.length16 - 1)).isSome = table.hasUnicode u := by
  have hl : table.length16 = table.length := by
    unfold cid_table.length16
    rw [Nat.mod_eq_of_lt hlen]
  rw [hl]
  cases hsr : find_in_cid_tables.search table u 0 (table.length - 1) with
  | some cid =>
    obtain ⟨m, h1, h2, h3⟩ := find_in_cid_tables.cid_search_sound table u 0 _ cid hsr
    symm
    simp only [Option.isSome_some, cid_table.hasUnicode, List.any_eq_true, beq_iff_eq]
    have hm : m.toNat < table.length := by omega
    refine ⟨table[m.toNat], List.getElem_mem hm, ?_⟩
    rw [List.getD_eq_getElem table _ hm] at h3
    exact h3
  | none =>
    have hc := find_in_cid_tables.cid_search_complete table hs u 0 _ (le_refl 0) (by omega) hsr
    symm
    simp only [Option.isSome_none, cid_table.hasUnicode, List.any_eq_false, beq_iff_eq]
    intro r hr
    obtain ⟨k, hk, rfl⟩ := List.getElem_of_mem hr
    have := hc k (by omega) (by omega)
    rw [List.getD_eq_getElem table _ hk] at this
    exact this

theorem find_in_cid_tables.firstHit_cons (cid_tables : List cid_table) (u enc : Nat)
    (order : List Nat) (hinv : enc ≠ invalid_encoding) :
    find_in_cid_tables.firstHit cid_tables u (enc :: order)
      = if (cid_table.forEncoding cid_tables enc).hasUnicode u then some enc
        else find_in_cid_tables.firstHit cid_tables u order := by
  simp [find_in_cid_tables.firstHit, List.takeWhile_cons, hinv, List.find?_cons]
  split <;> simp_all

theorem find_in_cid_tables.loop_firstHit (cid_tables : List cid_table) (u i0 : Nat)
    (hsorted : ∀ t ∈ cid_tables, t.Pairwise (fun a b => a.unicode < b.unicode))
    (hsize : ∀ t ∈ cid_tables, t.length < 65536) :
    ∀ (order : List Nat) (n e0 : Nat), order.length ≤ n →
      (∀ e ∈ order, e = invalid_encoding ∨
        (first_cjk_encoding ≤ e ∧ e < first_cjk_encoding + cid_tables.length)) →
      (∀ e, find_in_cid_tables.firstHit cid_tables u order = some e →
        find_in_cid_tables.loop cid_tables u i0 n e0 order = (true, e, i0)) ∧
      (find_in_cid_tables.firstHit cid_tables u order = none →
        (find_in_cid_tables.loop cid_tables u i0 n e0 order).1 = false) := by
  intro order
  induction order with
  | nil =>
    intro n e0 _ _
    constructor
    · intro e h; simp [find_in_cid_tables.firstHit] at h
    · intro _; cases n <;> rfl
  | cons enc order ih =>
    intro n e0 hn hvalid
    obtain ⟨m, rfl⟩ : ∃ m, n = m + 1 := ⟨n - 1, by simp only [List.length_cons] at hn; omega⟩
    simp only [List.length_cons] at hn
    by_cases hinv : enc = invalid_encoding
    · have hfh : find_in_cid_tables.firstHit cid_tables u (enc :: order) = none := by
        simp [find_in_cid_tables.firstHit, List.takeWhile_cons, hinv]
      constructor
      · intro e h; rw [hfh] at h; cases h
      · intro _
        unfold find_in_cid_tables.loop
        rw [if_pos hinv]
    · have hr := (hvalid enc (by simp)).resolve_left hinv
      have htab : (if (0 : Int) ≤ (enc : Int) - (first_cjk_encoding : Int) then
            cid_tables.getD ((enc : Int) - (first_cjk_encoding : Int)).toNat []
          else []) = cid_table.forEncoding cid_tables enc := by
        have h0 : (0 : Int) ≤ (enc : Int) - (first_cjk_encoding : Int) := by omega
        have h1 : ((enc : Int) - (first_cjk_encoding : Int)).toNat = enc - first_cjk_encoding := by
          omega
        rw [if_pos h0, h1]
        rfl
      have hmem : cid_table.forEncoding cid_tables enc ∈ cid_tables := by
        unfold cid_table.forEncoding
        have hlt : enc - first_cjk_encoding < cid_tables.length := by omega
        rw [List.getD_eq_getElem cid_tables _ hlt]
        exact List.getElem_mem hlt
      have hsome := find_in_cid_tables.search_isSome _ (hsorted _ hmem) (hsize _ hmem) u
      rw [find_in_cid_tables.firstHit_cons cid_tables u enc order hinv]
      unfold find_in_cid_tables.loop
      rw [if_neg hinv]
      simp only []
      rw [htab]
      cases hsr : find_in_cid_tables.search (cid_table.forEncoding cid_tables enc) u 0
          ((cid_table.forEncoding cid_tables enc).length16 - 1) with
      | some cid =>
        rw [hsr] at hsome
        simp only [Option.isSome_some] at hsome
        rw [← hsome]
        simp
      | none =>
        rw [hsr] at hsome
        simp only [Option.isSome_none] at hsome
        rw [← hsome]
        simp only [Bool.false_eq_true, if_false]
        exact ih m enc (by omega) (fun e he => hvalid e (by simp [he]))

/-- C22: for CJK tables sorted strictly ascending by code point (each with
fewer than 65536 records, as its length is a `uint16`) and a search order with
one entry per table, each entry a CJK encoding or `invalid_encoding`:
`find_in_cid_tables` returns true with `encoding` set to the first entry, among
those before the first `invalid_encoding`, whose table contains `u`; it returns
false when no such entry exists, in particular when the first entry is
`invalid_encoding`. -/
theorem find_in_cid_tables_search_order (cid_tables : List cid_table) (u e0 i0 : Nat)
    (order : List Nat)
    (hcount : cid_tables.length = 4) (horder : order.length = 4)
    (hvalid : ∀ e ∈ order, e = invalid_encoding ∨
      (first_cjk_encoding ≤ e ∧ e < first_cjk_encoding + cid_tables.length))
    (hsorted : ∀ t ∈ cid_tables, t.Pairwise (fun a b => a.unicode < b.unicode))
    (hsize : ∀ t ∈ cid_tables, t.length < 65536) :
    (∀ e, find_in_cid_tables.firstHit cid_tables u order = some e →
      find_in_cid_tables cid_tables u e0 i0 order = (true, e, i0)) ∧
    (find_in_cid_tables.firstHit cid_tables u order = none →
      (find_in_cid_tables cid_tables u e0 i0 order).1 = false) ∧
    (order.head? = some invalid_encoding →
      (find_in_cid_tables cid_tables u e0 i0 order).1 = false) := by
  have h := find_in_cid_tables.loop_firstHit cid_tables u i0 hsorted hsize order
    cid_tables.length e0 (by omega) hvalid
  refine ⟨h.1, h.2, ?_⟩
  intro hh
  apply h.2
  cases order with
  | nil => simp at hh
  | cons a rest =>
    simp only [List.head?_cons, Option.some.injEq] at hh
    simp [find_in_cid_tables.firstHit, List.takeWhile_cons, hh]

theorem find_in_cid_tables_search_order_witness :
    find_in_cid_tables sampleCidTables 0x4e00 0 0 sampleOrder = (true, chinese_gb1_encoding, 0) ∧
    (find_in_cid_tables sampleCidTables 0xac00 0 0 sampleOrder).1 = false :=
  ⟨(find_in_cid_tables_search_order sampleCidTables 0x4e00 0 0 sampleOrder rfl rfl
      (by decide) (by decide) (by decide)).1 _ (by decide),
   (find_in_cid_tables_search_order sampleCidTables 0xac00 0 0 sampleOrder rfl rfl
      (by decide) (by decide) (by decide)).2.1 (by decide)⟩

/-! ## Characters drawn with a CJK substitute font -/

theorem find_in_cid_tables.loop_true_mem (cid_tables : List cid_table) (u i0 : Nat) :
    ∀ (n e0 : Nat) (order : List Nat),
      (find_in_cid_tables.loop cid_tables u i0 n e0 order).1 = true →
      (find_in_cid_tables.loop cid_tables u i0 n e0 order).2.1 ∈ order ∧
      (find_in_cid_tables.loop cid_tables u i0 n e0 order).2.1 ≠ invalid_encoding := by
  intro n
  induction n with
  | zero => intro e0 order h; simp [find_in_cid_tables.loop] at h
  | succ n ih =>
    intro e0 order
    cases order with
    | nil => intro h; simp [find_in_cid_tables.loop] at h
    | cons enc order =>
      unfold find_in_cid_tables.loop
      split
      · intro h; simp at h
      · rename_i hinv
        simp only []
        split
        · intro _
          exact ⟨by simp, hinv⟩
        · intro h
          obtain ⟨h1, h2⟩ := ih enc order h
          exact ⟨by simp [h1], h2⟩

theorem DrawChar.resolve_CJK (encodings : List unicode_to_encoding)
    (cid_tables : List cid_table) (env : CharEnv) (u : Nat)
    (hconv : (!env.convOK || decide (env.convByte = 0)) = true)
    (hfe : (find_encoding encodings u 0 0).1 = false)
    (hemb : env.embeddable = false)
    (hcid : (find_in_cid_tables cid_tables u 0 0 env.order).1 = true) :
    DrawChar.resolve encodings cid_tables env u
      = { chosen := some { encoding := (find_in_cid_tables cid_tables u 0 0 env.order).2.1,
                           dest0 := u / 256 % 256, dest1 := u % 256, destLen := 2,
                           embed := false },
          found := env.found, errors := [], pdf := [] } := by
  have hr : find_encoding encodings u 0 0 = (false, 0, 0) :=
    find_encoding.loop_false u 0 0 encodings 0 hfe
  simp only [DrawChar.resolve, hconv, hr, hemb, hcid, if_true, Bool.false_eq_true, if_false]

theorem DrawChar_render (encodings : List unicode_to_encoding) (cid_tables : List cid_table)
    (env : CharEnv) (denv : DrawEnv) (w : Writer) (u : Nat) (c : Resolved) (s : State)
    (prev : List State) (hpdf : w.makesPDF = true) (hs : w.fState = s :: prev)
    (hres : (DrawChar.resolve encodings cid_tables { env with found := w.drawCharFound }
        u).chosen = some c) :
    ∃ w1 font, DrawChar encodings cid_tables env denv w u = some w1 ∧
      w1.fState = { s with font := font } :: prev ∧
      w1.fPdf = (FindFont
          (DrawChar.afterResolve w
            (DrawChar.resolve encodings cid_tables { env with found := w.drawCharFound } u))
          (GetFontName denv.fontName c.encoding) c.embed c.encoding denv.embedAns
          denv.findfontAns).2.fPdf
        ++ (if (FindFont
              (DrawChar.afterResolve w
                (DrawChar.resolve encodings cid_tables { env with found := w.drawCharFound } u))
              (GetFontName denv.fontName c.encoding) c.embed c.encoding denv.embedAns
              denv.findfontAns).1 < 0
            then [PdfOp.findfont "Helvetica" "macroman" false] else [])
        ++ DrawChar.textOps denv c font := by
  have hne : ¬((!env.convOK || decide (env.convByte = 0)) = true ∧ w.fState = []) := by
    rw [hs]; simp
  have hs0 : (DrawChar.afterResolve w
      (DrawChar.resolve encodings cid_tables { env with found := w.drawCharFound } u)).fState
      = s :: prev := hs
  have hpdf0 : (!(DrawChar.afterResolve w
      (DrawChar.resolve encodings cid_tables { env with found := w.drawCharFound } u)).makesPDF)
      = false := by
    simp [DrawChar.afterResolve, hpdf]
  unfold DrawChar
  rw [if_neg hne]
  simp only [hres, hpdf0, Bool.false_eq_true, if_false, hs0]
  split
  · exact ⟨_, _, rfl, rfl, by simp⟩
  · exact ⟨_, _, rfl, rfl, by simp⟩

/-- C21: for a code point `u = u[0]*256 + u[1]` that `DrawString` decoded from
the UCS-2 bytes `u[0]`, `u[1]`, when MacRoman and `find_encoding` fail, the font
is not embeddable and `find_in_cid_tables` succeeds for a search order of CJK
encodings: the chosen encoding is the entry `fenc` that `find_in_cid_tables`
stored, the output bytes are `dest[0] = u[0] = u div 256` and
`dest[1] = u[1] = u mod 256` with `destLen = 2` (so `256 dest[0] + dest[1] = u`),
the glyph is marked not embedded, and the font name is `HeiseiMin-W3`,
`MHei-Medium`, `STSong-Light` or `HYGoThic-Medium` for the Japanese, CNS1, GB1
or Korean encoding. In the render pass `DrawChar` looks the font up under that
name, not embedded, and shows the two bytes. -/
theorem DrawChar_CJK_bytes (encodings : List unicode_to_encoding)
    (cid_tables : List cid_table) (env : CharEnv) (denv : DrawEnv) (w : Writer)
    (u0 u1 : Nat) (s : State) (prev : List State)
    (hu0 : u0 < 256) (hu1 : u1 < 256)
    (hconv : (!env.convOK || decide (env.convByte = 0)) = true)
    (hfe : (find_encoding encodings (DrawString.codePoint u0 u1) 0 0).1 = false)
    (hemb : env.embeddable = false)
    (hcid : (find_in_cid_tables cid_tables (DrawString.codePoint u0 u1) 0 0 env.order).1 = true)
    (hvalid : ∀ e ∈ env.order, e = invalid_encoding ∨
      (japanese_encoding ≤ e ∧ e ≤ korean_encoding))
    (hpdf : w.makesPDF = true) (hs : w.fState = s :: prev) :
    ∃ fenc w1 font,
      find_in_cid_tables cid_tables (DrawString.codePoint u0 u1) 0 0 env.order
        = (true, fenc, 0) ∧
      (fenc, GetFontName denv.fontName fenc) ∈
        [(japanese_encoding, "HeiseiMin-W3"), (chinese_cns1_encoding, "MHei-Medium"),
         (chinese_gb1_encoding, "STSong-Light"), (korean_encoding, "HYGoThic-Medium")] ∧
      (DrawChar.resolve encodings cid_tables env (DrawString.codePoint u0 u1)).chosen
        = some { encoding := fenc, dest0 := u0, dest1 := u1, destLen := 2, embed := false } ∧
      u0 = DrawString.codePoint u0 u1 / 256 ∧ u1 = DrawString.codePoint u0 u1 % 256 ∧
      256 * u0 + u1 = DrawString.codePoint u0 u1 ∧
      DrawChar encodings cid_tables env denv w (DrawString.codePoint u0 u1) = some w1 ∧
      w1.fPdf = (FindFont
          (DrawChar.afterResolve w
            (DrawChar.resolve encodings cid_tables { env with found := w.drawCharFound }
              (DrawString.codePoint u0 u1)))
          (GetFontName denv.fontName fenc) false fenc denv.embedAns denv.findfontAns).2.fPdf
        ++ (if (FindFont
              (DrawChar.afterResolve w
                (DrawChar.resolve encodings cid_tables { env with found := w.drawCharFound }
                  (DrawString.codePoint u0 u1)))
              (GetFontName denv.fontName fenc) false fenc denv.embedAns denv.findfontAns).1 < 0
            then [PdfOp.findfont "Helvetica" "macroman" false] else [])
        ++ DrawChar.textOps denv
            { encoding := fenc, dest0 := u0, dest1 := u1, destLen := 2, embed := false } font ∧
      PdfOp.show2 [u0, u1] 2 ∈ w1.fPdf := by
  have hd0 : DrawString.codePoint u0 u1 / 256 % 256 = u0 := by
    unfold DrawString.codePoint; omega
  have hd1 : DrawString.codePoint u0 u1 % 256 = u1 := by
    unfold DrawString.codePoint; omega
  have hdiv : DrawString.codePoint u0 u1 / 256 = u0 := by
    unfold DrawString.codePoint; omega
  have hsum : 256 * u0 + u1 = DrawString.codePoint u0 u1 := by
    unfold DrawString.codePoint; omega
  generalize hu : DrawString.codePoint u0 u1 = u at *
  have hres := DrawChar.resolve_CJK encodings cid_tables env u hconv hfe hemb hcid
  have hres2 := DrawChar.resolve_CJK encodings cid_tables { env with found := w.drawCharFound }
    u hconv hfe hemb hcid
  rw [hd0, hd1] at hres hres2
  have hmm : (find_in_cid_tables cid_tables u 0 0 env.order).2.1 ∈ env.order ∧
      (find_in_cid_tables cid_tables u 0 0 env.order).2.1 ≠ invalid_encoding :=
    find_in_cid_tables.loop_true_mem cid_tables u 0 _ _ _ hcid
  obtain ⟨hmem, hninv⟩ := hmm
  have hidx : (find_in_cid_tables cid_tables u 0 0 env.order).2.2 = 0 :=
    find_in_cid_tables.loop_index cid_tables u 0 _ _ _
  generalize hf : find_in_cid_tables cid_tables u 0 0 env.order = r at *
  obtain ⟨r1, fenc, r3⟩ := r
  simp only at hcid hidx hres hres2
  subst hcid hidx
  have hrange := (hvalid fenc hmem).resolve_left hninv
  obtain ⟨w1, font, h1, _, h3⟩ := DrawChar_render encodings cid_tables env denv w u
    { encoding := fenc, dest0 := u0, dest1 := u1, destLen := 2, embed := false } s prev
    hpdf hs (by rw [hres2])
  refine ⟨fenc, w1, font, rfl, ?_, by rw [hres], hdiv.symm, hd1.symm, hsum, h1, h3, ?_⟩
  · simp only [japanese_encoding, korean_encoding] at hrange
    obtain ⟨ha, hb⟩ := hrange
    interval_cases fenc <;>
      simp [GetFontName, japanese_encoding, chinese_cns1_encoding, chinese_gb1_encoding,
        korean_encoding]
  · rw [h3]
    simp [DrawChar.textOps]

theorem DrawChar_CJK_bytes_witness :
    ∃ w1, DrawChar sampleEncodings sampleCidTables sampleCharEnvCJK sampleDrawEnvFound
        fontWriter (DrawString.codePoint 0x4e 0x00) = some w1 ∧
      PdfOp.show2 [0x4e, 0x00] 2 ∈ w1.fPdf := by
  obtain ⟨fenc, w1, font, _, _, _, _, _, _, h7, _, h9⟩ :=
    DrawChar_CJK_bytes sampleEncodings sampleCidTables sampleCharEnvCJK sampleDrawEnvFound
      fontWriter 0x4e 0x00 default [default] (by decide) (by decide) (by decide) (by decide)
      rfl
      (congrArg Prod.fst
        ((find_in_cid_tables.loop_firstHit sampleCidTables (DrawString.codePoint 0x4e 0x00) 0
          (by decide) (by decide) sampleOrder sampleCidTables.length 0 (by decide)
          (by decide)).1 chinese_gb1_encoding (by decide)))
      (by decide) rfl rfl
  exact ⟨w1, h7, h9⟩

end PDFWriter
